import Mathlib

/-!
Shallow embedding of `procsim.cpp`, a cycle-accurate simulator of an
out-of-order superscalar processor pipeline (fetch, dispatch, schedule,
execute, state update), together with proofs about the claims of its
specification.

Modelling conventions:
* Instruction records live in an append-only arena `store : List Inst`;
  every container (dispatch queue, reservation station, latches, bus-wait
  list, FU slots) holds arena indices, mirroring the stable C++ pointers.
  The instruction fetched with tag `t` sits at arena index `t - 1`.
* `std::sort` with a strict-weak comparator is modelled by an insertion
  sort over the corresponding total boolean preorder; all sort keys used
  by the program are injective on the lists being sorted, so the sorted
  result is the same list `std::sort` produces.
* The driver loop of `run_proc` is given explicit fuel and returns `none`
  when the fuel runs out before the loop condition turns false.
* `double` statistics accumulators only ever hold sums of natural numbers
  in the simulator, so they are modelled as `Nat`; the `float` averages of
  `complete_proc` are modelled as exact rationals.
-/

/-- The decoded trace record (`proc_inst_t`): opcode, destination register,
two source registers; negative register indices mean "none". -/
structure ProcInst where
  op_code : Int
  dest_reg : Int
  src_reg0 : Int
  src_reg1 : Int
deriving DecidableEq, Repr

/-- `kMaxRegs = 128`. -/
def kMaxRegs : Int := 128

/-- `kLatency[3] = {1, 1, 1}`. -/
def kLatency : List Nat := [1, 1, 1]

/-- `fu_type_from_opcode`: `op < 0` maps to FU type 1, otherwise `op % 3`. -/
def fu_type_from_opcode (op : Int) : Nat :=
  if op < 0 then 1
  else if 3 ≤ op then (op % 3).toNat
  else op.toNat

/-- Per-instruction simulator record (struct `Inst`). `fu` is the index of
the FU slot currently holding the instruction, if any. -/
structure Inst where
  raw : ProcInst
  tag : Nat
  fetch_c : Nat := 0
  disp_c : Nat := 0
  sched_c : Nat := 0
  exec_c : Nat := 0
  state_c : Nat := 0
  sched_ready_c : Nat := 0
  src_ready0 : Bool := false
  src_ready1 : Bool := false
  src_tag0 : Int := -1
  src_tag1 : Int := -1
  issued : Bool := false
  waiting_bus : Bool := false
  enqueued_bus : Bool := false
  completion_c : Nat := 0
  type : Nat := 0
  fu : Option Nat := none
deriving DecidableEq, Repr

/-- A functional-unit slot (struct `FU`): its type, the arena index of the
instruction it holds (if busy) and the remaining execution ticks. -/
structure FU where
  type : Nat := 0
  inst : Option Nat := none
  remaining : Nat := 0
deriving DecidableEq, Repr

/-- The whole simulator state: configuration, trace source, instruction
arena, queues, latches, rename table, FU pool and statistics counters. -/
structure PState where
  gF : Nat
  gR : Nat
  gK0 : Nat
  gK1 : Nat
  gK2 : Nat
  gRS_cap : Nat
  next_tag : Nat
  trace_done : Bool
  trace : List ProcInst
  store : List Inst
  q_dispatch : List Nat
  rs : List Nat
  st_update : List Nat
  bus_wait : List Nat
  latch_fd_cur : List Nat
  latch_fd_nxt : List Nat
  latch_ds_cur : List Nat
  latch_ds_nxt : List Nat
  latch_se_cur : List Nat
  latch_se_nxt : List Nat
  reg_map : List Int
  fu_pool : List FU
  cycle : Nat
  g_retired : Nat
  g_issued_total : Nat
  g_disp_q_sum : Nat
  g_disp_q_max : Nat
deriving DecidableEq, Repr

/-- Default instruction record used as the out-of-range fallback of arena
lookups (never hit by in-range accesses). -/
def defInst : Inst := { raw := ⟨0, 0, 0, 0⟩, tag := 0 }

/-- Default FU used as the out-of-range fallback of pool lookups. -/
def defFU : FU := {}

/-- Read the instruction at arena index `i` (dereference a stable pointer). -/
def mget (s : PState) (i : Nat) : Inst := s.store.getD i defInst

/-- Mutate the instruction at arena index `i` in place. -/
def mmod (s : PState) (i : Nat) (f : Inst → Inst) : PState :=
  { s with store := s.store.set i (f (mget s i)) }

/-- Read the FU slot at pool index `fi`. -/
def fget (s : PState) (fi : Nat) : FU := s.fu_pool.getD fi defFU

/-- Mutate the FU slot at pool index `fi` in place. -/
def fmod (s : PState) (fi : Nat) (f : FU → FU) : PState :=
  { s with fu_pool := s.fu_pool.set fi (f (fget s fi)) }

/-- `pipeline_empty`: no queue, latch, state-update set, bus-wait set, or FU
slot holds an instruction. -/
def pipeline_empty (s : PState) : Bool :=
  s.q_dispatch.isEmpty && s.rs.isEmpty && s.st_update.isEmpty && s.bus_wait.isEmpty &&
  s.latch_fd_cur.isEmpty && s.latch_fd_nxt.isEmpty &&
  s.latch_ds_cur.isEmpty && s.latch_ds_nxt.isEmpty &&
  s.latch_se_cur.isEmpty && s.latch_se_nxt.isEmpty &&
  s.fu_pool.all (fun fu => fu.inst == none)

/-- `wakeup_rs_sources` on a single RS entry: each unready source whose
awaited tag equals the producer becomes ready. -/
def wakeup_inst (producer : Int) (w : Inst) : Inst :=
  let w1 := if !w.src_ready0 && w.src_tag0 == producer then
      { w with src_ready0 := true, src_tag0 := -1 } else w
  if !w1.src_ready1 && w1.src_tag1 == producer then
      { w1 with src_ready1 := true, src_tag1 := -1 } else w1

/-- `wakeup_rs_sources`: scan the RS waking sources that await `producer`. -/
def wakeup_rs_sources (producer : Int) (s : PState) : PState :=
  s.rs.foldl (fun acc w => mmod acc w (wakeup_inst producer)) s

/-- `find_free_fu` scan: index of the first idle FU of type `t`, in pool
order starting at index `i`. -/
def find_free_fu_go (t : Nat) : List FU → Nat → Option Nat
  | [], _ => none
  | fu :: rest, i =>
    if fu.type == t && fu.inst == none then some i else find_free_fu_go t rest (i + 1)

/-- `find_free_fu`: first idle FU slot of the given type, in pool order. -/
def find_free_fu (s : PState) (t : Nat) : Option Nat :=
  find_free_fu_go t s.fu_pool 0

/-- Insertion sort used to model `std::sort` on the injective sort keys of
the simulator: insert `a` before the first element `b` with `le a b`. -/
def insertSorted (le : α → α → Bool) (a : α) : List α → List α
  | [] => [a]
  | b :: bs => if le a b then a :: b :: bs else b :: insertSorted le a bs

/-- Sort a list by the boolean total preorder `le`. -/
def sortByKey (le : α → α → Bool) (l : List α) : List α :=
  l.foldr (insertSorted le) []

/-- Lexicographic order on the `(primary, tag)` sort keys used by the CDB
arbiter and the FU lookahead. -/
def keyLe (k1 k2 : Nat × Nat) : Bool :=
  k1.1 < k2.1 || (k1.1 == k2.1 && k1.2 ≤ k2.2)

/-- Per-type counters indexed by FU type 0 / 1 / 2 (`std::array<int, 3>`). -/
abbrev Counts := Nat × Nat × Nat

/-- Read the counter of type `t`. -/
def getC (c : Counts) (t : Nat) : Nat :=
  match t with
  | 0 => c.1
  | 1 => c.2.1
  | _ => c.2.2

/-- Increment the counter of type `t`. -/
def incC (c : Counts) (t : Nat) : Counts :=
  match t with
  | 0 => (c.1 + 1, c.2.1, c.2.2)
  | 1 => (c.1, c.2.1 + 1, c.2.2)
  | _ => (c.1, c.2.1, c.2.2 + 1)

/-- A lookahead candidate (struct `Candidate`): arena index of the held
instruction, its tag (the sort tiebreaker), the FU's type, and the cycle
the slot is projected to free. -/
structure Cand where
  inst : Nat
  tag : Nat
  type : Nat
  free_cycle : Nat
deriving DecidableEq, Repr

/-- The loop body of `projected_free_fus` over one FU slot: an idle slot
counts as free of its type; a busy slot whose instruction waits for the bus
is a candidate freeing at `completion_c`; one with a single tick left is a
candidate freeing at `cycle + 1`. -/
def look_step (s : PState) (cycle : Nat) (acc : Counts × List Cand) (fu : FU) :
    Counts × List Cand :=
  match fu.inst with
  | none => (incC acc.1 fu.type, acc.2)
  | some j =>
    let held := mget s j
    if held.waiting_bus then
      (acc.1, acc.2 ++ [⟨j, held.tag, fu.type, held.completion_c⟩])
    else if fu.remaining == 1 then
      (acc.1, acc.2 ++ [⟨j, held.tag, fu.type, cycle + 1⟩])
    else acc

/-- `projected_free_fus`: count idle FUs per type; collect busy FUs whose
instruction is waiting for the bus (free at `completion_c`) or has one tick
left (free at `cycle + 1`) as candidates; sort candidates by
`(free_cycle, tag)`; the first `min(R, #candidates)` also count as free. -/
def projected_free_fus (s : PState) (cycle : Nat) : Counts :=
  let scan := s.fu_pool.foldl (look_step s cycle) ((0, 0, 0), [])
  let sorted := sortByKey (fun a b => keyLe (a.free_cycle, a.tag) (b.free_cycle, b.tag)) scan.2
  let grant := min s.gR sorted.length
  (sorted.take grant).foldl (fun c cand => incC c cand.type) scan.1

/-- `retire_state_update` (stage 5): every instruction that entered state
update last cycle is removed from the RS and counted retired. -/
def retire_state_update (s : PState) : PState :=
  if s.st_update.isEmpty then s else
  let s1 := s.st_update.foldl
    (fun acc i =>
      let acc1 := { acc with rs := acc.rs.erase i }
      let acc2 := mmod acc1 i (fun w => { w with issued := true })
      { acc2 with g_retired := acc2.g_retired + 1 })
    s
  { s1 with st_update := [] }

/-- One FU's share of `tick_execute_units`: decrement `remaining` on a busy
slot; on reaching zero (and not yet on the bus) stamp `completion_c`, mark
`waiting_bus` and enqueue for CDB arbitration (guarded by `enqueued_bus`). -/
def tick_one_fu (cycle : Nat) (s : PState) (fi : Nat) : PState :=
  match (fget s fi).inst with
  | none => s
  | some j =>
    if 0 < (fget s fi).remaining then
      let s1 := fmod s fi (fun fu => { fu with remaining := fu.remaining - 1 })
      if (fget s1 fi).remaining == 0 && !(mget s1 j).waiting_bus then
        let s2 := if (mget s1 j).completion_c == 0 then
            mmod s1 j (fun w => { w with completion_c := cycle }) else s1
        let s3 := mmod s2 j (fun w => { w with waiting_bus := true })
        if !(mget s3 j).enqueued_bus then
          { (mmod s3 j fun w => { w with enqueued_bus := true }) with
              bus_wait := s3.bus_wait ++ [j] }
        else s3
      else s1
    else s

/-- `tick_execute_units` (stage 4a): advance all executing FUs. -/
def tick_execute_units (cycle : Nat) (s : PState) : PState :=
  (List.range s.fu_pool.length).foldl (tick_one_fu cycle) s

/-- First step of a CDB grant: the winner leaves the bus-wait state. -/
def cdb_flags_reset (s : PState) (j : Nat) : PState :=
  mmod s j (fun w => { w with waiting_bus := false, enqueued_bus := false })

/-- Second step of a CDB grant: free the FU named by the winner's
back-reference (now that the result broadcasts) and break the reference. -/
def cdb_free_fu (s : PState) (j : Nat) : PState :=
  match (mget s j).fu with
  | some fi =>
    mmod (fmod s fi (fun fu => { fu with inst := none, remaining := 0 })) j
      (fun w => { w with fu := none })
  | none => s

/-- Third step of a CDB grant: clear the winner's rename-table entry if it
is still the youngest writer of its destination register. -/
def cdb_clear_rename (s : PState) (j : Nat) : PState :=
  let d := (mget s j).raw.dest_reg
  if 0 ≤ d ∧ d < kMaxRegs then
    (if s.reg_map.getD d.toNat 0 == Int.ofNat (mget s j).tag then
      { s with reg_map := s.reg_map.set d.toNat (-1) } else s)
  else s

/-- Last step of a CDB grant: stamp `state_c` and enter the state-update
set. -/
def cdb_enter_state_update (cycle : Nat) (s : PState) (j : Nat) : PState :=
  let s5 := mmod s j (fun w => { w with state_c := cycle })
  { s5 with st_update := s5.st_update ++ [j] }

/-- The winner branch of `broadcast_results` for one instruction: leave the
bus-wait state, free the holding FU, clear the rename-table entry if still
owned, wake RS dependents, stamp `state_c` and enter state update. -/
def cdb_grant (cycle : Nat) (s : PState) (j : Nat) : PState :=
  let s3 := cdb_clear_rename (cdb_free_fu (cdb_flags_reset s j) j) j
  cdb_enter_state_update cycle (wakeup_rs_sources (Int.ofNat (mget s3 j).tag) s3) j

/-- The arbitration loop of `broadcast_results`: walk the ordered bus-wait
list; while fewer than `gR` grants have been used, grant; afterwards keep
the instruction on the remaining list. Returns the final state and the new
bus-wait list. -/
def broadcast_go (cycle gR : Nat) : List Nat → Nat → PState → PState × List Nat
  | [], _, s => (s, [])
  | j :: rest, used, s =>
    if gR ≤ used then
      let r := broadcast_go cycle gR rest used s
      (r.1, j :: r.2)
    else
      broadcast_go cycle gR rest (used + 1) (cdb_grant cycle s j)

/-- The `(completion_c, tag)` CDB arbitration order on arena indices. -/
def busKeyLe (s : PState) (a b : Nat) : Bool :=
  keyLe ((mget s a).completion_c, (mget s a).tag) ((mget s b).completion_c, (mget s b).tag)

/-- `broadcast_results` (stage 4b): sort the bus-wait list by
`(completion_c, tag)`, grant up to `gR` broadcasts, keep the losers. -/
def broadcast_results (cycle : Nat) (s : PState) : PState :=
  if s.bus_wait.isEmpty then s else
  let ordered := sortByKey (busKeyLe s) s.bus_wait
  let r := broadcast_go cycle s.gR ordered 0 s
  { r.1 with bus_wait := r.2 }

/-- One instruction's share of `start_executions`: claim the first free FU
of its type (the C++ code asserts one exists; an absent FU is modelled as a
no-op, a branch unreachable in well-formed runs). -/
def start_one_execution (cycle : Nat) (s : PState) (j : Nat) : PState :=
  match find_free_fu s (mget s j).type with
  | none => s
  | some fi =>
    mmod (fmod s fi (fun fu =>
        { fu with inst := some j, remaining := kLatency.getD (mget s j).type 0 })) j
      (fun w => { w with fu := some fi, exec_c := cycle })

/-- `start_executions` (stage 4c): move the schedule→execute latch into FUs. -/
def start_executions (cycle : Nat) (s : PState) : PState :=
  if s.latch_se_cur.isEmpty then s else
  let s1 := s.latch_se_cur.foldl (start_one_execution cycle) s
  { s1 with latch_se_cur := [] }

/-- One instruction's share of `insert_into_rs`: stamp `sched_c` and
`sched_ready_c`, derive per-source readiness from the rename table, rename
the destination, append to the RS. -/
def rs_insert_one (cycle : Nat) (s : PState) (j : Nat) : PState :=
  let s1 := mmod s j (fun w => { w with sched_c := cycle, sched_ready_c := cycle })
  let r0 := (mget s1 j).raw.src_reg0
  let s2 := if r0 < 0 ∨ kMaxRegs ≤ r0 then
      mmod s1 j (fun w => { w with src_ready0 := true, src_tag0 := -1 })
    else if s1.reg_map.getD r0.toNat 0 == -1 then
      mmod s1 j (fun w => { w with src_ready0 := true, src_tag0 := -1 })
    else
      mmod s1 j (fun w => { w with src_ready0 := false, src_tag0 := s1.reg_map.getD r0.toNat 0 })
  let r1 := (mget s2 j).raw.src_reg1
  let s3 := if r1 < 0 ∨ kMaxRegs ≤ r1 then
      mmod s2 j (fun w => { w with src_ready1 := true, src_tag1 := -1 })
    else if s2.reg_map.getD r1.toNat 0 == -1 then
      mmod s2 j (fun w => { w with src_ready1 := true, src_tag1 := -1 })
    else
      mmod s2 j (fun w => { w with src_ready1 := false, src_tag1 := s2.reg_map.getD r1.toNat 0 })
  let d := (mget s3 j).raw.dest_reg
  let s4 := if 0 ≤ d ∧ d < kMaxRegs then
      { s3 with reg_map := s3.reg_map.set d.toNat (Int.ofNat (mget s3 j).tag) }
    else s3
  { s4 with rs := s4.rs ++ [j] }

/-- `insert_into_rs` (stage 3a): drain the dispatch→schedule latch into the
reservation station. -/
def insert_into_rs (cycle : Nat) (s : PState) : PState :=
  if s.latch_ds_cur.isEmpty then s else
  let s1 := s.latch_ds_cur.foldl (rs_insert_one cycle) s
  { s1 with latch_ds_cur := [] }

/-- `move_into_dispatch` (stage 2b): drain the fetch→dispatch latch into
the dispatch queue, stamping `disp_c`. -/
def move_into_dispatch (cycle : Nat) (s : PState) : PState :=
  if s.latch_fd_cur.isEmpty then s else
  let s1 := s.latch_fd_cur.foldl
    (fun acc j =>
      let acc1 := mmod acc j (fun w => { w with disp_c := cycle })
      { acc1 with q_dispatch := acc1.q_dispatch ++ [j] })
    s
  { s1 with latch_fd_cur := [] }

/-- The scan loop of `issue_ready`: walk the tag-ordered RS; issue each
entry that is not yet issued, is past `sched_ready_c`, has both sources
ready and still has a projected-free FU of its type left to reserve. -/
def issue_scan (cycle : Nat) : List Nat → Counts → Counts → Nat → PState → PState × Nat
  | [], _, _, fired, s => (s, fired)
  | j :: rest, free_next, reserved, fired, s =>
    let w := mget s j
    if w.issued then issue_scan cycle rest free_next reserved fired s
    else if cycle < w.sched_ready_c then issue_scan cycle rest free_next reserved fired s
    else if !(w.src_ready0 && w.src_ready1) then issue_scan cycle rest free_next reserved fired s
    else if getC free_next w.type ≤ getC reserved w.type then
      issue_scan cycle rest free_next reserved fired s
    else
      let s1 := mmod s j (fun v => { v with issued := true })
      issue_scan cycle rest free_next (incC reserved w.type) (fired + 1)
        { s1 with latch_se_nxt := s1.latch_se_nxt ++ [j] }

/-- `issue_ready` (stage 3b): sort the RS by tag, compute the FU lookahead,
then issue ready entries into the schedule→execute next-latch, reserving
projected-free FUs per type. Returns the state and the fired count. -/
def issue_ready (cycle : Nat) (s : PState) : PState × Nat :=
  if s.rs.isEmpty then (s, 0) else
  let ordered := sortByKey (fun a b => (mget s a).tag ≤ (mget s b).tag) s.rs
  let free_next := projected_free_fus s cycle
  issue_scan cycle ordered free_next (0, 0, 0) 0 s

/-- The drain loop of `dispatch_to_schedule`: move dispatch-queue heads into
the dispatch→schedule next-latch while the RS (plus entries already moved
this cycle) has room. The list argument mirrors `q_dispatch`. -/
def dispatch_to_schedule_go : List Nat → PState → PState
  | [], s => s
  | j :: rest, s =>
    if s.gRS_cap ≤ s.rs.length + s.latch_ds_nxt.length then s
    else dispatch_to_schedule_go rest
      { s with q_dispatch := rest, latch_ds_nxt := s.latch_ds_nxt ++ [j] }

/-- `dispatch_to_schedule` (stage 2a). -/
def dispatch_to_schedule (s : PState) : PState :=
  dispatch_to_schedule_go s.q_dispatch s

/-- The fetch loop of `fetch_instructions`: up to the remaining fetch-width
reads; EOF sets `trace_done` and stops. Each fetched record is allocated at
the end of the arena (`tag = next_tag`) and enters the fetch→dispatch
next-latch. -/
def fetch_go (cycle : Nat) : Nat → PState → PState
  | 0, s => s
  | n + 1, s =>
    match s.trace with
    | [] => { s with trace_done := true }
    | raw :: rest =>
      let w : Inst := { raw := raw, tag := s.next_tag,
                        type := fu_type_from_opcode raw.op_code, fetch_c := cycle }
      fetch_go cycle n
        { s with trace := rest, next_tag := s.next_tag + 1,
                 store := s.store ++ [w],
                 latch_fd_nxt := s.latch_fd_nxt ++ [s.store.length] }

/-- `fetch_instructions` (stage 1): fetch up to `F` instructions per cycle
until the source signals EOF. -/
def fetch_instructions (cycle : Nat) (s : PState) : PState :=
  if s.trace_done then s else fetch_go cycle s.gF s

/-- `advance_latches`: each next-buffer becomes current, next becomes empty. -/
def advance_latches (s : PState) : PState :=
  { s with latch_fd_cur := s.latch_fd_nxt, latch_fd_nxt := [],
           latch_ds_cur := s.latch_ds_nxt, latch_ds_nxt := [],
           latch_se_cur := s.latch_se_nxt, latch_se_nxt := [] }

/-- `mkPool`: `K0` type-0 slots, then `K1` type-1 slots, then `K2` type-2
slots, all idle. -/
def mkPool (k0 k1 k2 : Nat) : List FU :=
  List.replicate k0 { type := 0 } ++ List.replicate k1 { type := 1 } ++
    List.replicate k2 { type := 2 }

/-- `setup_proc`: install the configuration (normalizing `R = 0` to `1`,
RS capacity `2 * (K0 + K1 + K2)`) and reset all state. The trace to be
consumed by `read_instruction` is part of the initial state. -/
def setup_proc (r k0 k1 k2 f : Nat) (trace : List ProcInst) : PState :=
  { gF := f, gR := if r == 0 then 1 else r, gK0 := k0, gK1 := k1, gK2 := k2,
    gRS_cap := 2 * (k0 + k1 + k2),
    next_tag := 1, trace_done := false, trace := trace, store := [],
    q_dispatch := [], rs := [], st_update := [], bus_wait := [],
    latch_fd_cur := [], latch_fd_nxt := [], latch_ds_cur := [], latch_ds_nxt := [],
    latch_se_cur := [], latch_se_nxt := [],
    reg_map := List.replicate 128 (-1), fu_pool := mkPool k0 k1 k2,
    cycle := 0, g_retired := 0, g_issued_total := 0,
    g_disp_q_sum := 0, g_disp_q_max := 0 }

/-- The dispatch-queue statistics sample taken each cycle right after the
fetch→dispatch latch has drained into the dispatch queue. -/
def stats_sample (s : PState) : PState :=
  { s with g_disp_q_sum := s.g_disp_q_sum + s.q_dispatch.length,
           g_disp_q_max := max s.g_disp_q_max s.q_dispatch.length }

/-- The issue step of the driver loop: run `issue_ready` and accumulate the
fired count into `g_issued_total`. -/
def issue_stage (cycle : Nat) (s : PState) : PState :=
  let p := issue_ready cycle s
  { p.1 with g_issued_total := p.1.g_issued_total + p.2 }

/-- One iteration of the driver loop of `run_proc`: increment the cycle,
run the stages in reverse order, sample the dispatch-queue statistics,
accumulate the fired count and advance the latches. -/
def loop_body (s : PState) : PState :=
  let c := s.cycle + 1
  advance_latches
    (fetch_instructions c
      (dispatch_to_schedule
        (issue_stage c
          (stats_sample
            (move_into_dispatch c
              (insert_into_rs c
                (start_executions c
                  (broadcast_results c
                    (tick_execute_units c
                      (retire_state_update { s with cycle := c }))))))))))

/-- The driver loop's exit condition: trace exhausted and pipeline empty. -/
def loop_done (s : PState) : Bool :=
  s.trace_done && pipeline_empty s

/-- The driver loop of `run_proc` with explicit fuel; `none` means the loop
was still running when the fuel ran out. -/
def run_loop : Nat → PState → Option PState
  | 0, s => if loop_done s then some s else none
  | fuel + 1, s => if loop_done s then some s else run_loop fuel (loop_body s)

/-- The statistics filled in by `run_proc` (`proc_stats_t`). -/
structure ProcStats where
  cycle_count : Nat
  retired_instruction : Nat
deriving DecidableEq, Repr

/-- `run_proc`: run the driver loop; report `(0, 0)` for an empty trace,
otherwise decrement the final cycle (the last tick did no useful work). -/
def run_proc (fuel : Nat) (s : PState) : Option (ProcStats × PState) :=
  match run_loop fuel s with
  | none => none
  | some s2 =>
    if s2.next_tag == 1 then some ({ cycle_count := 0, retired_instruction := 0 }, s2)
    else some ({ cycle_count := s2.cycle - 1, retired_instruction := s2.g_retired }, s2)

/-- The averages computed by `complete_proc` (the `float` fields of
`proc_stats_t`, modelled as exact rationals). -/
structure FinalStats where
  avg_inst_fired : ℚ
  avg_inst_retired : ℚ
  avg_disp_size : ℚ
  max_disp_size : Nat
deriving DecidableEq, Repr

/-- `complete_proc`: all averages are zero when the cycle count is zero;
otherwise divide the accumulators by the cycle count. -/
def complete_proc (stats : ProcStats) (s : PState) : FinalStats :=
  if stats.cycle_count == 0 then
    { avg_inst_fired := 0, avg_inst_retired := 0, avg_disp_size := 0, max_disp_size := 0 }
  else
    { avg_inst_fired := (s.g_issued_total : ℚ) / (stats.cycle_count : ℚ),
      avg_inst_retired := (stats.retired_instruction : ℚ) / (stats.cycle_count : ℚ),
      avg_disp_size := (s.g_disp_q_sum : ℚ) / (stats.cycle_count : ℚ),
      max_disp_size := s.g_disp_q_max }

/-! ### Basic facts about the initial state -/

/-- Every FU slot created by `mkPool` is idle. -/
theorem mkPool_idle {k0 k1 k2 : Nat} : ∀ fu ∈ mkPool k0 k1 k2, fu.inst = none := by
  intro fu hm
  simp only [mkPool, List.mem_append, List.mem_replicate] at hm
  rcases hm with (⟨-, rfl⟩ | ⟨-, rfl⟩) | ⟨-, rfl⟩ <;> rfl

/-- Reading any index of an all-idle pool yields an idle slot. -/
theorem fget_inst_none {s : PState} (h : ∀ fu ∈ s.fu_pool, fu.inst = none) (fi : Nat) :
    (fget s fi).inst = none := by
  unfold fget
  cases hx : s.fu_pool[fi]? with
  | none => simp [List.getD_eq_getElem?_getD, hx]; rfl
  | some fu =>
    have hmem : fu ∈ s.fu_pool := List.getElem?_mem hx
    simp [List.getD_eq_getElem?_getD, hx, h fu hmem]

/-- Folding the execute tick over any index list of an all-idle pool is the
identity. -/
theorem tick_fold_idle (c : Nat) (s : PState) (L : List Nat)
    (h : ∀ fu ∈ s.fu_pool, fu.inst = none) : L.foldl (tick_one_fu c) s = s := by
  induction L with
  | nil => rfl
  | cons a L ih =>
    have ha : tick_one_fu c s a = s := by
      unfold tick_one_fu
      rw [fget_inst_none h a]
    rw [List.foldl_cons, ha, ih]

/-- The execute tick is the identity on a state whose FUs are all idle. -/
theorem tick_idle (c : Nat) (s : PState) (h : ∀ fu ∈ s.fu_pool, fu.inst = none) :
    tick_execute_units c s = s :=
  tick_fold_idle c s _ h

/-- A state whose loop condition already turned false is a fixed point of
the driver loop, whatever the fuel. -/
theorem run_loop_done {s : PState} (h : loop_done s = true) (n : Nat) :
    run_loop n s = some s := by
  cases n <;> simp [run_loop, h]

/-- The all-idle FU pool check inside `pipeline_empty` holds on `mkPool`. -/
theorem mkPool_all_idle (k0 k1 k2 : Nat) :
    (mkPool k0 k1 k2).all (fun fu => fu.inst == none) = true := by
  rw [List.all_eq_true]
  intro fu hm
  rw [mkPool_idle fu hm]
  rfl

/-! ### C7: empty trace -/

/-- C7: for an empty trace (EOF on the first read, which requires `F ≥ 1`),
`run_proc` reports `cycle_count = 0` and `retired_instruction = 0`, and
`complete_proc` then sets all averages and `max_disp_size` to zero. -/
theorem empty_trace_zero_stats (r k0 k1 k2 f fuel : Nat) (hf : 1 ≤ f) (hfuel : 1 ≤ fuel) :
    ∃ s2, run_proc fuel (setup_proc r k0 k1 k2 f []) =
        some ({ cycle_count := 0, retired_instruction := 0 }, s2) ∧
      complete_proc { cycle_count := 0, retired_instruction := 0 } s2 =
        { avg_inst_fired := 0, avg_inst_retired := 0, avg_disp_size := 0, max_disp_size := 0 } := by
  obtain ⟨f, rfl⟩ : ∃ f2, f = f2 + 1 := ⟨f - 1, (Nat.succ_pred_eq_of_pos hf).symm⟩
  obtain ⟨fuel, rfl⟩ : ∃ n2, fuel = n2 + 1 := ⟨fuel - 1, (Nat.succ_pred_eq_of_pos hfuel).symm⟩
  have htick : tick_execute_units 1 { setup_proc r k0 k1 k2 (f + 1) [] with cycle := 1 } =
      { setup_proc r k0 k1 k2 (f + 1) [] with cycle := 1 } :=
    tick_idle 1 _ (fun fu hm => mkPool_idle fu hm)
  have hbody : loop_body (setup_proc r k0 k1 k2 (f + 1) []) =
      { setup_proc r k0 k1 k2 (f + 1) [] with cycle := 1, trace_done := true } := by
    calc loop_body (setup_proc r k0 k1 k2 (f + 1) [])
        = advance_latches (fetch_instructions 1 (dispatch_to_schedule (issue_stage 1
            (stats_sample (move_into_dispatch 1 (insert_into_rs 1 (start_executions 1
              (broadcast_results 1 (tick_execute_units 1
                (retire_state_update { setup_proc r k0 k1 k2 (f + 1) [] with
                  cycle := 1 })))))))))) := rfl
      _ = { setup_proc r k0 k1 k2 (f + 1) [] with cycle := 1, trace_done := true } := by
          rw [show retire_state_update { setup_proc r k0 k1 k2 (f + 1) [] with cycle := 1 } =
            { setup_proc r k0 k1 k2 (f + 1) [] with cycle := 1 } from rfl, htick]
          rfl
  have hdone : loop_done { setup_proc r k0 k1 k2 (f + 1) [] with
      cycle := 1, trace_done := true } = true := by
    have hred : loop_done { setup_proc r k0 k1 k2 (f + 1) [] with
        cycle := 1, trace_done := true } =
        (mkPool k0 k1 k2).all (fun fu => fu.inst == none) := rfl
    rw [hred, mkPool_all_idle]
  refine ⟨{ setup_proc r k0 k1 k2 (f + 1) [] with cycle := 1, trace_done := true }, ?_, rfl⟩
  have hstep : run_loop (fuel + 1) (setup_proc r k0 k1 k2 (f + 1) []) =
      run_loop fuel (loop_body (setup_proc r k0 k1 k2 (f + 1) [])) := by
    simp [run_loop, show loop_done (setup_proc r k0 k1 k2 (f + 1) []) = false from rfl]
  rw [run_proc, hstep, hbody, run_loop_done hdone]
  rfl

/-! ### C2: two-instruction RAW dependency -/

/-- The trace `[(0, 1, -1, -1), (0, 2, 1, -1)]` of the two-instruction
scenario: the second instruction reads register 1, written by the first. -/
def rawDepTrace : List ProcInst := [⟨0, 1, -1, -1⟩, ⟨0, 2, 1, -1⟩]

/-- C2: on `rawDepTrace` with `F = 1`, `R = 1`, `K = (1, 1, 1)`, `run_proc`
reports `cycle_count = 7` and `retired_instruction = 2`; the second
instruction begins executing (`exec_c = 6`) one cycle after the first
broadcasts its result (`state_c = 5`). -/
theorem raw_dependency_two_inst_run :
    (run_proc 20 (setup_proc 1 1 1 1 1 rawDepTrace)).map (·.1) =
      some { cycle_count := 7, retired_instruction := 2 } ∧
    (run_proc 20 (setup_proc 1 1 1 1 1 rawDepTrace)).map
        (fun p => ((mget p.2 1).exec_c, (mget p.2 0).state_c)) = some (6, 5) :=
  ⟨rfl, rfl⟩

/-- Witness for C7 at the concrete configuration `R=1, K=(1,1,1), F=1`. -/
theorem empty_trace_zero_stats_witness :
    ∃ s2, run_proc 1 (setup_proc 1 1 1 1 1 []) =
        some ({ cycle_count := 0, retired_instruction := 0 }, s2) ∧
      complete_proc { cycle_count := 0, retired_instruction := 0 } s2 =
        { avg_inst_fired := 0, avg_inst_retired := 0, avg_disp_size := 0, max_disp_size := 0 } :=
  empty_trace_zero_stats 1 1 1 1 1 1 (by decide) (by decide)

/-! ### Structure of the CDB arbitration loop -/

/-- Inserting into a sorted list grows the length by one. -/
theorem length_insertSorted (le : α → α → Bool) (a : α) (l : List α) :
    (insertSorted le a l).length = l.length + 1 := by
  induction l with
  | nil => rfl
  | cons b bs ih =>
    unfold insertSorted
    split
    · rfl
    · simp [ih]

/-- The insertion sort modelling `std::sort` preserves length. -/
theorem length_sortByKey (le : α → α → Bool) (l : List α) :
    (sortByKey le l).length = l.length := by
  induction l with
  | nil => rfl
  | cons a l ih =>
    show (insertSorted le a (sortByKey le l)).length = l.length + 1
    rw [length_insertSorted, ih]

/-- Membership is invariant under `insertSorted`. -/
theorem mem_insertSorted (le : α → α → Bool) (a x : α) (l : List α) :
    x ∈ insertSorted le a l ↔ x = a ∨ x ∈ l := by
  induction l with
  | nil => simp [insertSorted]
  | cons b bs ih =>
    unfold insertSorted
    split
    · simp [or_comm, or_left_comm]
    · simp [ih, or_left_comm]

/-- Membership is invariant under the insertion sort. -/
theorem mem_sortByKey (le : α → α → Bool) (x : α) (l : List α) :
    x ∈ sortByKey le l ↔ x ∈ l := by
  induction l with
  | nil => exact Iff.rfl
  | cons a l ih =>
    show x ∈ insertSorted le a (sortByKey le l) ↔ _
    rw [mem_insertSorted, ih]
    simp

/-- The arbitration loop grants the first `gR - used` instructions of the
ordered list (folding the winner branch over them) and keeps the rest. -/
theorem broadcast_go_eq (c gR : Nat) :
    ∀ (l : List Nat) (used : Nat) (s : PState),
      broadcast_go c gR l used s =
        ((l.take (gR - used)).foldl (cdb_grant c) s, l.drop (gR - used)) := by
  intro l
  induction l with
  | nil => intro used s; simp [broadcast_go]
  | cons j rest ih =>
    intro used s
    unfold broadcast_go
    split
    · have h0 : gR - used = 0 := by omega
      rw [ih used s, h0]
      simp
    · have h1 : gR - used = (gR - (used + 1)) + 1 := by omega
      rw [ih (used + 1) (cdb_grant c s j), h1]
      simp

/-- `broadcast_results`, rewritten: grant the first `R` of the ordered
bus-wait list, keep the remainder as the new bus-wait list. -/
theorem broadcast_results_eq (c : Nat) (s : PState) :
    broadcast_results c s =
      if s.bus_wait.isEmpty then s else
        { ((sortByKey (busKeyLe s) s.bus_wait).take s.gR).foldl (cdb_grant c) s with
            bus_wait := (sortByKey (busKeyLe s) s.bus_wait).drop s.gR } := by
  unfold broadcast_results
  split
  · rfl
  · simp only [broadcast_go_eq, Nat.sub_zero]

/-! ### C5: at most R instructions leave the bus-wait set per cycle -/

/-- C5: in any state (hence in every cycle of every run), `broadcast_results`
removes at most `gR` instructions from the bus-wait set, and `setup_proc`
normalizes a configured CDB width of `0` to `1`. -/
theorem bus_wait_leave_bound (c : Nat) (s : PState) (r k0 k1 k2 f : Nat) (tr : List ProcInst) :
    s.bus_wait.length - (broadcast_results c s).bus_wait.length ≤ s.gR ∧
    (setup_proc r k0 k1 k2 f tr).gR = (if r = 0 then 1 else r) := by
  constructor
  · rw [broadcast_results_eq]
    split
    · simp
    · have hlen : ((sortByKey (busKeyLe s) s.bus_wait).drop s.gR).length =
          s.bus_wait.length - s.gR := by
        rw [List.length_drop, length_sortByKey]
      simp only [hlen]
      omega
  · simp only [setup_proc]
    rcases Nat.eq_zero_or_pos r with h | h
    · simp [h]
    · have : (r == 0) = false := by simp [Nat.pos_iff_ne_zero.1 h]
      simp [this, Nat.pos_iff_ne_zero.1 h]

/-! ### C3: the FU lookahead against its reference definition -/

/-- Modelled from the spec's words: the candidate contributed by one FU
slot. An idle slot contributes none; a busy slot whose instruction is
`waiting_bus` is a candidate with `free_cycle = completion_c`; otherwise a
busy slot with `remaining = 1` is a candidate with `free_cycle = cycle+1`. -/
def spec_cand_of (s : PState) (cycle : Nat) (fu : FU) : Option Cand :=
  match fu.inst with
  | none => none
  | some j =>
    if (mget s j).waiting_bus then
      some ⟨j, (mget s j).tag, fu.type, (mget s j).completion_c⟩
    else if fu.remaining = 1 then
      some ⟨j, (mget s j).tag, fu.type, cycle + 1⟩
    else none

/-- Modelled from the spec's words: the candidate list of the lookahead. -/
def spec_candidates (s : PState) (cycle : Nat) : List Cand :=
  s.fu_pool.filterMap (spec_cand_of s cycle)

/-- Modelled from the spec's words: the per-type free count: idle FUs of
that type, plus those among the first `min(R, #candidates)` candidates (in
`(free_cycle, tag)` order) of that type. -/
def spec_free_of_type (s : PState) (cycle t : Nat) : Nat :=
  (s.fu_pool.filter (fun fu => fu.inst == none && fu.type == t)).length +
  (((sortByKey (fun a b => keyLe (a.free_cycle, a.tag) (b.free_cycle, b.tag))
      (spec_candidates s cycle)).take (min s.gR (spec_candidates s cycle).length)).filter
    (fun cd => cd.type == t)).length

/-- Incrementing type `ty` raises the type-`t` counter iff `ty = t`
(for in-range types). -/
theorem getC_incC (c : Counts) (ty t : Nat) (hty : ty < 3) (ht : t < 3) :
    getC (incC c ty) t = getC c t + (if ty == t then 1 else 0) := by
  interval_cases ty <;> interval_cases t <;> simp [getC, incC]

/-- The candidate-counting fold of the lookahead adds, to each in-range
type, the number of processed candidates of that type. -/
theorem getC_count_fold (t : Nat) (ht : t < 3) :
    ∀ (L : List Cand) (c0 : Counts), (∀ cd ∈ L, cd.type < 3) →
      getC (L.foldl (fun c cand => incC c cand.type) c0) t =
        getC c0 t + (L.filter (fun cd => cd.type == t)).length := by
  intro L
  induction L with
  | nil => intro c0 _; simp
  | cons cd L ih =>
    intro c0 hall
    rw [List.foldl_cons, ih (incC c0 cd.type) (fun x hx => hall x (List.mem_cons_of_mem cd hx)),
      getC_incC c0 cd.type t (hall cd (List.mem_cons_self cd L)) ht]
    by_cases hc : cd.type == t
    · simp [List.filter_cons, hc]
      omega
    · simp [List.filter_cons, hc]

/-- The scan fold of `projected_free_fus` produces the spec's candidate
list (appended to the accumulator) and, per in-range type, the count of
idle slots of that type (added to the accumulator). -/
theorem look_fold_spec (s : PState) (cycle t : Nat) (ht : t < 3) :
    ∀ (L : List FU) (c0 : Counts) (l0 : List Cand), (∀ fu ∈ L, fu.type < 3) →
      (L.foldl (look_step s cycle) (c0, l0)).2 = l0 ++ L.filterMap (spec_cand_of s cycle) ∧
      getC (L.foldl (look_step s cycle) (c0, l0)).1 t =
        getC c0 t + (L.filter (fun fu => fu.inst == none && fu.type == t)).length := by
  intro L
  induction L with
  | nil => intro c0 l0 _; simp
  | cons fu L ih =>
    intro c0 l0 hall
    have htyfu : fu.type < 3 := hall fu (List.mem_cons_self fu L)
    have hrest : ∀ x ∈ L, x.type < 3 := fun x hx => hall x (List.mem_cons_of_mem fu hx)
    rw [List.foldl_cons, List.filterMap_cons, List.filter_cons]
    cases hfu : fu.inst with
    | none =>
      have hstep : look_step s cycle (c0, l0) fu = (incC c0 fu.type, l0) := by
        unfold look_step
        rw [hfu]
      rw [hstep]
      obtain ⟨h2, h1⟩ := ih (incC c0 fu.type) l0 hrest
      refine ⟨by rw [h2]; simp [spec_cand_of, hfu], ?_⟩
      rw [h1, getC_incC c0 fu.type t htyfu ht]
      by_cases hc : fu.type == t
      · simp [hfu, hc]
        omega
      · simp [hfu, hc]
    | some j =>
      by_cases hw : (mget s j).waiting_bus
      · have hstep : look_step s cycle (c0, l0) fu =
            (c0, l0 ++ [⟨j, (mget s j).tag, fu.type, (mget s j).completion_c⟩]) := by
          unfold look_step
          rw [hfu]
          simp [hw]
        rw [hstep]
        obtain ⟨h2, h1⟩ := ih c0 (l0 ++ [⟨j, (mget s j).tag, fu.type, (mget s j).completion_c⟩]) hrest
        refine ⟨by rw [h2]; simp [spec_cand_of, hfu, hw], by rw [h1]; simp [hfu]⟩
      · by_cases hr : fu.remaining = 1
        · have hstep : look_step s cycle (c0, l0) fu =
              (c0, l0 ++ [⟨j, (mget s j).tag, fu.type, cycle + 1⟩]) := by
            unfold look_step
            rw [hfu]
            simp [hw, hr]
          rw [hstep]
          obtain ⟨h2, h1⟩ := ih c0 (l0 ++ [⟨j, (mget s j).tag, fu.type, cycle + 1⟩]) hrest
          refine ⟨by rw [h2]; simp [spec_cand_of, hfu, hw, hr], by rw [h1]; simp [hfu]⟩
        · have hstep : look_step s cycle (c0, l0) fu = (c0, l0) := by
            unfold look_step
            rw [hfu]
            simp [hw, hr]
          rw [hstep]
          obtain ⟨h2, h1⟩ := ih c0 l0 hrest
          refine ⟨by rw [h2]; simp [spec_cand_of, hfu, hw, hr], by rw [h1]; simp [hfu]⟩

/-- Every candidate inherits the (in-range) type of its FU slot. -/
theorem spec_candidates_type_lt (s : PState) (cycle : Nat)
    (hty : ∀ fu ∈ s.fu_pool, fu.type < 3) :
    ∀ cd ∈ spec_candidates s cycle, cd.type < 3 := by
  intro cd hcd
  obtain ⟨fu, hfu, hspec⟩ := List.mem_filterMap.1 hcd
  have := hty fu hfu
  unfold spec_cand_of at hspec
  cases hinst : fu.inst with
  | none => rw [hinst] at hspec; cases hspec
  | some j =>
    rw [hinst] at hspec
    by_cases hw : (mget s j).waiting_bus
    · simp [hw] at hspec
      rw [← hspec]
      exact this
    · by_cases hr : fu.remaining = 1
      · simp [hw, hr] at hspec
        rw [← hspec]
        exact this
      · simp [hw, hr] at hspec

/-- C3: for every state (any FU pool, bus-wait flags and cycle) whose FU
types are in range, and every in-range type `t`, the lookahead
`projected_free_fus` returns exactly the reference count of the spec:
idle FUs of type `t` plus the type-`t` members of the first
`min(R, #candidates)` candidates in `(free_cycle, tag)` order. -/
theorem projected_free_fus_correct (s : PState) (cycle : Nat)
    (hty : ∀ fu ∈ s.fu_pool, fu.type < 3) (t : Nat) (ht : t < 3) :
    getC (projected_free_fus s cycle) t = spec_free_of_type s cycle t := by
  unfold projected_free_fus spec_free_of_type
  obtain ⟨h2, h1⟩ := look_fold_spec s cycle t ht s.fu_pool ((0, 0, 0) : Counts) [] hty
  rw [getC_count_fold t ht _ _ ?types]
  case types =>
    intro cd hcd
    have hmem : cd ∈ spec_candidates s cycle := by
      have h3 := List.mem_of_mem_take hcd
      rw [mem_sortByKey, h2, List.nil_append] at h3
      exact h3
    exact spec_candidates_type_lt s cycle hty cd hmem
  rw [h1, h2]
  simp only [List.nil_append]
  rw [length_sortByKey]
  have hbase : getC ((0, 0, 0) : Counts) t = 0 := by
    interval_cases t <;> rfl
  rw [hbase]
  simp only [spec_candidates]
  omega

/-! ### Pointwise effect lemmas for arena and pool updates -/

/-- Reading back an in-place instruction update: the modified record at the
updated (in-range) index, the old record elsewhere. -/
theorem mget_mmod (s : PState) (i m : Nat) (g : Inst → Inst) :
    mget (mmod s i g) m =
      if i = m ∧ i < s.store.length then g (mget s i) else mget s m := by
  unfold mget mmod
  simp only [List.getD_eq_getElem?_getD, List.getElem?_set]
  rcases Nat.decEq i m with h | h
  · simp only [if_neg h]
    have : ¬(i = m ∧ i < s.store.length) := fun hc => h hc.1
    rw [if_neg this]
  · subst h
    by_cases hlt : i < s.store.length
    · simp only [hlt, and_true, if_pos rfl, Option.getD_some, List.getElem?_eq_getElem hlt]
      congr 1
      unfold mget
      simp [List.getD_eq_getElem?_getD, List.getElem?_eq_getElem hlt]
    · simp [hlt, List.getElem?_eq_none (Nat.le_of_not_lt hlt)]

/-- An instruction update whose function preserves a projection preserves
that projection at every index. -/
theorem mget_mmod_proj {α : Type} (f : Inst → α) (s : PState) (i m : Nat) (g : Inst → Inst)
    (hg : ∀ w, f (g w) = f w) : f (mget (mmod s i g) m) = f (mget s m) := by
  rw [mget_mmod]
  split
  · rename_i h
    rw [hg]
    rw [h.1]
  · rfl

/-- Reading back an in-place FU update. -/
theorem fget_fmod (s : PState) (i m : Nat) (g : FU → FU) :
    fget (fmod s i g) m =
      if i = m ∧ i < s.fu_pool.length then g (fget s i) else fget s m := by
  unfold fget fmod
  simp only [List.getD_eq_getElem?_getD, List.getElem?_set]
  rcases Nat.decEq i m with h | h
  · simp only [if_neg h]
    have : ¬(i = m ∧ i < s.fu_pool.length) := fun hc => h hc.1
    rw [if_neg this]
  · subst h
    by_cases hlt : i < s.fu_pool.length
    · simp only [hlt, and_true, if_pos rfl, Option.getD_some, List.getElem?_eq_getElem hlt]
      congr 1
      unfold fget
      simp [List.getD_eq_getElem?_getD, List.getElem?_eq_getElem hlt]
    · simp [hlt, List.getElem?_eq_none (Nat.le_of_not_lt hlt)]

/-- `wakeup_inst` only touches the source-readiness fields. -/
theorem wakeup_inst_proj {α : Type} (f : Inst → α) (p : Int)
    (hf : ∀ w r0 r1 t0 t1, f { w with src_ready0 := r0, src_ready1 := r1, src_tag0 := t0, src_tag1 := t1 } = f w) (w : Inst) :
    f (wakeup_inst p w) = f w := by
  have hex : ∃ r0 r1 t0 t1, wakeup_inst p w = { w with src_ready0 := r0, src_ready1 := r1, src_tag0 := t0, src_tag1 := t1 } := by
    simp only [wakeup_inst]
    split_ifs <;> exact ⟨_, _, _, _, rfl⟩
  obtain ⟨r0, r1, t0, t1, hw⟩ := hex
  rw [hw, hf]

/-- The wake-up scan leaves the FU pool alone. -/
theorem wakeup_fu_pool (p : Int) (s : PState) :
    (wakeup_rs_sources p s).fu_pool = s.fu_pool := by
  unfold wakeup_rs_sources
  generalize s.rs = L
  induction L generalizing s with
  | nil => rfl
  | cons a L ih => rw [List.foldl_cons]; exact ih (mmod s a (wakeup_inst p))

/-- The wake-up scan leaves every non-source projection of every
instruction alone. -/
theorem wakeup_mget_proj {α : Type} (f : Inst → α) (p : Int) (s : PState) (m : Nat)
    (hf : ∀ w r0 r1 t0 t1, f { w with src_ready0 := r0, src_ready1 := r1, src_tag0 := t0, src_tag1 := t1 } = f w) :
    f (mget (wakeup_rs_sources p s) m) = f (mget s m) := by
  unfold wakeup_rs_sources
  generalize s.rs = L
  induction L generalizing s with
  | nil => rfl
  | cons a L ih =>
    rw [List.foldl_cons]
    rw [ih (mmod s a (wakeup_inst p))]
    exact mget_mmod_proj f s a m _ (wakeup_inst_proj f p hf)

/-- The wake-up scan preserves the store length. -/
theorem wakeup_store_length (p : Int) (s : PState) :
    (wakeup_rs_sources p s).store.length = s.store.length := by
  unfold wakeup_rs_sources
  generalize s.rs = L
  induction L generalizing s with
  | nil => rfl
  | cons a L ih =>
    rw [List.foldl_cons, ih (mmod s a (wakeup_inst p))]
    simp [mmod]


/-! ### Effect of a single CDB grant -/

/-- An arena update does not change the store length. -/
theorem mmod_store_length (s : PState) (i : Nat) (g : Inst → Inst) :
    (mmod s i g).store.length = s.store.length := by
  simp [mmod]

/-- Updating an instruction leaves the FU pool alone. -/
theorem mmod_fu_pool (s : PState) (i : Nat) (g : Inst → Inst) :
    (mmod s i g).fu_pool = s.fu_pool := rfl

/-- Updating an FU slot leaves the arena alone. -/
theorem mget_fmod (s : PState) (i m : Nat) (g : FU → FU) :
    mget (fmod s i g) m = mget s m := rfl

/-- The bus-flag reset keeps every FU back-reference. -/
theorem cdb_flags_reset_fu (s : PState) (j m : Nat) :
    (mget (cdb_flags_reset s j) m).fu = (mget s m).fu :=
  mget_mmod_proj (fun w => w.fu) s j m _ (fun _ => rfl)

/-- The bus-flag reset keeps the FU pool. -/
theorem cdb_flags_reset_fu_pool (s : PState) (j : Nat) :
    (cdb_flags_reset s j).fu_pool = s.fu_pool := rfl

/-- The bus-flag reset keeps the store length. -/
theorem cdb_flags_reset_store_length (s : PState) (j : Nat) :
    (cdb_flags_reset s j).store.length = s.store.length :=
  mmod_store_length s j _

/-- The rename-table clear touches only `reg_map`. -/
theorem cdb_clear_rename_mget (s : PState) (j m : Nat) :
    mget (cdb_clear_rename s j) m = mget s m := by
  simp only [cdb_clear_rename]
  split_ifs <;> rfl

/-- The rename-table clear keeps the FU pool. -/
theorem cdb_clear_rename_fu_pool (s : PState) (j : Nat) :
    (cdb_clear_rename s j).fu_pool = s.fu_pool := by
  simp only [cdb_clear_rename]
  split_ifs <;> rfl

/-- The rename-table clear keeps the store. -/
theorem cdb_clear_rename_store (s : PState) (j : Nat) :
    (cdb_clear_rename s j).store = s.store := by
  simp only [cdb_clear_rename]
  split_ifs <;> rfl

/-- Entering state update keeps every FU back-reference. -/
theorem cdb_enter_state_update_fu (c : Nat) (s : PState) (j m : Nat) :
    (mget (cdb_enter_state_update c s j) m).fu = (mget s m).fu :=
  mget_mmod_proj (fun w => w.fu) s j m (fun w => { w with state_c := c }) (fun _ => rfl)

/-- Entering state update keeps the FU pool. -/
theorem cdb_enter_state_update_fu_pool (c : Nat) (s : PState) (j : Nat) :
    (cdb_enter_state_update c s j).fu_pool = s.fu_pool := rfl

/-- Entering state update keeps the store length. -/
theorem cdb_enter_state_update_store_length (c : Nat) (s : PState) (j : Nat) :
    (cdb_enter_state_update c s j).store.length = s.store.length :=
  mmod_store_length s j (fun w => { w with state_c := c })

/-- The wake-up scan keeps every FU back-reference. -/
theorem wakeup_mget_fu (p : Int) (s : PState) (m : Nat) :
    (mget (wakeup_rs_sources p s) m).fu = (mget s m).fu :=
  wakeup_mget_proj (fun w => w.fu) p s m (fun _ _ _ _ _ => rfl)

/-- The FU-free step breaks exactly the winner's back-reference (at an
in-range index): other instructions keep theirs. -/
theorem cdb_free_fu_mget_other (s : PState) (j m : Nat) (hmj : m ≠ j) :
    (mget (cdb_free_fu s j) m).fu = (mget s m).fu := by
  unfold cdb_free_fu
  cases hfu : (mget s j).fu with
  | none => rfl
  | some fi =>
    rw [mget_mmod]
    rw [if_neg (fun hc => hmj hc.1.symm), mget_fmod]

/-- The FU-free step breaks the winner's own back-reference. -/
theorem cdb_free_fu_mget_self (s : PState) (j : Nat) (hlt : j < s.store.length) :
    (mget (cdb_free_fu s j) j).fu = none := by
  unfold cdb_free_fu
  cases hfu : (mget s j).fu with
  | none => exact hfu
  | some fi =>
    rw [mget_mmod]
    rw [if_pos ⟨rfl, by simpa [fmod, mmod] using hlt⟩]

/-- At an out-of-range index the FU-free step is a no-op on the winner's
back-reference. -/
theorem cdb_free_fu_mget_self_out (s : PState) (j : Nat) (hlt : ¬ j < s.store.length) :
    (mget (cdb_free_fu s j) j).fu = (mget s j).fu := by
  unfold cdb_free_fu
  cases hfu : (mget s j).fu with
  | none => exact hfu
  | some fi =>
    rw [mget_mmod]
    rw [if_neg (fun hc => hlt (by simpa [fmod, mmod] using hc.2)), mget_fmod]
    exact hfu

/-- The FU-free step's effect on the pool: the slot named by the winner's
back-reference is cleared, nothing else changes. -/
theorem cdb_free_fu_pool (s : PState) (j : Nat) :
    (cdb_free_fu s j).fu_pool = match (mget s j).fu with
      | none => s.fu_pool
      | some fi => s.fu_pool.set fi { fget s fi with inst := none, remaining := 0 } := by
  unfold cdb_free_fu
  cases hfu : (mget s j).fu with
  | none => rfl
  | some fi => rfl

/-- The FU-free step keeps the store length. -/
theorem cdb_free_fu_store_length (s : PState) (j : Nat) :
    (cdb_free_fu s j).store.length = s.store.length := by
  unfold cdb_free_fu
  cases hfu : (mget s j).fu with
  | none => rfl
  | some fi => simp [mmod, fmod]

/-- A CDB grant does not change the store length. -/
theorem cdb_grant_store_length (c : Nat) (s : PState) (k : Nat) :
    (cdb_grant c s k).store.length = s.store.length := by
  unfold cdb_grant
  rw [cdb_enter_state_update_store_length, wakeup_store_length,
    show ∀ x : PState, (cdb_clear_rename x k).store.length = x.store.length from
      fun x => by rw [cdb_clear_rename_store],
    cdb_free_fu_store_length, cdb_flags_reset_store_length]

/-- A grant of another instruction preserves this one's FU back-reference. -/
theorem cdb_grant_mget_fu_other (c : Nat) (s : PState) (k m : Nat) (hmk : m ≠ k) :
    (mget (cdb_grant c s k) m).fu = (mget s m).fu := by
  unfold cdb_grant
  rw [cdb_enter_state_update_fu, wakeup_mget_fu,
    show ∀ x : PState, (mget (cdb_clear_rename x k) m).fu = (mget x m).fu from
      fun x => by rw [cdb_clear_rename_mget],
    cdb_free_fu_mget_other _ _ _ hmk, cdb_flags_reset_fu]

/-- The granted instruction's own FU back-reference is broken. -/
theorem cdb_grant_mget_fu_self (c : Nat) (s : PState) (k : Nat) (hlt : k < s.store.length) :
    (mget (cdb_grant c s k) k).fu = none := by
  unfold cdb_grant
  rw [cdb_enter_state_update_fu, wakeup_mget_fu,
    show ∀ x : PState, (mget (cdb_clear_rename x k) k).fu = (mget x k).fu from
      fun x => by rw [cdb_clear_rename_mget],
    cdb_free_fu_mget_self _ _ (by rw [cdb_flags_reset_store_length]; exact hlt)]

/-- After a grant, an instruction's FU back-reference is its old one or has
been broken. -/
theorem cdb_grant_mget_fu_cases (c : Nat) (s : PState) (k m : Nat) :
    (mget (cdb_grant c s k) m).fu = (mget s m).fu ∨ (mget (cdb_grant c s k) m).fu = none := by
  by_cases hmk : m = k
  · subst hmk
    by_cases hlt : m < s.store.length
    · exact Or.inr (cdb_grant_mget_fu_self c s m hlt)
    · left
      unfold cdb_grant
      rw [cdb_enter_state_update_fu, wakeup_mget_fu,
        show ∀ x : PState, (mget (cdb_clear_rename x m) m).fu = (mget x m).fu from
          fun x => by rw [cdb_clear_rename_mget],
        cdb_free_fu_mget_self_out _ _ (by rw [cdb_flags_reset_store_length]; exact hlt),
        cdb_flags_reset_fu]
  · exact Or.inl (cdb_grant_mget_fu_other c s k m hmk)

/-- The FU pool after a CDB grant: the slot named by the winner's
back-reference is cleared; nothing else changes. -/
theorem cdb_grant_fu_pool (c : Nat) (s : PState) (k : Nat) :
    (cdb_grant c s k).fu_pool = match (mget s k).fu with
      | none => s.fu_pool
      | some fi => s.fu_pool.set fi { fget s fi with inst := none, remaining := 0 } := by
  unfold cdb_grant
  rw [cdb_enter_state_update_fu_pool, wakeup_fu_pool, cdb_clear_rename_fu_pool,
    cdb_free_fu_pool]
  rw [cdb_flags_reset_fu, cdb_flags_reset_fu_pool]
  cases hfu : (mget s k).fu with
  | none => rfl
  | some fi => rfl

/-- A grant never frees a slot other than its instruction's own. -/
theorem cdb_grant_fget_inst_other (c : Nat) (s : PState) (k fi : Nat)
    (h : (mget s k).fu ≠ some fi) :
    (fget (cdb_grant c s k) fi).inst = (fget s fi).inst := by
  have hp := cdb_grant_fu_pool c s k
  cases hfu : (mget s k).fu with
  | none =>
    rw [hfu] at hp
    unfold fget
    rw [hp]
  | some fi2 =>
    rw [hfu] at hp
    have hne : fi2 ≠ fi := fun hc => h (hc ▸ hfu)
    unfold fget
    rw [hp]
    simp only [List.getD_eq_getElem?_getD, List.getElem?_set, if_neg hne]

/-- A grant frees its instruction's slot. -/
theorem cdb_grant_fget_inst_self (c : Nat) (s : PState) (k fi : Nat)
    (h : (mget s k).fu = some fi) :
    (fget (cdb_grant c s k) fi).inst = none := by
  have hp := cdb_grant_fu_pool c s k
  rw [h] at hp
  unfold fget
  rw [hp, List.getD_eq_getElem?_getD, List.getElem?_set, if_pos rfl]
  by_cases hlt : fi < s.fu_pool.length
  · rw [if_pos hlt]
    rfl
  · rw [if_neg hlt]
    rfl

/-- A freed slot stays freed across further grants. -/
theorem cdb_grant_fget_inst_none_mono (c : Nat) (s : PState) (k fi : Nat)
    (h : (fget s fi).inst = none) :
    (fget (cdb_grant c s k) fi).inst = none := by
  cases hfu : (mget s k).fu with
  | none => rw [cdb_grant_fget_inst_other c s k fi (by simp [hfu])]; exact h
  | some fi2 =>
    by_cases hfi : fi2 = fi
    · exact cdb_grant_fget_inst_self c s k fi (hfi ▸ hfu)
    · rw [cdb_grant_fget_inst_other c s k fi (by simp [hfu, hfi])]; exact h

/-- A broken FU back-reference stays broken across further grants. -/
theorem cdb_grant_mget_fu_none_mono (c : Nat) (s : PState) (k m : Nat)
    (h : (mget s m).fu = none) :
    (mget (cdb_grant c s k) m).fu = none := by
  rcases cdb_grant_mget_fu_cases c s k m with hc | hc
  · rw [hc, h]
  · exact hc

/-! ### Folding grants over the winner list -/

/-- A grant fold over instructions none of which points at slot `fi` leaves
that slot's occupancy alone. -/
theorem grants_fold_not_freeing (c fi : Nat) :
    ∀ (W : List Nat) (s : PState), (∀ k ∈ W, (mget s k).fu ≠ some fi) →
      (fget (W.foldl (cdb_grant c) s) fi).inst = (fget s fi).inst := by
  intro W
  induction W with
  | nil => intro s _; rfl
  | cons k W ih =>
    intro s hW
    rw [List.foldl_cons]
    rw [ih (cdb_grant c s k) (fun k2 hk2 hc => by
      rcases cdb_grant_mget_fu_cases c s k k2 with he | he
      · exact hW k2 (List.mem_cons_of_mem k hk2) (he ▸ hc)
      · rw [hc] at he
        cases he)]
    exact cdb_grant_fget_inst_other c s k fi (hW k (List.mem_cons_self k W))

/-- Once a slot is free and a back-reference broken, a grant fold keeps
them so. -/
theorem grants_fold_none_mono (c fi j : Nat) :
    ∀ (W : List Nat) (s : PState), (fget s fi).inst = none → (mget s j).fu = none →
      (fget (W.foldl (cdb_grant c) s) fi).inst = none ∧
        (mget (W.foldl (cdb_grant c) s) j).fu = none := by
  intro W
  induction W with
  | nil => intro s h1 h2; exact ⟨h1, h2⟩
  | cons k W ih =>
    intro s h1 h2
    rw [List.foldl_cons]
    exact ih (cdb_grant c s k) (cdb_grant_fget_inst_none_mono c s k fi h1)
      (cdb_grant_mget_fu_none_mono c s k j h2)

/-- Folding grants over a list containing the instruction holding slot `fi`
(and the only list member pointing at `fi`) frees the slot and breaks the
back-reference. -/
theorem grants_fold_winner (c fi j : Nat) :
    ∀ (W : List Nat) (s : PState),
      (∀ k ∈ W, (mget s k).fu = some fi → k = j) →
      (mget s j).fu = some fi → j < s.store.length → j ∈ W →
      (fget (W.foldl (cdb_grant c) s) fi).inst = none ∧
        (mget (W.foldl (cdb_grant c) s) j).fu = none := by
  intro W
  induction W with
  | nil => intro s _ _ _ hmem; cases hmem
  | cons k W ih =>
    intro s huniq hj hlen hmem
    rw [List.foldl_cons]
    by_cases hkj : k = j
    · subst hkj
      exact grants_fold_none_mono c fi k W (cdb_grant c s k)
        (cdb_grant_fget_inst_self c s k fi hj)
        (cdb_grant_mget_fu_self c s k hlen)
    · have hmem2 : j ∈ W := by
        rcases List.mem_cons.1 hmem with h | h
        · exact absurd h.symm hkj
        · exact h
      refine ih (cdb_grant c s k) ?_ ?_ ?_ hmem2
      · intro k2 hk2mem hk2
        rcases cdb_grant_mget_fu_cases c s k k2 with he | he
        · exact huniq k2 (List.mem_cons_of_mem k hk2mem) (he ▸ hk2)
        · rw [hk2] at he
          cases he
      · rw [cdb_grant_mget_fu_other c s k j (fun hc => hkj hc.symm)]
        exact hj
      · rw [cdb_grant_store_length]
        exact hlen

/-! ### The execute tick never frees a slot -/

/-- One step of the execute tick keeps every slot's occupancy. -/
theorem tick_one_fu_fget_inst (c : Nat) (s : PState) (fi2 fi : Nat) :
    (fget (tick_one_fu c s fi2) fi).inst = (fget s fi).inst := by
  simp only [tick_one_fu]
  split
  · rfl
  · split
    · have hs1 : (fget (fmod s fi2 (fun fu => { fu with remaining := fu.remaining - 1 })) fi).inst =
          (fget s fi).inst := by
        rw [fget_fmod]
        split
        · rename_i h
          rw [← h.1]
        · rfl
      split_ifs <;> exact hs1
    · rfl

/-- C4 part 1: the execute tick never changes which instruction a slot
holds; in particular a slot whose instruction reached `remaining = 0` is
not freed by it. -/
theorem tick_units_fget_inst (c : Nat) (s : PState) (fi : Nat) :
    (fget (tick_execute_units c s) fi).inst = (fget s fi).inst := by
  unfold tick_execute_units
  generalize List.range s.fu_pool.length = L
  induction L generalizing s with
  | nil => rfl
  | cons a L ih =>
    rw [List.foldl_cons, ih (tick_one_fu c s a), tick_one_fu_fget_inst]

/-! ### C4: slots are freed exactly by winning CDB arbitration -/

/-- The instructions granted broadcast this cycle: the first `R` of the
bus-wait list in `(completion_c, tag)` order. -/
def cdb_winners (s : PState) : List Nat :=
  (sortByKey (busKeyLe s) s.bus_wait).take s.gR

/-- C4: a busy FU slot (holding instruction `j`, with a consistent
back-reference, `j` being the only bus-wait member pointing at the slot) is
never freed by the execute tick; the broadcast stage frees it exactly when
`j` wins CDB arbitration, and leaves it busy when `j` loses. -/
theorem fu_freed_exactly_by_cdb_win (c : Nat) (s : PState) (fi j : Nat)
    (hbusy : (fget s fi).inst = some j)
    (hback : (mget s j).fu = some fi)
    (hlen : j < s.store.length)
    (huniq : ∀ k ∈ s.bus_wait, (mget s k).fu = some fi → k = j) :
    (fget (tick_execute_units c s) fi).inst = some j ∧
    (j ∈ cdb_winners s →
      (fget (broadcast_results c s) fi).inst = none ∧
      (mget (broadcast_results c s) j).fu = none) ∧
    (j ∉ cdb_winners s → (fget (broadcast_results c s) fi).inst = some j) := by
  have hwin_sub : ∀ k ∈ cdb_winners s, k ∈ s.bus_wait := by
    intro k hk
    have : k ∈ sortByKey (busKeyLe s) s.bus_wait := List.mem_of_mem_take hk
    exact (mem_sortByKey _ k _).1 this
  refine ⟨by rw [tick_units_fget_inst]; exact hbusy, ?_, ?_⟩
  · intro hjw
    have hbw : s.bus_wait.isEmpty = false := by
      have hj2 := hwin_sub j hjw
      cases hbe : s.bus_wait with
      | nil => rw [hbe] at hj2; cases hj2
      | cons a l => rfl
    rw [broadcast_results_eq, hbw]
    simp only [Bool.false_eq_true, if_false]
    exact grants_fold_winner c fi j (cdb_winners s) s
      (fun k hk => huniq k (hwin_sub k hk)) hback hlen hjw
  · intro hjl
    have hfold : ∀ W : List Nat, (∀ k ∈ W, k ∈ cdb_winners s) →
        (fget (W.foldl (cdb_grant c) s) fi).inst = some j := by
      intro W hW
      rw [grants_fold_not_freeing c fi W s (fun k hk hc => by
        have hkj : k = j := huniq k (hwin_sub k (hW k hk)) hc
        exact hjl (hkj ▸ hW k hk))]
      exact hbusy
    rw [broadcast_results_eq]
    by_cases hbw : s.bus_wait.isEmpty
    · rw [if_pos hbw]
      exact hbusy
    · rw [if_neg hbw]
      exact hfold (cdb_winners s) (fun k hk => hk)

/-- A small concrete mid-run state: one type-0 FU holding instruction 0,
which has finished executing and waits on the bus. -/
def busyWitnessState : PState :=
  { gF := 1, gR := 1, gK0 := 1, gK1 := 0, gK2 := 0, gRS_cap := 2,
    next_tag := 2, trace_done := true, trace := [],
    store := [{ raw := ⟨0, -1, -1, -1⟩, tag := 1, issued := true, waiting_bus := true,
                enqueued_bus := true, completion_c := 3, type := 0, fu := some 0 }],
    q_dispatch := [], rs := [0], st_update := [], bus_wait := [0],
    latch_fd_cur := [], latch_fd_nxt := [], latch_ds_cur := [], latch_ds_nxt := [],
    latch_se_cur := [], latch_se_nxt := [],
    reg_map := List.replicate 128 (-1),
    fu_pool := [{ type := 0, inst := some 0, remaining := 0 }],
    cycle := 3, g_retired := 0, g_issued_total := 1, g_disp_q_sum := 0, g_disp_q_max := 0 }

/-- Witness for C4 on `busyWitnessState` (where instruction 0 wins). -/
theorem fu_freed_exactly_by_cdb_win_witness :
    (0 ∈ cdb_winners busyWitnessState) ∧
    ((fget (tick_execute_units 4 busyWitnessState) 0).inst = some 0 ∧
      (0 ∈ cdb_winners busyWitnessState →
        (fget (broadcast_results 4 busyWitnessState) 0).inst = none ∧
        (mget (broadcast_results 4 busyWitnessState) 0).fu = none) ∧
      (0 ∉ cdb_winners busyWitnessState →
        (fget (broadcast_results 4 busyWitnessState) 0).inst = some 0)) :=
  ⟨by decide,
    fu_freed_exactly_by_cdb_win 4 busyWitnessState 0 0 (by decide) (by decide)
      (by decide) (by decide)⟩

/-- Witness for C3 on `busyWitnessState` at type 0. -/
theorem projected_free_fus_correct_witness :
    (∀ fu ∈ busyWitnessState.fu_pool, fu.type < 3) ∧ 0 < 3 ∧
    getC (projected_free_fus busyWitnessState 3) 0 = spec_free_of_type busyWitnessState 3 0 :=
  ⟨by decide, by decide,
    projected_free_fus_correct busyWitnessState 3 (by decide) 0 (by decide)⟩

/-! ### C10: fetch width zero never terminates -/

/-- Generic fold preservation of a state projection. -/
theorem foldl_proj {β : Type} (g : PState → β) (f : PState → Nat → PState)
    (hstep : ∀ s a, g (f s a) = g s) : ∀ (L : List Nat) (s : PState), g (L.foldl f s) = g s := by
  intro L
  induction L with
  | nil => intro s; rfl
  | cons a L ih => intro s; rw [List.foldl_cons, ih, hstep]

/-- The fetch width and trace-exhaustion flag, the state the driver-loop
condition depends on besides the pipeline contents. -/
def cfgTD (s : PState) : Nat × Bool := (s.gF, s.trace_done)

/-- Stage 5 never touches fetch width or the trace flag. -/
theorem retire_cfgTD (s : PState) : cfgTD (retire_state_update s) = cfgTD s := by
  unfold retire_state_update
  split
  · rfl
  · refine foldl_proj cfgTD _ (fun s a => ?_) s.st_update s
    rfl

/-- One execute-tick step never touches fetch width or the trace flag. -/
theorem tick_one_fu_cfgTD (c : Nat) (s : PState) (fi : Nat) :
    cfgTD (tick_one_fu c s fi) = cfgTD s := by
  simp only [tick_one_fu]
  split
  · rfl
  · split
    · split_ifs <;> rfl
    · rfl

/-- Stage 4a never touches fetch width or the trace flag. -/
theorem tick_cfgTD (c : Nat) (s : PState) : cfgTD (tick_execute_units c s) = cfgTD s :=
  foldl_proj cfgTD _ (fun s a => tick_one_fu_cfgTD c s a) _ s

/-- A CDB grant never touches fetch width or the trace flag. -/
theorem cdb_grant_cfgTD (c : Nat) (s : PState) (j : Nat) :
    cfgTD (cdb_grant c s j) = cfgTD s := by
  unfold cdb_grant
  have hw : ∀ (p : Int) (x : PState), cfgTD (wakeup_rs_sources p x) = cfgTD x := by
    intro p x
    unfold wakeup_rs_sources
    refine foldl_proj cfgTD _ (fun s a => ?_) x.rs x
    rfl
  have hcr : ∀ (x : PState), cfgTD (cdb_clear_rename x j) = cfgTD x := by
    intro x
    simp only [cdb_clear_rename]
    split_ifs <;> rfl
  have hff : ∀ (x : PState), cfgTD (cdb_free_fu x j) = cfgTD x := by
    intro x
    unfold cdb_free_fu
    split <;> rfl
  rw [show ∀ x, cfgTD (cdb_enter_state_update c x j) = cfgTD x from fun x => rfl, hw, hcr, hff]
  rfl

/-- Stage 4b never touches fetch width or the trace flag. -/
theorem broadcast_cfgTD (c : Nat) (s : PState) : cfgTD (broadcast_results c s) = cfgTD s := by
  rw [broadcast_results_eq]
  split
  · rfl
  · refine foldl_proj cfgTD _ (fun s a => ?_) _ s
    exact cdb_grant_cfgTD c s a

/-- Stage 4c never touches fetch width or the trace flag. -/
theorem start_cfgTD (c : Nat) (s : PState) : cfgTD (start_executions c s) = cfgTD s := by
  unfold start_executions
  split
  · rfl
  · refine Eq.trans (b := cfgTD (s.latch_se_cur.foldl (start_one_execution c) s)) rfl ?_
    refine foldl_proj cfgTD _ (fun s a => ?_) _ s
    unfold start_one_execution
    split <;> rfl

/-- Stage 3a never touches fetch width or the trace flag. -/
theorem insert_cfgTD (c : Nat) (s : PState) : cfgTD (insert_into_rs c s) = cfgTD s := by
  unfold insert_into_rs
  split
  · rfl
  · refine Eq.trans (b := cfgTD (s.latch_ds_cur.foldl (rs_insert_one c) s)) rfl ?_
    refine foldl_proj cfgTD _ (fun s a => ?_) _ s
    simp only [rs_insert_one]
    split_ifs <;> rfl

/-- Stage 2b never touches fetch width or the trace flag. -/
theorem move_cfgTD (c : Nat) (s : PState) : cfgTD (move_into_dispatch c s) = cfgTD s := by
  unfold move_into_dispatch
  split
  · rfl
  · refine foldl_proj cfgTD _ (fun s a => ?_) _ s
    rfl

/-- The issue scan never touches fetch width or the trace flag. -/
theorem issue_scan_cfgTD (c : Nat) :
    ∀ (L : List Nat) (fn rsv : Counts) (fired : Nat) (s : PState),
      cfgTD (issue_scan c L fn rsv fired s).1 = cfgTD s := by
  intro L
  induction L with
  | nil => intro fn rsv fired s; rfl
  | cons j L ih =>
    intro fn rsv fired s
    simp only [issue_scan]
    split_ifs <;> rw [ih] <;> rfl

/-- The issue stage never touches fetch width or the trace flag. -/
theorem issue_stage_cfgTD (c : Nat) (s : PState) : cfgTD (issue_stage c s) = cfgTD s := by
  unfold issue_stage issue_ready
  split
  · rfl
  · exact issue_scan_cfgTD c _ _ _ _ s

/-- The dispatch-queue drain never touches fetch width or the trace flag. -/
theorem d2s_go_cfgTD : ∀ (L : List Nat) (s : PState),
    cfgTD (dispatch_to_schedule_go L s) = cfgTD s := by
  intro L
  induction L with
  | nil => intro s; rfl
  | cons j L ih =>
    intro s
    unfold dispatch_to_schedule_go
    split
    · rfl
    · rw [ih]
      rfl

/-- All stages before fetch preserve the fetch width and trace flag. -/
theorem pre_fetch_cfgTD (c : Nat) (s : PState) :
    cfgTD (dispatch_to_schedule (issue_stage c (stats_sample (move_into_dispatch c
      (insert_into_rs c (start_executions c (broadcast_results c
        (tick_execute_units c (retire_state_update s))))))))) = cfgTD s := by
  unfold dispatch_to_schedule
  rw [d2s_go_cfgTD, issue_stage_cfgTD,
    show ∀ x : PState, cfgTD (stats_sample x) = cfgTD x from fun x => rfl,
    move_cfgTD, insert_cfgTD, start_cfgTD, broadcast_cfgTD, tick_cfgTD, retire_cfgTD]

/-- With fetch width zero, the fetch loop body never runs: the trace flag
(and fetch width) survive the whole loop body. -/
theorem loop_body_cfgTD_F0 (s : PState) (h : s.gF = 0) : cfgTD (loop_body s) = cfgTD s := by
  have hpre := pre_fetch_cfgTD (s.cycle + 1) { s with cycle := s.cycle + 1 }
  have hf : ∀ (c : Nat) (x : PState), cfgTD x = cfgTD s →
      cfgTD (fetch_instructions c x) = cfgTD x := by
    intro c x hx
    unfold fetch_instructions
    split
    · rfl
    · have hx0 : x.gF = 0 := by
        have := congrArg Prod.fst hx
        simp only [cfgTD] at this
        rw [this, h]
      rw [hx0]
      rfl
  unfold loop_body
  rw [show ∀ x : PState, cfgTD (advance_latches x) = cfgTD x from fun x => rfl,
    hf _ _ hpre]
  exact hpre

/-- C10: with fetch width `F = 0` the instruction source is never read, so
the trace-exhausted flag never sets and the driver loop never exits: for
every trace, configuration and fuel, `run_proc` is still running. -/
theorem run_never_terminates_F0 (r k0 k1 k2 : Nat) (tr : List ProcInst) (fuel : Nat) :
    run_proc fuel (setup_proc r k0 k1 k2 0 tr) = none := by
  suffices key : ∀ (n : Nat) (s : PState), s.gF = 0 → s.trace_done = false →
      run_loop n s = none by
    unfold run_proc
    rw [key fuel _ rfl rfl]
  intro n
  induction n with
  | zero =>
    intro s h0 htd
    unfold run_loop loop_done
    rw [htd]
    rfl
  | succ n ih =>
    intro s h0 htd
    unfold run_loop loop_done
    rw [htd]
    simp only [Bool.false_and, Bool.false_eq_true, if_false]
    have hb := loop_body_cfgTD_F0 s h0
    exact ih (loop_body s)
      (by have := congrArg Prod.fst hb; simp only [cfgTD] at this; rw [this, h0])
      (by have := congrArg Prod.snd hb; simp only [cfgTD] at this; rw [this, htd])

/-! ### C8: monotonicity in the configuration fails -/

/-- Two independent type-0 ops followed by a type-1 producer/consumer
pair: the trace on which widening the type-0 pool slows the machine down. -/
def monoCexTrace : List ProcInst :=
  [⟨0, -1, -1, -1⟩, ⟨0, -1, -1, -1⟩, ⟨1, 1, -1, -1⟩, ⟨1, 2, 1, -1⟩]

set_option maxRecDepth 4000 in
/-- Counterexample to C8: on `monoCexTrace` with `R=1, K=(1,1,1), F=4`,
the run takes 8 cycles; raising `K0` to 2 (everything else equal) takes 9
cycles — the extra FU lets the second independent op complete in the same
cycle as the type-1 producer and steal CDB arbitration by tag order,
delaying the dependent chain. `avg_inst_retired` drops from 1/2 to 4/9. -/
theorem monotonicity_counterexample :
    (run_proc 30 (setup_proc 1 1 1 1 4 monoCexTrace)).map (·.1) =
      some { cycle_count := 8, retired_instruction := 4 } ∧
    (run_proc 30 (setup_proc 1 2 1 1 4 monoCexTrace)).map (·.1) =
      some { cycle_count := 9, retired_instruction := 4 } ∧
    8 < 9 ∧
    (complete_proc { cycle_count := 9, retired_instruction := 4 }
        (setup_proc 1 2 1 1 4 monoCexTrace)).avg_inst_retired <
      (complete_proc { cycle_count := 8, retired_instruction := 4 }
        (setup_proc 1 1 1 1 4 monoCexTrace)).avg_inst_retired :=
  ⟨rfl, rfl, by norm_num, by norm_num [complete_proc]⟩

/-- The spec's four independent type-0 ops. -/
def fourOpTrace : List ProcInst :=
  [⟨0, -1, -1, -1⟩, ⟨0, -1, -1, -1⟩, ⟨0, -1, -1, -1⟩, ⟨0, -1, -1, -1⟩]

set_option maxRecDepth 4000 in
/-- C8 amended: configuration monotonicity fails in general (see the
counterexample), but the spec's own scenario pair remains monotone: on the
four-independent-op trace with `K=(4,1,1), F=4`, raising `R` from 1 to 4
lowers `cycle_count` from 8 to 5 and keeps `retired_instruction = 4`. -/
theorem four_op_R_monotone :
    (run_proc 30 (setup_proc 1 4 1 1 4 fourOpTrace)).map (·.1) =
      some { cycle_count := 8, retired_instruction := 4 } ∧
    (run_proc 30 (setup_proc 4 4 1 1 4 fourOpTrace)).map (·.1) =
      some { cycle_count := 5, retired_instruction := 4 } ∧
    5 ≤ 8 :=
  ⟨rfl, rfl, by norm_num⟩

/-! ### C6: completion versus state-update stamps -/

set_option maxRecDepth 4000 in
/-- Counterexample to C6: in the single-instruction run the retired
instruction has `completion_c = state_c = 5` — broadcast happens the very
cycle execution completes, so no cycle elapses between the two stamps. -/
theorem completion_equals_state_counterexample :
    (run_proc 20 (setup_proc 1 1 1 1 1 [⟨0, -1, -1, -1⟩])).map
        (fun p => (p.1.retired_instruction, (mget p.2 0).completion_c, (mget p.2 0).state_c)) =
      some (1, 5, 5) := rfl

/-- A CDB grant never touches any completion stamp. -/
theorem cdb_grant_completion (c : Nat) (s : PState) (k m : Nat) :
    (mget (cdb_grant c s k) m).completion_c = (mget s m).completion_c := by
  unfold cdb_grant
  rw [show ∀ x : PState, (mget (cdb_enter_state_update c x k) m).completion_c =
        (mget x m).completion_c from fun x =>
      mget_mmod_proj (fun w => w.completion_c) x k m (fun w => { w with state_c := c })
        (fun _ => rfl),
    wakeup_mget_proj (fun w => w.completion_c) _ _ m (fun _ _ _ _ _ => rfl),
    show ∀ x : PState, mget (cdb_clear_rename x k) m = mget x m from
      fun x => cdb_clear_rename_mget x k m]
  have hfree : ∀ x : PState, (mget (cdb_free_fu x k) m).completion_c =
      (mget x m).completion_c := by
    intro x
    unfold cdb_free_fu
    cases hfu : (mget x k).fu with
    | none => rfl
    | some fi =>
      rw [mget_mmod]
      split
      · rename_i h
        rw [← h.1, mget_fmod]
      · rw [mget_fmod]
  rw [hfree]
  exact mget_mmod_proj (fun w => w.completion_c) s k m _ (fun _ => rfl)

/-- A grant of another instruction keeps this one's state stamp. -/
theorem cdb_grant_state_c_other (c : Nat) (s : PState) (k m : Nat) (hmk : m ≠ k) :
    (mget (cdb_grant c s k) m).state_c = (mget s m).state_c := by
  unfold cdb_grant
  rw [show ∀ x : PState, (mget (cdb_enter_state_update c x k) m).state_c =
        (mget x m).state_c from fun x => by
      unfold cdb_enter_state_update
      rw [show mget { mmod x k (fun w => { w with state_c := c }) with
            st_update := (mmod x k (fun w => { w with state_c := c })).st_update ++ [k] } m =
          mget (mmod x k (fun w => { w with state_c := c })) m from rfl, mget_mmod,
        if_neg (fun hc => hmk hc.1.symm)],
    wakeup_mget_proj (fun w => w.state_c) _ _ m (fun _ _ _ _ _ => rfl),
    show ∀ x : PState, mget (cdb_clear_rename x k) m = mget x m from
      fun x => cdb_clear_rename_mget x k m]
  have hfree : ∀ x : PState, (mget (cdb_free_fu x k) m).state_c = (mget x m).state_c := by
    intro x
    unfold cdb_free_fu
    cases hfu : (mget x k).fu with
    | none => rfl
    | some fi =>
      rw [mget_mmod, if_neg (fun hc => hmk hc.1.symm), mget_fmod]
  rw [hfree]
  exact mget_mmod_proj (fun w => w.state_c) s k m _ (fun _ => rfl)

/-- A grant stamps the winner's `state_c` with the broadcast cycle. -/
theorem cdb_grant_state_c_self (c : Nat) (s : PState) (k : Nat) (hlt : k < s.store.length) :
    (mget (cdb_grant c s k) k).state_c = c := by
  unfold cdb_grant cdb_enter_state_update
  have hlen2 : k < (wakeup_rs_sources
      (Int.ofNat (mget (cdb_clear_rename (cdb_free_fu (cdb_flags_reset s k) k) k) k).tag)
      (cdb_clear_rename (cdb_free_fu (cdb_flags_reset s k) k) k)).store.length := by
    rw [wakeup_store_length, cdb_clear_rename_store, cdb_free_fu_store_length,
      cdb_flags_reset_store_length]
    exact hlt
  rw [show ∀ x : PState, mget { mmod x k (fun w => { w with state_c := c }) with
        st_update := (mmod x k (fun w => { w with state_c := c })).st_update ++ [k] } k =
      mget (mmod x k (fun w => { w with state_c := c })) k from fun x => rfl, mget_mmod,
    if_pos ⟨rfl, hlen2⟩]

/-- Grant folds never touch completion stamps. -/
theorem grants_fold_completion (c : Nat) :
    ∀ (W : List Nat) (s : PState) (m : Nat),
      (mget (W.foldl (cdb_grant c) s) m).completion_c = (mget s m).completion_c := by
  intro W
  induction W with
  | nil => intro s m; rfl
  | cons k W ih => intro s m; rw [List.foldl_cons, ih, cdb_grant_completion]

/-- Grant folds keep the state stamp of instructions outside the list. -/
theorem grants_fold_state_other (c : Nat) :
    ∀ (W : List Nat) (s : PState) (m : Nat), m ∉ W →
      (mget (W.foldl (cdb_grant c) s) m).state_c = (mget s m).state_c := by
  intro W
  induction W with
  | nil => intro s m _; rfl
  | cons k W ih =>
    intro s m hm
    rw [List.foldl_cons, ih _ _ (fun hc => hm (List.mem_cons_of_mem k hc)),
      cdb_grant_state_c_other c s k m (fun hc => hm (hc ▸ List.mem_cons_self k W))]

/-- A grant fold stamps the state stamp of every (in-range) member with the
broadcast cycle. -/
theorem grants_fold_state_mem (c : Nat) :
    ∀ (W : List Nat) (s : PState) (j : Nat), (∀ k ∈ W, k < s.store.length) → j ∈ W →
      (mget (W.foldl (cdb_grant c) s) j).state_c = c := by
  intro W
  induction W with
  | nil => intro s j _ hj; cases hj
  | cons k W ih =>
    intro s j hlen hj
    rw [List.foldl_cons]
    by_cases hjW : j ∈ W
    · refine ih (cdb_grant c s k) j (fun k2 hk2 => ?_) hjW
      rw [cdb_grant_store_length]
      exact hlen k2 (List.mem_cons_of_mem k hk2)
    · have hjk : j = k := by
        rcases List.mem_cons.1 hj with h | h
        · exact h
        · exact absurd h hjW
      subst hjk
      rw [grants_fold_state_other c W _ j hjW,
        cdb_grant_state_c_self c s j (hlen j (List.mem_cons_self j W))]

/-- C6 amended, broadcast part: a CDB winner at cycle `c` gets
`state_c = c`, and (as its completion stamp is at most `c`) satisfies
`completion_c ≤ state_c`; equality is possible. -/
theorem cdb_win_state_stamp (c : Nat) (s : PState)
    (hlen : ∀ j ∈ s.bus_wait, j < s.store.length)
    (hcomp : ∀ j ∈ s.bus_wait, (mget s j).completion_c ≤ c) :
    ∀ j ∈ cdb_winners s,
      (mget (broadcast_results c s) j).state_c = c ∧
      (mget (broadcast_results c s) j).completion_c ≤
        (mget (broadcast_results c s) j).state_c := by
  intro j hj
  have hjb : j ∈ s.bus_wait :=
    (mem_sortByKey _ j _).1 (List.mem_of_mem_take hj)
  have hbw : s.bus_wait.isEmpty = false := by
    cases hbe : s.bus_wait with
    | nil => rw [hbe] at hjb; cases hjb
    | cons a l => rfl
  have hwlen : ∀ k ∈ cdb_winners s, k < s.store.length := fun k hk =>
    hlen k ((mem_sortByKey _ k _).1 (List.mem_of_mem_take hk))
  have hstate : (mget ((cdb_winners s).foldl (cdb_grant c) s) j).state_c = c :=
    grants_fold_state_mem c (cdb_winners s) s j hwlen hj
  have hcompf := grants_fold_completion c (cdb_winners s) s j
  have hcomp2 : (mget ((cdb_winners s).foldl (cdb_grant c) s) j).completion_c ≤
      (mget ((cdb_winners s).foldl (cdb_grant c) s) j).state_c := by
    rw [hstate, hcompf]
    exact hcomp j hjb
  rw [broadcast_results_eq, hbw]
  simp only [Bool.false_eq_true, if_false]
  exact ⟨hstate, hcomp2⟩

/-- Stage 5 retires exactly the state-update set of the previous cycle. -/
theorem retire_g_retired (s : PState) :
    (retire_state_update s).g_retired = s.g_retired + s.st_update.length := by
  unfold retire_state_update
  split
  · rename_i h
    rw [List.isEmpty_iff.1 h]
    rfl
  · have hfold : ∀ (L : List Nat) (x : PState),
        (L.foldl (fun acc i =>
          let acc1 := { acc with rs := acc.rs.erase i }
          let acc2 := mmod acc1 i (fun w => { w with issued := true })
          { acc2 with g_retired := acc2.g_retired + 1 }) x).g_retired =
        x.g_retired + L.length := by
      intro L
      induction L with
      | nil => intro x; rfl
      | cons a L ih =>
        intro x
        rw [List.foldl_cons, ih]
        show x.g_retired + 1 + L.length = x.g_retired + (L.length + 1)
        omega
    exact hfold s.st_update s

/-- The per-cycle retired-count projection. -/
def retiredOf (s : PState) : Nat := s.g_retired

set_option maxHeartbeats 1000000 in
/-- No stage other than retirement touches the retired counter. -/
theorem pre_fetch_retired (c : Nat) (s : PState) :
    retiredOf (dispatch_to_schedule (issue_stage c (stats_sample (move_into_dispatch c
      (insert_into_rs c (start_executions c (broadcast_results c
        (tick_execute_units c s)))))))) = retiredOf s := by
  have htick1 : ∀ (x : PState) (fi : Nat), retiredOf (tick_one_fu c x fi) = retiredOf x := by
    intro x fi
    simp only [tick_one_fu]
    split
    · rfl
    · split
      · split_ifs <;> rfl
      · rfl
  have htick : ∀ x : PState, retiredOf (tick_execute_units c x) = retiredOf x := fun x =>
    foldl_proj retiredOf _ (fun x2 a => htick1 x2 a) _ x
  have hgrant : ∀ (x : PState) (k : Nat), retiredOf (cdb_grant c x k) = retiredOf x := by
    intro x k
    unfold cdb_grant
    have hw : ∀ (p : Int) (y : PState), retiredOf (wakeup_rs_sources p y) = retiredOf y := by
      intro p y
      unfold wakeup_rs_sources
      refine foldl_proj retiredOf _ (fun y2 a => ?_) y.rs y
      rfl
    have hcr : ∀ y : PState, retiredOf (cdb_clear_rename y k) = retiredOf y := by
      intro y
      simp only [cdb_clear_rename]
      split_ifs <;> rfl
    have hff : ∀ y : PState, retiredOf (cdb_free_fu y k) = retiredOf y := by
      intro y
      unfold cdb_free_fu
      split <;> rfl
    rw [show ∀ y : PState, retiredOf (cdb_enter_state_update c y k) = retiredOf y from
      fun y => rfl, hw, hcr, hff]
    rfl
  have hbr : ∀ x : PState, retiredOf (broadcast_results c x) = retiredOf x := by
    intro x
    rw [broadcast_results_eq]
    split
    · rfl
    · refine foldl_proj retiredOf _ (fun x2 a => ?_) _ x
      exact hgrant x2 a
  have hstart : ∀ x : PState, retiredOf (start_executions c x) = retiredOf x := by
    intro x
    unfold start_executions
    split
    · rfl
    · refine foldl_proj retiredOf _ (fun x2 a => ?_) _ x
      unfold start_one_execution
      split <;> rfl
  have hins : ∀ x : PState, retiredOf (insert_into_rs c x) = retiredOf x := by
    intro x
    unfold insert_into_rs
    split
    · rfl
    · refine foldl_proj retiredOf _ (fun x2 a => ?_) _ x
      simp only [rs_insert_one]
      split_ifs <;> rfl
  have hmove : ∀ x : PState, retiredOf (move_into_dispatch c x) = retiredOf x := by
    intro x
    unfold move_into_dispatch
    split
    · rfl
    · refine foldl_proj retiredOf _ (fun x2 a => ?_) _ x
      rfl
  have hscan : ∀ (L : List Nat) (fn rsv : Counts) (fired : Nat) (x : PState),
      retiredOf (issue_scan c L fn rsv fired x).1 = retiredOf x := by
    intro L
    induction L with
    | nil => intro fn rsv fired x; rfl
    | cons j L ih =>
      intro fn rsv fired x
      simp only [issue_scan]
      split_ifs <;> rw [ih] <;> rfl
  have hiss : ∀ x : PState, retiredOf (issue_stage c x) = retiredOf x := by
    intro x
    unfold issue_stage issue_ready
    split
    · rfl
    · exact hscan _ _ _ _ x
  have hd2s : ∀ (L : List Nat) (x : PState),
      retiredOf (dispatch_to_schedule_go L x) = retiredOf x := by
    intro L
    induction L with
    | nil => intro x; rfl
    | cons j L ih =>
      intro x
      unfold dispatch_to_schedule_go
      split
      · rfl
      · rw [ih]
        rfl
  unfold dispatch_to_schedule
  rw [hd2s, hiss, show ∀ x : PState, retiredOf (stats_sample x) = retiredOf x from
    fun x => rfl, hmove, hins, hstart, hbr, htick]

/-- The fetch stage never touches the retired counter. -/
theorem fetch_retired (c : Nat) (s : PState) :
    retiredOf (fetch_instructions c s) = retiredOf s := by
  unfold fetch_instructions
  split
  · rfl
  · have hgo : ∀ (n : Nat) (x : PState), retiredOf (fetch_go c n x) = retiredOf x := by
      intro n
      induction n with
      | zero => intro x; rfl
      | succ n ih =>
        intro x
        unfold fetch_go
        split
        · rfl
        · rw [ih]
          rfl
    exact hgo s.gF s

/-- C6 amended, retirement part: each driver-loop iteration retires exactly
the members of the state-update set filled by the previous cycle's
broadcast — removal happens one full cycle after `state_c` is stamped. -/
theorem loop_body_g_retired (s : PState) :
    (loop_body s).g_retired = s.g_retired + s.st_update.length := by
  show retiredOf (loop_body s) = s.g_retired + s.st_update.length
  simp only [loop_body]
  rw [show ∀ x : PState, retiredOf (advance_latches x) = retiredOf x from fun x => rfl,
    fetch_retired, pre_fetch_retired]
  show (retire_state_update { s with cycle := s.cycle + 1 }).g_retired =
    s.g_retired + s.st_update.length
  rw [retire_g_retired]

/-- C6 amended: a CDB winner at cycle `c` gets `state_c = c` with
`completion_c ≤ state_c` (equality is possible: broadcast can happen the
cycle execution completes), and removal from the pipeline happens one full
iteration later — each driver-loop iteration retires exactly the previous
cycle's state-update set. -/
theorem state_stamp_and_retirement_gap (c : Nat) (s : PState)
    (hlen : ∀ j ∈ s.bus_wait, j < s.store.length)
    (hcomp : ∀ j ∈ s.bus_wait, (mget s j).completion_c ≤ c) :
    (∀ j ∈ cdb_winners s,
      (mget (broadcast_results c s) j).state_c = c ∧
      (mget (broadcast_results c s) j).completion_c ≤
        (mget (broadcast_results c s) j).state_c) ∧
    (∀ x : PState, (loop_body x).g_retired = x.g_retired + x.st_update.length) :=
  ⟨cdb_win_state_stamp c s hlen hcomp, loop_body_g_retired⟩

/-- Witness for the amended C6 on `busyWitnessState` at cycle 3. -/
theorem state_stamp_and_retirement_gap_witness :
    (∀ j ∈ busyWitnessState.bus_wait, j < busyWitnessState.store.length) ∧
    (∀ j ∈ busyWitnessState.bus_wait, (mget busyWitnessState j).completion_c ≤ 3) ∧
    ((∀ j ∈ cdb_winners busyWitnessState,
      (mget (broadcast_results 3 busyWitnessState) j).state_c = 3 ∧
      (mget (broadcast_results 3 busyWitnessState) j).completion_c ≤
        (mget (broadcast_results 3 busyWitnessState) j).state_c) ∧
    (∀ x : PState, (loop_body x).g_retired = x.g_retired + x.st_update.length)) :=
  ⟨by decide, by decide, state_stamp_and_retirement_gap 3 busyWitnessState (by decide) (by decide)⟩

/-! ### C1: the single-instruction run, for every configuration -/

/-- Index-based variant of the idle-tick fold lemma. -/
theorem tick_fold_idle_idx (c : Nat) :
    ∀ (L : List Nat) (s : PState), (∀ fi ∈ L, (fget s fi).inst = none) →
      L.foldl (tick_one_fu c) s = s := by
  intro L
  induction L with
  | nil => intro s _; rfl
  | cons a L ih =>
    intro s h
    have ha : tick_one_fu c s a = s := by
      unfold tick_one_fu
      rw [h a (List.mem_cons_self a L)]
    rw [List.foldl_cons, ha, ih s (fun fi hfi => h fi (List.mem_cons_of_mem a hfi))]

/-- Beyond index 0, a pool whose tail is all idle reads idle. -/
theorem fget_cons_tail (s : PState) (hd : FU) (rest : List FU)
    (hpool : s.fu_pool = hd :: rest) (hrest : ∀ fu ∈ rest, fu.inst = none) :
    ∀ fi, 1 ≤ fi → (fget s fi).inst = none := by
  intro fi hfi
  obtain ⟨i, rfl⟩ : ∃ i, fi = i + 1 := ⟨fi - 1, by omega⟩
  unfold fget
  rw [hpool, List.getD_eq_getElem?_getD, List.getElem?_cons_succ]
  cases hx : rest[i]? with
  | none => rfl
  | some fu => simpa [hx] using hrest fu (List.getElem?_mem hx)

/-- When every slot but the head is idle, the execute tick reduces to the
head's step. -/
theorem tick_units_head (c : Nat) (s : PState)
    (h : ∀ fi, 1 ≤ fi → (fget s fi).inst = none) :
    tick_execute_units c s = tick_one_fu c s 0 := by
  unfold tick_execute_units
  cases hlen : s.fu_pool.length with
  | zero =>
    have hnil : s.fu_pool = [] := List.length_eq_zero.1 hlen
    have h0 : (fget s 0).inst = none := by
      unfold fget
      rw [hnil]
      rfl
    have : tick_one_fu c s 0 = s := by
      unfold tick_one_fu
      rw [h0]
    rw [List.range_zero, this]
    rfl
  | succ n =>
    rw [List.range_succ_eq_map, List.foldl_cons]
    refine tick_fold_idle_idx c _ _ (fun fi hfi => ?_)
    obtain ⟨i, hi, rfl⟩ := List.mem_map.1 hfi
    rw [tick_one_fu_fget_inst]
    exact h _ (Nat.succ_le_succ (Nat.zero_le i))

/-- The lookahead scan over idle type-0 slots counts them all. -/
theorem look_fold_rep0 (s : PState) (c : Nat) :
    ∀ (k : Nat) (acc : Counts × List Cand),
      (List.replicate k ({ type := 0 } : FU)).foldl (look_step s c) acc =
        ((acc.1.1 + k, acc.1.2.1, acc.1.2.2), acc.2) := by
  intro k
  induction k with
  | zero => intro acc; rfl
  | succ k ih =>
    intro acc
    rw [List.replicate_succ, List.foldl_cons,
      show look_step s c acc { type := 0 } = ((acc.1.1 + 1, acc.1.2.1, acc.1.2.2), acc.2)
        from rfl, ih]
    have : acc.1.1 + 1 + k = acc.1.1 + (k + 1) := by omega
    rw [this]

/-- The lookahead scan over idle type-1 slots counts them all. -/
theorem look_fold_rep1 (s : PState) (c : Nat) :
    ∀ (k : Nat) (acc : Counts × List Cand),
      (List.replicate k ({ type := 1 } : FU)).foldl (look_step s c) acc =
        ((acc.1.1, acc.1.2.1 + k, acc.1.2.2), acc.2) := by
  intro k
  induction k with
  | zero => intro acc; rfl
  | succ k ih =>
    intro acc
    rw [List.replicate_succ, List.foldl_cons,
      show look_step s c acc { type := 1 } = ((acc.1.1, acc.1.2.1 + 1, acc.1.2.2), acc.2)
        from rfl, ih]
    have : acc.1.2.1 + 1 + k = acc.1.2.1 + (k + 1) := by omega
    rw [this]

/-- The lookahead scan over idle type-2 slots counts them all. -/
theorem look_fold_rep2 (s : PState) (c : Nat) :
    ∀ (k : Nat) (acc : Counts × List Cand),
      (List.replicate k ({ type := 2 } : FU)).foldl (look_step s c) acc =
        ((acc.1.1, acc.1.2.1, acc.1.2.2 + k), acc.2) := by
  intro k
  induction k with
  | zero => intro acc; rfl
  | succ k ih =>
    intro acc
    rw [List.replicate_succ, List.foldl_cons,
      show look_step s c acc { type := 2 } = ((acc.1.1, acc.1.2.1, acc.1.2.2 + 1), acc.2)
        from rfl, ih]
    have : acc.1.2.2 + 1 + k = acc.1.2.2 + (k + 1) := by omega
    rw [this]

/-- On a pool of one idle type-0 slot plus an idle `mkPool` tail, the
lookahead sees every slot free. -/
theorem projected_idle_pool (s : PState) (c k0 k1 k2 : Nat)
    (hpool : s.fu_pool = { type := 0 } :: mkPool k0 k1 k2) :
    projected_free_fus s c = (k0 + 1, k1, k2) := by
  unfold projected_free_fus
  rw [hpool]
  rw [List.foldl_cons, show look_step s c (((0, 0, 0) : Counts), ([] : List Cand)) { type := 0 } =
    (((1, 0, 0) : Counts), ([] : List Cand)) from rfl]
  unfold mkPool
  rw [List.foldl_append, List.foldl_append, look_fold_rep0, look_fold_rep1, look_fold_rep2]
  dsimp only
  rw [show sortByKey (fun a b => keyLe (a.free_cycle, a.tag) (b.free_cycle, b.tag))
    ([] : List Cand) = [] from rfl, List.take_nil]
  show ((1 + k0, 0 + k1, 0 + k2) : Counts) = (k0 + 1, k1, k2)
  rw [Nat.add_comm 1 k0, Nat.zero_add, Nat.zero_add]

/-- The single instruction (no destination, no sources) after fetch. -/
def C1I1 (op : Int) : Inst :=
  { raw := ⟨op, -1, -1, -1⟩, tag := 1, type := 0, fetch_c := 1 }

/-- After dispatch (cycle 2). -/
def C1I2 (op : Int) : Inst := { C1I1 op with disp_c := 2 }

/-- After RS insert and issue (cycle 3). -/
def C1I3 (op : Int) : Inst :=
  { C1I2 op with
    sched_c := 3, sched_ready_c := 3, src_ready0 := true, src_ready1 := true,
    issued := true }

/-- Executing (cycle 4). -/
def C1I4 (op : Int) : Inst := { C1I3 op with exec_c := 4, fu := some 0 }

/-- Completed and broadcast (cycle 5). -/
def C1I5 (op : Int) : Inst := { C1I4 op with completion_c := 5, state_c := 5, fu := none }

/-- State at the end of cycle 1: the instruction sits in the
fetch→dispatch latch; the trace flag depends on whether a second read
happened (`F ≥ 2`). -/
def C1S1 (op : Int) (r k0 k1 k2 f : Nat) (b : Bool) : PState :=
  { gF := f, gR := if r == 0 then 1 else r, gK0 := k0 + 1, gK1 := k1, gK2 := k2,
    gRS_cap := 2 * (k0 + 1 + k1 + k2), next_tag := 2, trace_done := b, trace := [],
    store := [C1I1 op], q_dispatch := [], rs := [], st_update := [], bus_wait := [],
    latch_fd_cur := [0], latch_fd_nxt := [], latch_ds_cur := [], latch_ds_nxt := [],
    latch_se_cur := [], latch_se_nxt := [],
    reg_map := List.replicate 128 (-1),
    fu_pool := { type := 0 } :: mkPool k0 k1 k2,
    cycle := 1, g_retired := 0, g_issued_total := 0, g_disp_q_sum := 0, g_disp_q_max := 0 }

/-- End of cycle 2: dispatched, moved on to the dispatch→schedule latch,
trace exhausted either way. -/
def C1S2 (op : Int) (r k0 k1 k2 f : Nat) : PState :=
  { C1S1 op r k0 k1 k2 f true with
    cycle := 2, store := [C1I2 op], latch_fd_cur := [], latch_ds_cur := [0],
    g_disp_q_sum := 1, g_disp_q_max := 1 }

/-- End of cycle 3: in the RS, issued, in the schedule→execute latch. -/
def C1S3 (op : Int) (r k0 k1 k2 f : Nat) : PState :=
  { C1S2 op r k0 k1 k2 f with
    cycle := 3, store := [C1I3 op], rs := [0], latch_ds_cur := [], latch_se_cur := [0],
    g_issued_total := 1 }

/-- End of cycle 4: executing in FU slot 0. -/
def C1S4 (op : Int) (r k0 k1 k2 f : Nat) : PState :=
  { C1S3 op r k0 k1 k2 f with
    cycle := 4, store := [C1I4 op], latch_se_cur := [],
    fu_pool := { type := 0, inst := some 0, remaining := 1 } :: mkPool k0 k1 k2 }

/-- End of cycle 5: completed, broadcast, in the state-update set. -/
def C1S5 (op : Int) (r k0 k1 k2 f : Nat) : PState :=
  { C1S4 op r k0 k1 k2 f with
    cycle := 5, store := [C1I5 op], st_update := [0],
    fu_pool := { type := 0 } :: mkPool k0 k1 k2 }

/-- End of cycle 6: retired; the pipeline is empty. -/
def C1S6 (op : Int) (r k0 k1 k2 f : Nat) : PState :=
  { C1S5 op r k0 k1 k2 f with cycle := 6, rs := [], st_update := [], g_retired := 1 }

/-- The single-instruction pool is entirely idle. -/
theorem C1_pool_idle (k0 k1 k2 : Nat) :
    ∀ fu ∈ ({ type := 0 } :: mkPool k0 k1 k2 : List FU), fu.inst = none := by
  intro fu hm
  rcases List.mem_cons.1 hm with h | h
  · rw [h]
  · exact mkPool_idle fu h

/-- Cycle 2 of the single-instruction run: dispatch and queue drain;
whether the EOF was already seen (`b`) or is seen by this cycle's fetch,
the states coincide afterwards. -/
theorem C1_body2 (op : Int) (r k0 k1 k2 f : Nat) (b : Bool) :
    loop_body (C1S1 op r k0 k1 k2 (f + 1) b) = C1S2 op r k0 k1 k2 (f + 1) := by
  have htick : tick_execute_units 2 { C1S1 op r k0 k1 k2 (f + 1) b with cycle := 2 } =
      { C1S1 op r k0 k1 k2 (f + 1) b with cycle := 2 } :=
    tick_idle 2 _ (C1_pool_idle k0 k1 k2)
  have hd2s : dispatch_to_schedule
      { C1S1 op r k0 k1 k2 (f + 1) b with
        cycle := 2, store := [C1I2 op], latch_fd_cur := [], q_dispatch := [0],
        g_disp_q_sum := 1, g_disp_q_max := 1 } =
      { C1S1 op r k0 k1 k2 (f + 1) b with
        cycle := 2, store := [C1I2 op], latch_fd_cur := [], q_dispatch := [],
        latch_ds_nxt := [0], g_disp_q_sum := 1, g_disp_q_max := 1 } := by
    show dispatch_to_schedule_go [0]
      { C1S1 op r k0 k1 k2 (f + 1) b with
        cycle := 2, store := [C1I2 op], latch_fd_cur := [], q_dispatch := [0],
        g_disp_q_sum := 1, g_disp_q_max := 1 } = _
    unfold dispatch_to_schedule_go
    rw [if_neg ?hcap]
    case hcap =>
      show ¬ (2 * (k0 + 1 + k1 + k2) ≤ 0)
      omega
    rfl
  calc loop_body (C1S1 op r k0 k1 k2 (f + 1) b)
      = advance_latches (fetch_instructions 2 (dispatch_to_schedule (issue_stage 2
          (stats_sample (move_into_dispatch 2 (insert_into_rs 2 (start_executions 2
            (broadcast_results 2 (tick_execute_units 2 (retire_state_update
              { C1S1 op r k0 k1 k2 (f + 1) b with cycle := 2 })))))))))) := rfl
    _ = advance_latches (fetch_instructions 2 (dispatch_to_schedule
          { C1S1 op r k0 k1 k2 (f + 1) b with
            cycle := 2, store := [C1I2 op], latch_fd_cur := [], q_dispatch := [0],
            g_disp_q_sum := 1, g_disp_q_max := 1 })) := by
        rw [show retire_state_update { C1S1 op r k0 k1 k2 (f + 1) b with cycle := 2 } =
          { C1S1 op r k0 k1 k2 (f + 1) b with cycle := 2 } from rfl, htick]
        rfl
    _ = C1S2 op r k0 k1 k2 (f + 1) := by
        rw [hd2s]
        cases b <;> rfl

/-- The normalized CDB width is positive. -/
theorem gR_pos (r : Nat) : 1 ≤ (if (r == 0) = true then 1 else r) := by
  by_cases h : r = 0
  · simp [h]
  · simp [h]
    omega

/-- Cycle 1 of the single-instruction run: the instruction is fetched; the
trace flag records whether fetch already saw the EOF (`F ≥ 2`). -/
theorem C1_body1 (op : Int) (r k0 k1 k2 f : Nat) (hop : fu_type_from_opcode op = 0) :
    loop_body (setup_proc r (k0 + 1) k1 k2 (f + 1) [⟨op, -1, -1, -1⟩]) =
      C1S1 op r k0 k1 k2 (f + 1) (!(f == 0)) := by
  have htick : tick_execute_units 1
      { setup_proc r (k0 + 1) k1 k2 (f + 1) [⟨op, -1, -1, -1⟩] with cycle := 1 } =
      { setup_proc r (k0 + 1) k1 k2 (f + 1) [⟨op, -1, -1, -1⟩] with cycle := 1 } :=
    tick_idle 1 _ (fun fu hm => mkPool_idle fu hm)
  have hinst : ({ raw := ⟨op, -1, -1, -1⟩, tag := 1, type := fu_type_from_opcode op, fetch_c := 1 } : Inst) = C1I1 op := by
    unfold C1I1
    rw [hop]
  calc loop_body (setup_proc r (k0 + 1) k1 k2 (f + 1) [⟨op, -1, -1, -1⟩])
      = { C1S1 op r k0 k1 k2 (f + 1) (!(f == 0)) with
          store := [{ raw := ⟨op, -1, -1, -1⟩, tag := 1, type := fu_type_from_opcode op, fetch_c := 1 }] } := by
        rw [show loop_body (setup_proc r (k0 + 1) k1 k2 (f + 1) [⟨op, -1, -1, -1⟩]) =
          advance_latches (fetch_instructions 1 (dispatch_to_schedule (issue_stage 1
            (stats_sample (move_into_dispatch 1 (insert_into_rs 1 (start_executions 1
              (broadcast_results 1 (tick_execute_units 1 (retire_state_update
                { setup_proc r (k0 + 1) k1 k2 (f + 1) [⟨op, -1, -1, -1⟩] with
                  cycle := 1 }))))))))))
          from rfl,
          show retire_state_update { setup_proc r (k0 + 1) k1 k2 (f + 1)
            [⟨op, -1, -1, -1⟩] with cycle := 1 } =
            { setup_proc r (k0 + 1) k1 k2 (f + 1) [⟨op, -1, -1, -1⟩] with cycle := 1 }
          from rfl, htick]
        cases f <;> rfl
    _ = C1S1 op r k0 k1 k2 (f + 1) (!(f == 0)) := by
        rw [hinst]
        rfl

/-- Cycle 3 of the single-instruction run: RS insert and same-cycle issue
(the lookahead sees `K0 ≥ 1` type-0 slots free). -/
theorem C1_body3 (op : Int) (r k0 k1 k2 f : Nat) :
    loop_body (C1S2 op r k0 k1 k2 f) = C1S3 op r k0 k1 k2 f := by
  have htick : tick_execute_units 3 { C1S2 op r k0 k1 k2 f with cycle := 3 } =
      { C1S2 op r k0 k1 k2 f with cycle := 3 } :=
    tick_idle 3 _ (C1_pool_idle k0 k1 k2)
  have hproj : projected_free_fus
      { C1S2 op r k0 k1 k2 f with
        cycle := 3, store := [{ C1I2 op with sched_c := 3, sched_ready_c := 3, src_ready0 := true, src_ready1 := true }],
        rs := [0], latch_ds_cur := [] } 3 = ((k0 + 1, k1, k2) : Counts) :=
    projected_idle_pool _ 3 k0 k1 k2 rfl
  have hiss : issue_stage 3
      { C1S2 op r k0 k1 k2 f with
        cycle := 3, store := [{ C1I2 op with sched_c := 3, sched_ready_c := 3, src_ready0 := true, src_ready1 := true }],
        rs := [0], latch_ds_cur := [] } =
      { C1S2 op r k0 k1 k2 f with
        cycle := 3, store := [C1I3 op], rs := [0], latch_ds_cur := [], latch_se_nxt := [0],
        g_issued_total := 1 } := by
    unfold issue_stage
    rw [show issue_ready 3
        { C1S2 op r k0 k1 k2 f with
          cycle := 3, store := [{ C1I2 op with sched_c := 3, sched_ready_c := 3, src_ready0 := true, src_ready1 := true }],
          rs := [0], latch_ds_cur := [] } =
        issue_scan 3 [0] (projected_free_fus
          { C1S2 op r k0 k1 k2 f with
            cycle := 3, store := [{ C1I2 op with sched_c := 3, sched_ready_c := 3, src_ready0 := true, src_ready1 := true }],
            rs := [0], latch_ds_cur := [] } 3) (0, 0, 0) 0
          { C1S2 op r k0 k1 k2 f with
            cycle := 3, store := [{ C1I2 op with sched_c := 3, sched_ready_c := 3, src_ready0 := true, src_ready1 := true }],
            rs := [0], latch_ds_cur := [] }
      from rfl, hproj]
    rfl
  calc loop_body (C1S2 op r k0 k1 k2 f)
      = advance_latches (fetch_instructions 3 (dispatch_to_schedule (issue_stage 3
          { C1S2 op r k0 k1 k2 f with
            cycle := 3, store := [{ C1I2 op with sched_c := 3, sched_ready_c := 3, src_ready0 := true, src_ready1 := true }],
            rs := [0], latch_ds_cur := [] }))) := by
        rw [show loop_body (C1S2 op r k0 k1 k2 f) =
          advance_latches (fetch_instructions 3 (dispatch_to_schedule (issue_stage 3
            (stats_sample (move_into_dispatch 3 (insert_into_rs 3 (start_executions 3
              (broadcast_results 3 (tick_execute_units 3 (retire_state_update
                { C1S2 op r k0 k1 k2 f with cycle := 3 })))))))))) from rfl,
          show retire_state_update { C1S2 op r k0 k1 k2 f with cycle := 3 } =
            { C1S2 op r k0 k1 k2 f with cycle := 3 } from rfl, htick]
        rfl
    _ = C1S3 op r k0 k1 k2 f := by
        rw [hiss]
        rfl

/-- Cycle 4 of the single-instruction run: execution starts in FU slot 0. -/
theorem C1_body4 (op : Int) (r k0 k1 k2 f : Nat) :
    loop_body (C1S3 op r k0 k1 k2 f) = C1S4 op r k0 k1 k2 f := by
  have htick : tick_execute_units 4 { C1S3 op r k0 k1 k2 f with cycle := 4 } =
      { C1S3 op r k0 k1 k2 f with cycle := 4 } :=
    tick_idle 4 _ (C1_pool_idle k0 k1 k2)
  rw [show loop_body (C1S3 op r k0 k1 k2 f) =
    advance_latches (fetch_instructions 4 (dispatch_to_schedule (issue_stage 4
      (stats_sample (move_into_dispatch 4 (insert_into_rs 4 (start_executions 4
        (broadcast_results 4 (tick_execute_units 4 (retire_state_update
          { C1S3 op r k0 k1 k2 f with cycle := 4 })))))))))) from rfl,
    show retire_state_update { C1S3 op r k0 k1 k2 f with cycle := 4 } =
      { C1S3 op r k0 k1 k2 f with cycle := 4 } from rfl, htick]
  rfl

/-- The instruction while it waits for the CDB after the execute tick of
cycle 5. -/
def C1I4b (op : Int) : Inst :=
  { C1I4 op with waiting_bus := true, enqueued_bus := true, completion_c := 5 }

/-- Cycle 5 of the single-instruction run: the execute tick completes the
instruction and the CDB grants it the same cycle. -/
theorem C1_body5 (op : Int) (r k0 k1 k2 f : Nat) :
    loop_body (C1S4 op r k0 k1 k2 f) = C1S5 op r k0 k1 k2 f := by
  have htick : tick_execute_units 5 { C1S4 op r k0 k1 k2 f with cycle := 5 } =
      { C1S4 op r k0 k1 k2 f with
        cycle := 5, store := [C1I4b op], bus_wait := [0],
        fu_pool := { type := 0, inst := some 0, remaining := 0 } :: mkPool k0 k1 k2 } := by
    rw [tick_units_head 5 _ (fget_cons_tail _ { type := 0, inst := some 0, remaining := 1 }
      (mkPool k0 k1 k2) rfl mkPool_idle)]
    rfl
  have hgo : broadcast_go 5
      ({ C1S4 op r k0 k1 k2 f with
        cycle := 5, store := [C1I4b op], bus_wait := [0],
        fu_pool := { type := 0, inst := some 0, remaining := 0 } :: mkPool k0 k1 k2 } : PState).gR
      [0] 0
      { C1S4 op r k0 k1 k2 f with
        cycle := 5, store := [C1I4b op], bus_wait := [0],
        fu_pool := { type := 0, inst := some 0, remaining := 0 } :: mkPool k0 k1 k2 } =
      (cdb_grant 5
        { C1S4 op r k0 k1 k2 f with
          cycle := 5, store := [C1I4b op], bus_wait := [0],
          fu_pool := { type := 0, inst := some 0, remaining := 0 } :: mkPool k0 k1 k2 } 0,
       []) := by
    unfold broadcast_go
    rw [if_neg ?h0]
    case h0 =>
      show ¬ ((if (r == 0) = true then 1 else r) ≤ 0)
      have := gR_pos r
      omega
    rfl
  have hbr : broadcast_results 5
      { C1S4 op r k0 k1 k2 f with
        cycle := 5, store := [C1I4b op], bus_wait := [0],
        fu_pool := { type := 0, inst := some 0, remaining := 0 } :: mkPool k0 k1 k2 } =
      { C1S5 op r k0 k1 k2 f with latch_se_cur := [] } := by
    unfold broadcast_results
    rw [show ({ C1S4 op r k0 k1 k2 f with
        cycle := 5, store := [C1I4b op], bus_wait := [0],
        fu_pool := { type := 0, inst := some 0, remaining := 0 } :: mkPool k0 k1 k2 } : PState).bus_wait.isEmpty
      = false from rfl, if_neg Bool.false_ne_true]
    simp only [show sortByKey (busKeyLe
        { C1S4 op r k0 k1 k2 f with
          cycle := 5, store := [C1I4b op], bus_wait := [0],
          fu_pool := { type := 0, inst := some 0, remaining := 0 } :: mkPool k0 k1 k2 })
        ({ C1S4 op r k0 k1 k2 f with
          cycle := 5, store := [C1I4b op], bus_wait := [0],
          fu_pool := { type := 0, inst := some 0, remaining := 0 } :: mkPool k0 k1 k2 } : PState).bus_wait
      = [0] from rfl, hgo]
    rfl
  rw [show loop_body (C1S4 op r k0 k1 k2 f) =
    advance_latches (fetch_instructions 5 (dispatch_to_schedule (issue_stage 5
      (stats_sample (move_into_dispatch 5 (insert_into_rs 5 (start_executions 5
        (broadcast_results 5 (tick_execute_units 5 (retire_state_update
          { C1S4 op r k0 k1 k2 f with cycle := 5 })))))))))) from rfl,
    show retire_state_update { C1S4 op r k0 k1 k2 f with cycle := 5 } =
      { C1S4 op r k0 k1 k2 f with cycle := 5 } from rfl, htick, hbr]
  rfl

/-- Cycle 6 of the single-instruction run: retirement empties the
pipeline. -/
theorem C1_body6 (op : Int) (r k0 k1 k2 f : Nat) :
    loop_body (C1S5 op r k0 k1 k2 f) = C1S6 op r k0 k1 k2 f := by
  have htick : tick_execute_units 6
      { C1S5 op r k0 k1 k2 f with cycle := 6, rs := [], st_update := [], g_retired := 1 } =
      { C1S5 op r k0 k1 k2 f with cycle := 6, rs := [], st_update := [], g_retired := 1 } :=
    tick_idle 6 _ (C1_pool_idle k0 k1 k2)
  rw [show loop_body (C1S5 op r k0 k1 k2 f) =
    advance_latches (fetch_instructions 6 (dispatch_to_schedule (issue_stage 6
      (stats_sample (move_into_dispatch 6 (insert_into_rs 6 (start_executions 6
        (broadcast_results 6 (tick_execute_units 6 (retire_state_update
          { C1S5 op r k0 k1 k2 f with cycle := 6 })))))))))) from rfl,
    show retire_state_update { C1S5 op r k0 k1 k2 f with cycle := 6 } =
      { C1S5 op r k0 k1 k2 f with cycle := 6, rs := [], st_update := [], g_retired := 1 }
    from rfl, htick]
  rfl

/-- Peeling one driver-loop iteration while the loop condition holds. -/
theorem run_loop_peel (n : Nat) (s : PState) (h : loop_done s = false) :
    run_loop (n + 1) s = run_loop n (loop_body s) := by
  show (if loop_done s = true then some s else run_loop n (loop_body s)) =
    run_loop n (loop_body s)
  rw [h]
  rfl

/-- C1: a trace of one type-0 instruction with no destination and no
sources, under any configuration with `F ≥ 1` and `K0 ≥ 1` (and any fuel
covering the six iterations), reports `cycle_count = 5` and
`retired_instruction = 1`. -/
theorem single_inst_run (op : Int) (r k0 k1 k2 f fuel : Nat)
    (hop : fu_type_from_opcode op = 0) (hk0 : 1 ≤ k0) (hf : 1 ≤ f) (hfuel : 6 ≤ fuel) :
    (run_proc fuel (setup_proc r k0 k1 k2 f [⟨op, -1, -1, -1⟩])).map (·.1) =
      some { cycle_count := 5, retired_instruction := 1 } := by
  obtain ⟨k0, rfl⟩ : ∃ x, k0 = x + 1 := ⟨k0 - 1, by omega⟩
  obtain ⟨f, rfl⟩ : ∃ x, f = x + 1 := ⟨f - 1, by omega⟩
  obtain ⟨m, rfl⟩ : ∃ x, fuel = x + 6 := ⟨fuel - 6, by omega⟩
  have hdone6 : loop_done (C1S6 op r k0 k1 k2 (f + 1)) = true := by
    have hred : loop_done (C1S6 op r k0 k1 k2 (f + 1)) =
        (mkPool k0 k1 k2).all (fun fu => fu.inst == none) := rfl
    rw [hred, mkPool_all_idle]
  have h5 : run_loop (m + 1) (C1S5 op r k0 k1 k2 (f + 1)) =
      some (C1S6 op r k0 k1 k2 (f + 1)) := by
    rw [run_loop_peel m (C1S5 op r k0 k1 k2 (f + 1)) rfl, C1_body6, run_loop_done hdone6]
  have h4 : run_loop (m + 2) (C1S4 op r k0 k1 k2 (f + 1)) =
      some (C1S6 op r k0 k1 k2 (f + 1)) := by
    rw [run_loop_peel (m + 1) (C1S4 op r k0 k1 k2 (f + 1)) rfl, C1_body5, h5]
  have h3 : run_loop (m + 3) (C1S3 op r k0 k1 k2 (f + 1)) =
      some (C1S6 op r k0 k1 k2 (f + 1)) := by
    rw [run_loop_peel (m + 2) (C1S3 op r k0 k1 k2 (f + 1)) rfl, C1_body4, h4]
  have h2 : run_loop (m + 4) (C1S2 op r k0 k1 k2 (f + 1)) =
      some (C1S6 op r k0 k1 k2 (f + 1)) := by
    rw [run_loop_peel (m + 3) (C1S2 op r k0 k1 k2 (f + 1)) rfl, C1_body3, h3]
  have h1 : ∀ b : Bool, run_loop (m + 5) (C1S1 op r k0 k1 k2 (f + 1) b) =
      some (C1S6 op r k0 k1 k2 (f + 1)) := by
    intro b
    have hnd : loop_done (C1S1 op r k0 k1 k2 (f + 1) b) = false := by
      cases b <;> rfl
    rw [run_loop_peel (m + 4) _ hnd, C1_body2, h2]
  have h0 : run_loop (m + 6) (setup_proc r (k0 + 1) k1 k2 (f + 1) [⟨op, -1, -1, -1⟩]) =
      some (C1S6 op r k0 k1 k2 (f + 1)) := by
    rw [run_loop_peel (m + 5) (setup_proc r (k0 + 1) k1 k2 (f + 1) [⟨op, -1, -1, -1⟩]) rfl, C1_body1 op r k0 k1 k2 f hop, h1]
  unfold run_proc
  rw [h0]
  rfl

/-- Witness for C1 at `op = 0`, `R = 0` (normalized), `K = (1, 0, 0)`,
`F = 1`, fuel 6. -/
theorem single_inst_run_witness :
    fu_type_from_opcode 0 = 0 ∧ 1 ≤ 1 ∧ 6 ≤ 6 ∧
    (run_proc 6 (setup_proc 0 1 0 0 1 [⟨0, -1, -1, -1⟩])).map (·.1) =
      some { cycle_count := 5, retired_instruction := 1 } :=
  ⟨by decide, by decide, by decide,
    single_inst_run 0 0 1 0 0 1 6 (by decide) (by decide) (by decide) (by decide)⟩

/-! ### C9: a type-1 instruction with no type-1 FU deadlocks the machine -/

/-- No FU slot of type 1 exists (the pool was built with `K1 = 0`). -/
def NoFU1 (s : PState) : Prop := ∀ fu ∈ s.fu_pool, fu.type = 0 ∨ fu.type = 2

/-- No FU slot holds arena index `p`. -/
def NotHeld (s : PState) (p : Nat) : Prop := ∀ fi, (fget s fi).inst ≠ some p

/-- Index `p` is in none of the execute-side containers. -/
def BadOut (s : PState) (p : Nat) : Prop :=
  p ∉ s.st_update ∧ p ∉ s.bus_wait ∧ p ∉ s.latch_se_cur ∧ p ∉ s.latch_se_nxt ∧ NotHeld s p

/-- Index `p` is in none of the front-end containers either (it has not
been fetched yet). -/
def NotIn (s : PState) (p : Nat) : Prop :=
  p ∉ s.latch_fd_cur ∧ p ∉ s.latch_fd_nxt ∧ p ∉ s.q_dispatch ∧
  p ∉ s.latch_ds_cur ∧ p ∉ s.latch_ds_nxt ∧ p ∉ s.rs

/-- Index `p` sits in one of the front-end containers. -/
def MemIn (s : PState) (p : Nat) : Prop :=
  p ∈ s.latch_fd_cur ∨ p ∈ s.latch_fd_nxt ∨ p ∈ s.q_dispatch ∨
  p ∈ s.latch_ds_cur ∨ p ∈ s.latch_ds_nxt ∨ p ∈ s.rs

/-- The fetched bad instruction decodes to FU type 1. -/
def BadCore (s : PState) (p : Nat) : Prop := (mget s p).type = 1

/-- The deadlock invariant for a trace `tr` whose `p`-th record decodes to
FU type 1 under a `K1 = 0` pool. -/
def DeadInv (tr : List ProcInst) (p : Nat) (s : PState) : Prop :=
  NoFU1 s ∧ (s.trace_done = true → s.trace = []) ∧
  (s.trace = tr.drop s.store.length) ∧ BadOut s p ∧
  ((s.store.length ≤ p ∧ NotIn s p) ∨ (p < s.store.length ∧ BadCore s p ∧ MemIn s p))

/-- Assemble the deadlock invariant for a post-stage state `X` from the
pre-stage invariant of `s` and the stage's transfer facts. -/
theorem deadInv_mk (tr : List ProcInst) (p : Nat) (s X : PState)
    (htd : s.trace_done = true → s.trace = [])
    (hdr : s.trace = tr.drop s.store.length)
    (hside : (s.store.length ≤ p ∧ NotIn s p) ∨ (p < s.store.length ∧ BadCore s p ∧ MemIn s p))
    (f1 : NoFU1 X) (f2 : X.trace = s.trace) (f3 : X.trace_done = s.trace_done)
    (f4 : X.store.length = s.store.length)
    (f5 : p ∉ X.st_update) (f6 : p ∉ X.bus_wait) (f7 : p ∉ X.latch_se_cur)
    (f8 : p ∉ X.latch_se_nxt) (f9 : NotHeld X p)
    (f10 : NotIn s p → NotIn X p) (f11 : MemIn s p → MemIn X p)
    (f12 : (mget X p).type = (mget s p).type) :
    DeadInv tr p X := by
  refine ⟨f1, ?_, ?_, ⟨f5, f6, f7, f8, f9⟩, ?_⟩
  · intro hX
    rw [f2]
    exact htd (f3 ▸ hX)
  · rw [f2, f4]
    exact hdr
  · rcases hside with ⟨hle, hni⟩ | ⟨hlt, hbc, hmi⟩
    · exact Or.inl ⟨by rw [f4]; exact hle, f10 hni⟩
    · refine Or.inr ⟨by rw [f4]; exact hlt, ?_, f11 hmi⟩
      show (mget X p).type = 1
      rw [f12]
      exact hbc

/-- Fold preservation of a state predicate under an unconditional step. -/
theorem foldl_pres (P : PState → Prop) (f : PState → Nat → PState)
    (hstep : ∀ s a, P s → P (f s a)) :
    ∀ (L : List Nat) (s : PState), P s → P (L.foldl f s) := by
  intro L
  induction L with
  | nil => intro s h; exact h
  | cons a L ih =>
    intro s h
    rw [List.foldl_cons]
    exact ih (f s a) (hstep s a h)

/-- Fold preservation of a state predicate when the step fact is available
only for the members of the folded list. -/
theorem foldl_pres_mem (P : PState → Prop) (f : PState → Nat → PState) :
    ∀ (L : List Nat), (∀ s a, a ∈ L → P s → P (f s a)) →
      ∀ (s : PState), P s → P (L.foldl f s) := by
  intro L
  induction L with
  | nil => intro _ s h; exact h
  | cons a L ih =>
    intro hstep s h
    rw [List.foldl_cons]
    exact ih (fun x b hb hx => hstep x b (List.mem_cons_of_mem a hb) hx) (f s a)
      (hstep s a (List.mem_cons_self a L) h)

/-- Reading an arena slot other than the updated one. -/
theorem mget_mmod_other (s : PState) (i m : Nat) (g : Inst → Inst) (h : i ≠ m) :
    mget (mmod s i g) m = mget s m := by
  rw [mget_mmod]
  exact if_neg (fun hc => h hc.1)

/-- The FU slot read is a pool member or the default slot. -/
theorem fget_mem_or_def (s : PState) (fi : Nat) :
    fget s fi ∈ s.fu_pool ∨ fget s fi = defFU := by
  unfold fget
  rw [List.getD_eq_getElem?_getD]
  cases h : s.fu_pool[fi]? with
  | none => right; rfl
  | some fu =>
    left
    rw [Option.getD_some]
    exact List.getElem?_mem h

/-- Writing a slot of type 0 or 2 keeps the pool free of type-1 slots. -/
theorem noFU1_set (l : List FU) (fi : Nat) (v : FU)
    (h : ∀ fu ∈ l, fu.type = 0 ∨ fu.type = 2) (hv : v.type = 0 ∨ v.type = 2) :
    ∀ fu ∈ l.set fi v, fu.type = 0 ∨ fu.type = 2 := by
  intro fu hm
  rcases List.mem_or_eq_of_mem_set hm with hm | he
  · exact h fu hm
  · rw [he]
    exact hv

/-- In a pool without type-1 slots, every slot read has type 0 or 2. -/
theorem fget_type_ok (s : PState) (fi : Nat) (h : NoFU1 s) :
    (fget s fi).type = 0 ∨ (fget s fi).type = 2 := by
  rcases fget_mem_or_def s fi with hm | he
  · exact h _ hm
  · rw [he]
    left
    rfl

/-- An arena update whose function keeps the decoded FU type keeps it at
every index. -/
theorem typeAt_mmod (s : PState) (i m : Nat) (g : Inst → Inst)
    (hg : ∀ w, (g w).type = w.type) :
    (mget (mmod s i g) m).type = (mget s m).type := by
  rw [mget_mmod]
  split
  · rename_i h
    rw [hg, h.1]
  · rfl

/-- Reading a slot of an updated pool: the old slot or the written value. -/
theorem getD_set_cases (l : List FU) (i n : Nat) (v : FU) :
    (l.set i v).getD n defFU = l.getD n defFU ∨
      ((l.set i v).getD n defFU = v ∧ i = n ∧ i < l.length) := by
  by_cases h1 : i = n
  · subst h1
    by_cases h2 : i < l.length
    · right
      refine ⟨?_, rfl, h2⟩
      simp [List.getD_eq_getElem?_getD, List.getElem?_set, h2]
    · left
      simp [List.getD_eq_getElem?_getD, List.getElem?_set, h2,
        List.getElem?_eq_none (Nat.le_of_not_lt h2)]
  · left
    simp [List.getD_eq_getElem?_getD, List.getElem?_set, h1]

/-- Membership transfer of the front-end containers built from pointwise
equalities (the reservation station as a membership equivalence). -/
theorem inOut_of_eqs {s X : PState} {p : Nat}
    (e1 : X.latch_fd_cur = s.latch_fd_cur) (e2 : X.latch_fd_nxt = s.latch_fd_nxt)
    (e3 : X.q_dispatch = s.q_dispatch) (e4 : X.latch_ds_cur = s.latch_ds_cur)
    (e5 : X.latch_ds_nxt = s.latch_ds_nxt) (e6 : p ∈ X.rs ↔ p ∈ s.rs) :
    (NotIn s p → NotIn X p) ∧ (MemIn s p → MemIn X p) := by
  constructor
  · intro hni
    obtain ⟨n1, n2, n3, n4, n5, n6⟩ := hni
    exact ⟨by rw [e1]; exact n1, by rw [e2]; exact n2, by rw [e3]; exact n3,
      by rw [e4]; exact n4, by rw [e5]; exact n5, fun hc => n6 (e6.1 hc)⟩
  · intro hmi
    rcases hmi with hm | hm | hm | hm | hm | hm
    · exact Or.inl (by rw [e1]; exact hm)
    · exact Or.inr (Or.inl (by rw [e2]; exact hm))
    · exact Or.inr (Or.inr (Or.inl (by rw [e3]; exact hm)))
    · exact Or.inr (Or.inr (Or.inr (Or.inl (by rw [e4]; exact hm))))
    · exact Or.inr (Or.inr (Or.inr (Or.inr (Or.inl (by rw [e5]; exact hm)))))
    · exact Or.inr (Or.inr (Or.inr (Or.inr (Or.inr (e6.2 hm)))))

/-! ### C9: stage-by-stage preservation of the deadlock invariant -/

/-- The execute tick keeps every decoded FU type. -/
theorem tick_one_fu_typeAt (c : Nat) (x : PState) (fi m : Nat) :
    (mget (tick_one_fu c x fi) m).type = (mget x m).type := by
  simp only [tick_one_fu]
  split
  · rfl
  · split_ifs <;>
    first
      | rfl
      | (dsimp only [mget, mmod, fmod]
         simp only [List.getD_eq_getElem?_getD, List.getElem?_set, List.length_set]
         split_ifs <;> simp_all [List.getD_eq_getElem?_getD, List.getElem?_eq_none])

/-- The execute tick keeps the arena length. -/
theorem tick_one_fu_len (c : Nat) (x : PState) (fi : Nat) :
    (tick_one_fu c x fi).store.length = x.store.length := by
  simp only [tick_one_fu]
  split
  · rfl
  · split_ifs <;>
    first
      | rfl
      | (dsimp only [mmod, fmod]; simp [List.length_set])

/-- The execute tick touches only the pool, the arena and the bus-wait
set. -/
theorem tick_one_fu_quiet (c : Nat) (x : PState) (fi : Nat) :
    ((tick_one_fu c x fi).trace, (tick_one_fu c x fi).trace_done,
     (tick_one_fu c x fi).st_update, (tick_one_fu c x fi).latch_se_cur,
     (tick_one_fu c x fi).latch_se_nxt, (tick_one_fu c x fi).latch_fd_cur,
     (tick_one_fu c x fi).latch_fd_nxt, (tick_one_fu c x fi).q_dispatch,
     (tick_one_fu c x fi).latch_ds_cur, (tick_one_fu c x fi).latch_ds_nxt,
     (tick_one_fu c x fi).rs) =
    (x.trace, x.trace_done, x.st_update, x.latch_se_cur, x.latch_se_nxt, x.latch_fd_cur,
     x.latch_fd_nxt, x.q_dispatch, x.latch_ds_cur, x.latch_ds_nxt, x.rs) := by
  simp only [tick_one_fu]
  split
  · rfl
  · split_ifs <;> rfl

/-- The execute tick never creates a type-1 FU slot. -/
theorem tick_one_fu_noFU1 (c : Nat) (x : PState) (fi : Nat) (h : NoFU1 x) :
    NoFU1 (tick_one_fu c x fi) := by
  simp only [tick_one_fu]
  split
  · exact h
  · split_ifs <;>
    first
      | exact h
      | exact fun fu hm => noFU1_set x.fu_pool fi
          { fget x fi with remaining := (fget x fi).remaining - 1 } h
          (fget_type_ok x fi h) fu hm

/-- The execute tick only enqueues held instructions on the bus-wait set:
an instruction held by no slot stays off it. -/
theorem tick_one_fu_bus (c : Nat) (x : PState) (fi p : Nat) (hheld : NotHeld x p)
    (hb : p ∉ x.bus_wait) : p ∉ (tick_one_fu c x fi).bus_wait := by
  simp only [tick_one_fu]
  split
  · exact hb
  · rename_i j hj
    split_ifs <;>
      first
        | exact hb
        | (intro hc
           rcases List.mem_append.1 hc with hc1 | hc1
           · exact hb hc1
           · have hpj : p = j := List.mem_singleton.1 hc1
             exact hheld fi (by rw [hj, hpj]))

/-- Stage 4a preserves the deadlock invariant. -/
theorem tick_dead (tr : List ProcInst) (p : Nat) (c : Nat) (s : PState) (h : DeadInv tr p s) :
    DeadInv tr p (tick_execute_units c s) := by
  obtain ⟨hfu, htd, hdr, ⟨hst, hbus, hsec, hsen, hheld⟩, hside⟩ := h
  have key : NoFU1 (tick_execute_units c s) ∧ NotHeld (tick_execute_units c s) p ∧
      p ∉ (tick_execute_units c s).bus_wait ∧
      (mget (tick_execute_units c s) p).type = (mget s p).type ∧
      (tick_execute_units c s).store.length = s.store.length ∧
      ((tick_execute_units c s).trace, (tick_execute_units c s).trace_done,
       (tick_execute_units c s).st_update, (tick_execute_units c s).latch_se_cur,
       (tick_execute_units c s).latch_se_nxt, (tick_execute_units c s).latch_fd_cur,
       (tick_execute_units c s).latch_fd_nxt, (tick_execute_units c s).q_dispatch,
       (tick_execute_units c s).latch_ds_cur, (tick_execute_units c s).latch_ds_nxt,
       (tick_execute_units c s).rs) =
      (s.trace, s.trace_done, s.st_update, s.latch_se_cur, s.latch_se_nxt, s.latch_fd_cur,
       s.latch_fd_nxt, s.q_dispatch, s.latch_ds_cur, s.latch_ds_nxt, s.rs) := by
    unfold tick_execute_units
    refine foldl_pres (fun x => NoFU1 x ∧ NotHeld x p ∧ p ∉ x.bus_wait ∧
        (mget x p).type = (mget s p).type ∧ x.store.length = s.store.length ∧
        (x.trace, x.trace_done, x.st_update, x.latch_se_cur, x.latch_se_nxt, x.latch_fd_cur,
         x.latch_fd_nxt, x.q_dispatch, x.latch_ds_cur, x.latch_ds_nxt, x.rs) =
        (s.trace, s.trace_done, s.st_update, s.latch_se_cur, s.latch_se_nxt, s.latch_fd_cur,
         s.latch_fd_nxt, s.q_dispatch, s.latch_ds_cur, s.latch_ds_nxt, s.rs))
      _ (fun x a hx => ?_) _ s ⟨hfu, hheld, hbus, rfl, rfl, rfl⟩
    obtain ⟨k1, k2, k3, k4, k5, k6⟩ := hx
    refine ⟨tick_one_fu_noFU1 c x a k1, ?_, tick_one_fu_bus c x a p k2 k3, ?_, ?_, ?_⟩
    · intro fi
      rw [tick_one_fu_fget_inst]
      exact k2 fi
    · rw [tick_one_fu_typeAt]
      exact k4
    · rw [tick_one_fu_len]
      exact k5
    · rw [tick_one_fu_quiet]
      exact k6
  obtain ⟨f1, f9, f6, f12, f4, ftup⟩ := key
  simp only [Prod.mk.injEq] at ftup
  obtain ⟨e_tr, e_td, e_st, e_sec, e_sen, e_fdc, e_fdn, e_q, e_dsc, e_dsn, e_rs⟩ := ftup
  have hio := inOut_of_eqs (s := s) (p := p) e_fdc e_fdn e_q e_dsc e_dsn (by rw [e_rs])
  exact deadInv_mk tr p s _ htd hdr hside f1 e_tr e_td f4
    (by rw [e_st]; exact hst) f6 (by rw [e_sec]; exact hsec) (by rw [e_sen]; exact hsen)
    f9 hio.1 hio.2 f12

/-- Stage 5 preserves the deadlock invariant. -/
theorem retire_dead (tr : List ProcInst) (p : Nat) (s : PState) (h : DeadInv tr p s) :
    DeadInv tr p (retire_state_update s) := by
  obtain ⟨hfu, htd, hdr, ⟨hst, hbus, hsec, hsen, hheld⟩, hside⟩ := h
  unfold retire_state_update
  split
  · exact ⟨hfu, htd, hdr, ⟨hst, hbus, hsec, hsen, hheld⟩, hside⟩
  · have key := foldl_pres_mem (fun x =>
        x.fu_pool = s.fu_pool ∧ (p ∈ x.rs ↔ p ∈ s.rs) ∧
        (mget x p).type = (mget s p).type ∧ x.store.length = s.store.length ∧
        (x.trace, x.trace_done, x.st_update, x.bus_wait, x.latch_se_cur, x.latch_se_nxt,
         x.latch_fd_cur, x.latch_fd_nxt, x.q_dispatch, x.latch_ds_cur, x.latch_ds_nxt) =
        (s.trace, s.trace_done, s.st_update, s.bus_wait, s.latch_se_cur, s.latch_se_nxt,
         s.latch_fd_cur, s.latch_fd_nxt, s.q_dispatch, s.latch_ds_cur, s.latch_ds_nxt))
      (fun acc i =>
        let acc1 := { acc with rs := acc.rs.erase i }
        let acc2 := mmod acc1 i (fun w => { w with issued := true })
        { acc2 with g_retired := acc2.g_retired + 1 })
      s.st_update
      (fun x a ha hx => by
        have hap : a ≠ p := fun hc => hst (hc ▸ ha)
        obtain ⟨k1, k2, k3, k4, k5⟩ := hx
        refine ⟨k1, ?_, ?_, ?_, k5⟩
        · exact Iff.trans (List.mem_erase_of_ne (Ne.symm hap)) k2
        · refine Eq.trans ?_ k3
          show (mget (mmod { x with rs := x.rs.erase a } a
            (fun w => { w with issued := true })) p).type = (mget x p).type
          rw [mget_mmod_other _ _ _ _ hap]
          rfl
        · refine Eq.trans ?_ k4
          show (mmod { x with rs := x.rs.erase a } a
            (fun w => { w with issued := true })).store.length = x.store.length
          rw [mmod_store_length])
      s ⟨rfl, Iff.rfl, rfl, rfl, rfl⟩
    obtain ⟨e1, e2, e3, e4, e5⟩ := key
    simp only [Prod.mk.injEq] at e5
    obtain ⟨q_tr, q_td, q_st, q_bus, q_sec, q_sen, q_fdc, q_fdn, q_q, q_dsc, q_dsn⟩ := e5
    have hio := inOut_of_eqs (s := s) (p := p) q_fdc q_fdn q_q q_dsc q_dsn e2
    exact deadInv_mk tr p s _ htd hdr hside
      (fun fu hm => hfu fu (e1 ▸ hm)) q_tr q_td e4
      (List.not_mem_nil p) (fun hc => hbus (q_bus ▸ hc)) (fun hc => hsec (q_sec ▸ hc))
      (fun hc => hsen (q_sen ▸ hc))
      (fun fi hc => hheld fi ((congrArg (fun l => (l.getD fi defFU).inst) e1) ▸ hc))
      hio.1 hio.2 e3

/-- A CDB grant keeps every decoded FU type. -/
theorem cdb_grant_typeAt (c : Nat) (s : PState) (j m : Nat) :
    (mget (cdb_grant c s j) m).type = (mget s m).type := by
  unfold cdb_grant
  have henter : ∀ (x : PState), (mget (cdb_enter_state_update c x j) m).type = (mget x m).type := by
    intro x
    show (mget (mmod x j (fun w => { w with state_c := c })) m).type = (mget x m).type
    exact typeAt_mmod x j m _ (fun w => rfl)
  have hwk : ∀ (pr : Int) (x : PState),
      (mget (wakeup_rs_sources pr x) m).type = (mget x m).type :=
    fun pr x => wakeup_mget_proj (fun w => w.type) pr x m (fun w r0 r1 t0 t1 => rfl)
  have hcl : ∀ (x : PState), (mget (cdb_clear_rename x j) m).type = (mget x m).type := by
    intro x
    rw [cdb_clear_rename_mget]
  have hfr : ∀ (x : PState), (mget (cdb_free_fu x j) m).type = (mget x m).type := by
    intro x
    unfold cdb_free_fu
    split
    · rename_i fi hfi
      show (mget (mmod (fmod x fi (fun fu => { fu with inst := none, remaining := 0 })) j
        (fun w => { w with fu := none })) m).type = (mget x m).type
      rw [typeAt_mmod (fmod x fi (fun fu => { fu with inst := none, remaining := 0 })) j m
        (fun w => { w with fu := none }) (fun w => rfl)]
      rfl
    · rfl
  have hfl : ∀ (x : PState), (mget (cdb_flags_reset x j) m).type = (mget x m).type := by
    intro x
    exact typeAt_mmod x j m _ (fun w => rfl)
  rw [henter, hwk, hcl, hfr, hfl]

/-- A CDB grant touches only the arena, the pool, the rename table, the
state-update set and the bus-wait set. -/
theorem cdb_grant_quiet (c : Nat) (s : PState) (j : Nat) :
    ((cdb_grant c s j).trace, (cdb_grant c s j).trace_done, (cdb_grant c s j).latch_se_cur,
     (cdb_grant c s j).latch_se_nxt, (cdb_grant c s j).latch_fd_cur, (cdb_grant c s j).latch_fd_nxt,
     (cdb_grant c s j).q_dispatch, (cdb_grant c s j).latch_ds_cur, (cdb_grant c s j).latch_ds_nxt,
     (cdb_grant c s j).rs) =
    (s.trace, s.trace_done, s.latch_se_cur, s.latch_se_nxt, s.latch_fd_cur, s.latch_fd_nxt,
     s.q_dispatch, s.latch_ds_cur, s.latch_ds_nxt, s.rs) := by
  unfold cdb_grant
  have hwk : ∀ (pr : Int) (x : PState),
      ((wakeup_rs_sources pr x).trace, (wakeup_rs_sources pr x).trace_done,
       (wakeup_rs_sources pr x).latch_se_cur, (wakeup_rs_sources pr x).latch_se_nxt,
       (wakeup_rs_sources pr x).latch_fd_cur, (wakeup_rs_sources pr x).latch_fd_nxt,
       (wakeup_rs_sources pr x).q_dispatch, (wakeup_rs_sources pr x).latch_ds_cur,
       (wakeup_rs_sources pr x).latch_ds_nxt, (wakeup_rs_sources pr x).rs) =
      (x.trace, x.trace_done, x.latch_se_cur, x.latch_se_nxt, x.latch_fd_cur, x.latch_fd_nxt,
       x.q_dispatch, x.latch_ds_cur, x.latch_ds_nxt, x.rs) := by
    intro pr x
    unfold wakeup_rs_sources
    refine foldl_proj (fun y => (y.trace, y.trace_done, y.latch_se_cur, y.latch_se_nxt,
      y.latch_fd_cur, y.latch_fd_nxt, y.q_dispatch, y.latch_ds_cur, y.latch_ds_nxt, y.rs))
      _ (fun y a => ?_) x.rs x
    rfl
  have hcl : ∀ (x : PState),
      ((cdb_clear_rename x j).trace, (cdb_clear_rename x j).trace_done,
       (cdb_clear_rename x j).latch_se_cur, (cdb_clear_rename x j).latch_se_nxt,
       (cdb_clear_rename x j).latch_fd_cur, (cdb_clear_rename x j).latch_fd_nxt,
       (cdb_clear_rename x j).q_dispatch, (cdb_clear_rename x j).latch_ds_cur,
       (cdb_clear_rename x j).latch_ds_nxt, (cdb_clear_rename x j).rs) =
      (x.trace, x.trace_done, x.latch_se_cur, x.latch_se_nxt, x.latch_fd_cur, x.latch_fd_nxt,
       x.q_dispatch, x.latch_ds_cur, x.latch_ds_nxt, x.rs) := by
    intro x
    simp only [cdb_clear_rename]
    split_ifs <;> rfl
  have hfr : ∀ (x : PState),
      ((cdb_free_fu x j).trace, (cdb_free_fu x j).trace_done,
       (cdb_free_fu x j).latch_se_cur, (cdb_free_fu x j).latch_se_nxt,
       (cdb_free_fu x j).latch_fd_cur, (cdb_free_fu x j).latch_fd_nxt,
       (cdb_free_fu x j).q_dispatch, (cdb_free_fu x j).latch_ds_cur,
       (cdb_free_fu x j).latch_ds_nxt, (cdb_free_fu x j).rs) =
      (x.trace, x.trace_done, x.latch_se_cur, x.latch_se_nxt, x.latch_fd_cur, x.latch_fd_nxt,
       x.q_dispatch, x.latch_ds_cur, x.latch_ds_nxt, x.rs) := by
    intro x
    unfold cdb_free_fu
    split <;> rfl
  exact (hwk _ _).trans ((hcl _).trans (hfr _))

/-- A CDB grant appends exactly its winner to the state-update set. -/
theorem cdb_grant_st (c : Nat) (s : PState) (j : Nat) :
    (cdb_grant c s j).st_update = s.st_update ++ [j] := by
  unfold cdb_grant cdb_enter_state_update
  have hwk : ∀ (pr : Int) (x : PState), (wakeup_rs_sources pr x).st_update = x.st_update := by
    intro pr x
    unfold wakeup_rs_sources
    refine foldl_proj (fun y => y.st_update) _ (fun y a => ?_) x.rs x
    rfl
  have hcl : ∀ (x : PState), (cdb_clear_rename x j).st_update = x.st_update := by
    intro x
    simp only [cdb_clear_rename]
    split_ifs <;> rfl
  have hfr : ∀ (x : PState), (cdb_free_fu x j).st_update = x.st_update := by
    intro x
    unfold cdb_free_fu
    split <;> rfl
  show (wakeup_rs_sources _ _).st_update ++ [j] = s.st_update ++ [j]
  rw [hwk, hcl, hfr]
  rfl

/-- A CDB grant never creates a type-1 FU slot. -/
theorem cdb_grant_noFU1 (c : Nat) (s : PState) (j : Nat) (h : NoFU1 s) :
    NoFU1 (cdb_grant c s j) := by
  have hp := cdb_grant_fu_pool c s j
  cases hfu2 : (mget s j).fu with
  | none =>
    rw [hfu2] at hp
    intro fu hm
    rw [hp] at hm
    exact h fu hm
  | some fi =>
    rw [hfu2] at hp
    intro fu hm
    rw [hp] at hm
    exact noFU1_set s.fu_pool fi { fget s fi with inst := none, remaining := 0 } h
      (fget_type_ok s fi h) fu hm

/-- A CDB grant never makes a slot hold an unheld instruction. -/
theorem cdb_grant_NotHeld (c : Nat) (s : PState) (j p : Nat) (h : NotHeld s p) :
    NotHeld (cdb_grant c s j) p := by
  have hp := cdb_grant_fu_pool c s j
  intro fi
  cases hfu2 : (mget s j).fu with
  | none =>
    show ((cdb_grant c s j).fu_pool.getD fi defFU).inst ≠ some p
    rw [hfu2] at hp
    rw [hp]
    exact h fi
  | some fi2 =>
    show ((cdb_grant c s j).fu_pool.getD fi defFU).inst ≠ some p
    rw [hfu2] at hp
    rw [hp]
    rcases getD_set_cases s.fu_pool fi2 fi { fget s fi2 with inst := none, remaining := 0 }
      with hc | ⟨hc, _, _⟩
    · rw [hc]
      exact h fi
    · rw [hc]
      exact fun he => Option.noConfusion he

/-- Stage 4b preserves the deadlock invariant. -/
theorem broadcast_dead (tr : List ProcInst) (p : Nat) (c : Nat) (s : PState) (h : DeadInv tr p s) :
    DeadInv tr p (broadcast_results c s) := by
  obtain ⟨hfu, htd, hdr, ⟨hst, hbus, hsec, hsen, hheld⟩, hside⟩ := h
  rw [broadcast_results_eq]
  split
  · exact ⟨hfu, htd, hdr, ⟨hst, hbus, hsec, hsen, hheld⟩, hside⟩
  · have hmemW : ∀ k ∈ (sortByKey (busKeyLe s) s.bus_wait).take s.gR, k ≠ p := by
      intro k hk hkp
      exact hbus (hkp ▸ ((mem_sortByKey (busKeyLe s) k s.bus_wait).1 (List.mem_of_mem_take hk)))
    have key := foldl_pres_mem (fun x =>
        NoFU1 x ∧ NotHeld x p ∧ p ∉ x.st_update ∧
        (mget x p).type = (mget s p).type ∧ x.store.length = s.store.length ∧
        (x.trace, x.trace_done, x.latch_se_cur, x.latch_se_nxt, x.latch_fd_cur,
         x.latch_fd_nxt, x.q_dispatch, x.latch_ds_cur, x.latch_ds_nxt, x.rs) =
        (s.trace, s.trace_done, s.latch_se_cur, s.latch_se_nxt, s.latch_fd_cur,
         s.latch_fd_nxt, s.q_dispatch, s.latch_ds_cur, s.latch_ds_nxt, s.rs))
      (cdb_grant c) ((sortByKey (busKeyLe s) s.bus_wait).take s.gR)
      (fun x k hk hx => by
        obtain ⟨k1, k2, k3, k4, k5, k6⟩ := hx
        have hkp := hmemW k hk
        refine ⟨cdb_grant_noFU1 c x k k1, cdb_grant_NotHeld c x k p k2, ?_, ?_, ?_, ?_⟩
        · rw [cdb_grant_st]
          intro hc
          rcases List.mem_append.1 hc with hc1 | hc1
          · exact k3 hc1
          · exact hkp (List.mem_singleton.1 hc1).symm
        · rw [cdb_grant_typeAt]
          exact k4
        · rw [cdb_grant_store_length]
          exact k5
        · rw [cdb_grant_quiet]
          exact k6)
      s ⟨hfu, hheld, hst, rfl, rfl, rfl⟩
    obtain ⟨f1, f9, f5, f12, f4, ftup⟩ := key
    simp only [Prod.mk.injEq] at ftup
    obtain ⟨e_tr, e_td, e_sec, e_sen, e_fdc, e_fdn, e_q, e_dsc, e_dsn, e_rs⟩ := ftup
    have hio := inOut_of_eqs (s := s) (p := p) e_fdc e_fdn e_q e_dsc e_dsn (by rw [e_rs])
    refine deadInv_mk tr p s _ htd hdr hside f1 e_tr e_td f4 f5 ?_
      (fun hc => hsec (e_sec ▸ hc)) (fun hc => hsen (e_sen ▸ hc)) f9 hio.1 hio.2 f12
    intro hc
    exact hbus ((mem_sortByKey (busKeyLe s) p s.bus_wait).1 (List.mem_of_mem_drop hc))

/-- Starting an execution keeps every decoded FU type. -/
theorem start_one_typeAt (c : Nat) (x : PState) (j m : Nat) :
    (mget (start_one_execution c x j) m).type = (mget x m).type := by
  unfold start_one_execution
  split
  · rfl
  · rename_i fi hfi
    show (mget (mmod (fmod x fi (fun fu =>
        { fu with inst := some j, remaining := kLatency.getD (mget x j).type 0 })) j
      (fun w => { w with fu := some fi, exec_c := c })) m).type = (mget x m).type
    rw [typeAt_mmod (fmod x fi (fun fu =>
        { fu with inst := some j, remaining := kLatency.getD (mget x j).type 0 })) j m
      (fun w => { w with fu := some fi, exec_c := c }) (fun w => rfl)]
    rfl

/-- Starting an execution keeps the arena length. -/
theorem start_one_len (c : Nat) (x : PState) (j : Nat) :
    (start_one_execution c x j).store.length = x.store.length := by
  unfold start_one_execution
  split
  · rfl
  · dsimp only [mmod, fmod]
    simp [List.length_set]

/-- Starting an execution touches only the pool and the arena. -/
theorem start_one_quiet (c : Nat) (x : PState) (j : Nat) :
    ((start_one_execution c x j).trace, (start_one_execution c x j).trace_done,
     (start_one_execution c x j).st_update, (start_one_execution c x j).bus_wait,
     (start_one_execution c x j).latch_se_nxt, (start_one_execution c x j).latch_fd_cur,
     (start_one_execution c x j).latch_fd_nxt, (start_one_execution c x j).q_dispatch,
     (start_one_execution c x j).latch_ds_cur, (start_one_execution c x j).latch_ds_nxt,
     (start_one_execution c x j).rs) =
    (x.trace, x.trace_done, x.st_update, x.bus_wait, x.latch_se_nxt, x.latch_fd_cur,
     x.latch_fd_nxt, x.q_dispatch, x.latch_ds_cur, x.latch_ds_nxt, x.rs) := by
  unfold start_one_execution
  split <;> rfl

/-- Starting an execution never creates a type-1 FU slot. -/
theorem start_one_noFU1 (c : Nat) (x : PState) (j : Nat) (h : NoFU1 x) :
    NoFU1 (start_one_execution c x j) := by
  unfold start_one_execution
  split
  · exact h
  · rename_i fi hfi
    intro fu hm
    exact noFU1_set x.fu_pool fi
      { fget x fi with inst := some j, remaining := kLatency.getD (mget x j).type 0 } h
      (fget_type_ok x fi h) fu hm

/-- Starting some other instruction's execution never makes a slot hold
this one. -/
theorem start_one_NotHeld (c : Nat) (x : PState) (j p : Nat) (hjp : j ≠ p)
    (h : NotHeld x p) : NotHeld (start_one_execution c x j) p := by
  unfold start_one_execution
  split
  · exact h
  · rename_i fi hfi
    intro fi2
    show ((x.fu_pool.set fi { fget x fi with inst := some j, remaining := kLatency.getD (mget x j).type 0 }).getD fi2 defFU).inst ≠ some p
    rcases getD_set_cases x.fu_pool fi fi2 { fget x fi with inst := some j, remaining := kLatency.getD (mget x j).type 0 } with hc | ⟨hc, _, _⟩
    · rw [hc]
      exact h fi2
    · rw [hc]
      exact fun he => hjp (Option.some.inj he)

/-- Stage 4c preserves the deadlock invariant. -/
theorem start_dead (tr : List ProcInst) (p : Nat) (c : Nat) (s : PState) (h : DeadInv tr p s) :
    DeadInv tr p (start_executions c s) := by
  obtain ⟨hfu, htd, hdr, ⟨hst, hbus, hsec, hsen, hheld⟩, hside⟩ := h
  unfold start_executions
  split
  · exact ⟨hfu, htd, hdr, ⟨hst, hbus, hsec, hsen, hheld⟩, hside⟩
  · have key := foldl_pres_mem (fun x =>
        NoFU1 x ∧ NotHeld x p ∧ (mget x p).type = (mget s p).type ∧
        x.store.length = s.store.length ∧
        (x.trace, x.trace_done, x.st_update, x.bus_wait, x.latch_se_nxt, x.latch_fd_cur,
         x.latch_fd_nxt, x.q_dispatch, x.latch_ds_cur, x.latch_ds_nxt, x.rs) =
        (s.trace, s.trace_done, s.st_update, s.bus_wait, s.latch_se_nxt, s.latch_fd_cur,
         s.latch_fd_nxt, s.q_dispatch, s.latch_ds_cur, s.latch_ds_nxt, s.rs))
      (start_one_execution c) s.latch_se_cur
      (fun x k hk hx => by
        have hkp : k ≠ p := fun hc => hsec (hc ▸ hk)
        obtain ⟨k1, k2, k3, k4, k5⟩ := hx
        refine ⟨start_one_noFU1 c x k k1, start_one_NotHeld c x k p hkp k2, ?_, ?_, ?_⟩
        · rw [start_one_typeAt]
          exact k3
        · rw [start_one_len]
          exact k4
        · rw [start_one_quiet]
          exact k5)
      s ⟨hfu, hheld, rfl, rfl, rfl⟩
    obtain ⟨f1, f9, f12, f4, ftup⟩ := key
    simp only [Prod.mk.injEq] at ftup
    obtain ⟨e_tr, e_td, e_st, e_bus, e_sen, e_fdc, e_fdn, e_q, e_dsc, e_dsn, e_rs⟩ := ftup
    have hio := inOut_of_eqs (s := s) (p := p) e_fdc e_fdn e_q e_dsc e_dsn (by rw [e_rs])
    exact deadInv_mk tr p s _ htd hdr hside f1 e_tr e_td f4
      (fun hc => hst (e_st ▸ hc)) (fun hc => hbus (e_bus ▸ hc)) (List.not_mem_nil p)
      (fun hc => hsen (e_sen ▸ hc)) f9 hio.1 hio.2 f12

set_option maxHeartbeats 1600000 in
/-- Reservation-station insertion keeps every decoded FU type. -/
theorem rs_insert_one_typeAt (c : Nat) (x : PState) (j m : Nat) :
    (mget (rs_insert_one c x j) m).type = (mget x m).type := by
  simp only [rs_insert_one]
  split_ifs <;>
    (dsimp only [mget, mmod]
     simp only [List.getD_eq_getElem?_getD, List.getElem?_set, List.length_set]
     split_ifs <;> simp_all [List.getD_eq_getElem?_getD, List.getElem?_eq_none])

/-- Reservation-station insertion keeps the arena length. -/
theorem rs_insert_one_len (c : Nat) (x : PState) (j : Nat) :
    (rs_insert_one c x j).store.length = x.store.length := by
  simp only [rs_insert_one]
  split_ifs <;>
    (dsimp only [mmod]
     simp [List.length_set])

/-- Reservation-station insertion touches only the arena, the rename table,
the reservation station and the drained latch. -/
theorem rs_insert_one_quiet (c : Nat) (x : PState) (j : Nat) :
    ((rs_insert_one c x j).trace, (rs_insert_one c x j).trace_done,
     (rs_insert_one c x j).st_update, (rs_insert_one c x j).bus_wait,
     (rs_insert_one c x j).latch_se_cur, (rs_insert_one c x j).latch_se_nxt,
     (rs_insert_one c x j).latch_fd_cur, (rs_insert_one c x j).latch_fd_nxt,
     (rs_insert_one c x j).q_dispatch, (rs_insert_one c x j).latch_ds_nxt,
     (rs_insert_one c x j).fu_pool) =
    (x.trace, x.trace_done, x.st_update, x.bus_wait, x.latch_se_cur, x.latch_se_nxt,
     x.latch_fd_cur, x.latch_fd_nxt, x.q_dispatch, x.latch_ds_nxt, x.fu_pool) := by
  simp only [rs_insert_one]
  split_ifs <;> rfl

/-- Reservation-station insertion appends exactly the inserted index. -/
theorem rs_insert_one_rs (c : Nat) (x : PState) (j : Nat) :
    (rs_insert_one c x j).rs = x.rs ++ [j] := by
  simp only [rs_insert_one]
  split_ifs <;> rfl

/-- Draining a latch into the RS appends exactly the latch contents. -/
theorem insert_fold_rs (c : Nat) : ∀ (L : List Nat) (x : PState),
    (L.foldl (rs_insert_one c) x).rs = x.rs ++ L := by
  intro L
  induction L with
  | nil => intro x; simp
  | cons a L ih =>
    intro x
    rw [List.foldl_cons, ih, rs_insert_one_rs]
    simp

/-- Stage 3a preserves the deadlock invariant. -/
theorem insert_dead (tr : List ProcInst) (p : Nat) (c : Nat) (s : PState) (h : DeadInv tr p s) :
    DeadInv tr p (insert_into_rs c s) := by
  obtain ⟨hfu, htd, hdr, ⟨hst, hbus, hsec, hsen, hheld⟩, hside⟩ := h
  unfold insert_into_rs
  split
  · exact ⟨hfu, htd, hdr, ⟨hst, hbus, hsec, hsen, hheld⟩, hside⟩
  · have key := foldl_pres (fun x =>
        (mget x p).type = (mget s p).type ∧ x.store.length = s.store.length ∧
        (x.trace, x.trace_done, x.st_update, x.bus_wait, x.latch_se_cur, x.latch_se_nxt,
         x.latch_fd_cur, x.latch_fd_nxt, x.q_dispatch, x.latch_ds_nxt, x.fu_pool) =
        (s.trace, s.trace_done, s.st_update, s.bus_wait, s.latch_se_cur, s.latch_se_nxt,
         s.latch_fd_cur, s.latch_fd_nxt, s.q_dispatch, s.latch_ds_nxt, s.fu_pool))
      (rs_insert_one c)
      (fun x k hx => by
        obtain ⟨k1, k2, k3⟩ := hx
        refine ⟨?_, ?_, ?_⟩
        · rw [rs_insert_one_typeAt]
          exact k1
        · rw [rs_insert_one_len]
          exact k2
        · rw [rs_insert_one_quiet]
          exact k3)
      s.latch_ds_cur s ⟨rfl, rfl, rfl⟩
    obtain ⟨f12, f4, ftup⟩ := key
    simp only [Prod.mk.injEq] at ftup
    obtain ⟨e_tr, e_td, e_st, e_bus, e_sec, e_sen, e_fdc, e_fdn, e_q, e_dsn, e_pool⟩ := ftup
    have hrs := insert_fold_rs c s.latch_ds_cur s
    refine deadInv_mk tr p s _ htd hdr hside
      (fun fu hm => hfu fu (e_pool ▸ hm)) e_tr e_td f4
      (fun hc => hst (e_st ▸ hc)) (fun hc => hbus (e_bus ▸ hc))
      (fun hc => hsec (e_sec ▸ hc)) (fun hc => hsen (e_sen ▸ hc))
      (fun fi hc => hheld fi ((congrArg (fun l => (l.getD fi defFU).inst) e_pool) ▸ hc))
      ?_ ?_ f12
    · intro hni
      obtain ⟨n1, n2, n3, n4, n5, n6⟩ := hni
      refine ⟨by rw [e_fdc]; exact n1, by rw [e_fdn]; exact n2, by rw [e_q]; exact n3,
        List.not_mem_nil p, by rw [e_dsn]; exact n5, ?_⟩
      intro hc
      rcases List.mem_append.1 (hrs ▸ hc) with hc1 | hc1
      · exact n6 hc1
      · exact n4 hc1
    · intro hmi
      rcases hmi with hm | hm | hm | hm | hm | hm
      · exact Or.inl (by rw [e_fdc]; exact hm)
      · exact Or.inr (Or.inl (by rw [e_fdn]; exact hm))
      · exact Or.inr (Or.inr (Or.inl (by rw [e_q]; exact hm)))
      · refine Or.inr (Or.inr (Or.inr (Or.inr (Or.inr ?_))))
        show p ∈ (s.latch_ds_cur.foldl (rs_insert_one c) s).rs
        rw [hrs]
        exact List.mem_append.2 (Or.inr hm)
      · exact Or.inr (Or.inr (Or.inr (Or.inr (Or.inl (by rw [e_dsn]; exact hm)))))
      · refine Or.inr (Or.inr (Or.inr (Or.inr (Or.inr ?_))))
        show p ∈ (s.latch_ds_cur.foldl (rs_insert_one c) s).rs
        rw [hrs]
        exact List.mem_append.2 (Or.inl hm)

/-- Stage 2b preserves the deadlock invariant. -/
theorem move_dead (tr : List ProcInst) (p : Nat) (c : Nat) (s : PState) (h : DeadInv tr p s) :
    DeadInv tr p (move_into_dispatch c s) := by
  obtain ⟨hfu, htd, hdr, ⟨hst, hbus, hsec, hsen, hheld⟩, hside⟩ := h
  unfold move_into_dispatch
  split
  · exact ⟨hfu, htd, hdr, ⟨hst, hbus, hsec, hsen, hheld⟩, hside⟩
  · have hq : ∀ (L : List Nat) (x : PState),
        (L.foldl (fun acc j =>
          let acc1 := mmod acc j (fun w => { w with disp_c := c })
          { acc1 with q_dispatch := acc1.q_dispatch ++ [j] }) x).q_dispatch =
        x.q_dispatch ++ L := by
      intro L
      induction L with
      | nil => intro x; simp
      | cons a L ih =>
        intro x
        rw [List.foldl_cons, ih]
        show (x.q_dispatch ++ [a]) ++ L = x.q_dispatch ++ a :: L
        simp
    have key := foldl_pres (fun x =>
        (mget x p).type = (mget s p).type ∧ x.store.length = s.store.length ∧
        (x.trace, x.trace_done, x.st_update, x.bus_wait, x.latch_se_cur, x.latch_se_nxt,
         x.latch_fd_nxt, x.latch_ds_cur, x.latch_ds_nxt, x.rs, x.fu_pool) =
        (s.trace, s.trace_done, s.st_update, s.bus_wait, s.latch_se_cur, s.latch_se_nxt,
         s.latch_fd_nxt, s.latch_ds_cur, s.latch_ds_nxt, s.rs, s.fu_pool))
      (fun acc j =>
        let acc1 := mmod acc j (fun w => { w with disp_c := c })
        { acc1 with q_dispatch := acc1.q_dispatch ++ [j] })
      (fun x k hx => by
        obtain ⟨k1, k2, k3⟩ := hx
        refine ⟨?_, ?_, k3⟩
        · refine Eq.trans ?_ k1
          show (mget (mmod x k (fun w => { w with disp_c := c })) p).type = (mget x p).type
          exact typeAt_mmod x k p _ (fun w => rfl)
        · refine Eq.trans ?_ k2
          show (mmod x k (fun w => { w with disp_c := c })).store.length = x.store.length
          rw [mmod_store_length])
      s.latch_fd_cur s ⟨rfl, rfl, rfl⟩
    obtain ⟨f12, f4, ftup⟩ := key
    simp only [Prod.mk.injEq] at ftup
    obtain ⟨e_tr, e_td, e_st, e_bus, e_sec, e_sen, e_fdn, e_dsc, e_dsn, e_rs, e_pool⟩ := ftup
    have hqq := hq s.latch_fd_cur s
    refine deadInv_mk tr p s _ htd hdr hside
      (fun fu hm => hfu fu (e_pool ▸ hm)) e_tr e_td f4
      (fun hc => hst (e_st ▸ hc)) (fun hc => hbus (e_bus ▸ hc))
      (fun hc => hsec (e_sec ▸ hc)) (fun hc => hsen (e_sen ▸ hc))
      (fun fi hc => hheld fi ((congrArg (fun l => (l.getD fi defFU).inst) e_pool) ▸ hc))
      ?_ ?_ f12
    · intro hni
      obtain ⟨n1, n2, n3, n4, n5, n6⟩ := hni
      refine ⟨List.not_mem_nil p, by rw [e_fdn]; exact n2, ?_,
        by rw [e_dsc]; exact n4, by rw [e_dsn]; exact n5, by rw [e_rs]; exact n6⟩
      intro hc
      rcases List.mem_append.1 (hqq ▸ hc) with hc1 | hc1
      · exact n3 hc1
      · exact n1 hc1
    · intro hmi
      rcases hmi with hm | hm | hm | hm | hm | hm
      · refine Or.inr (Or.inr (Or.inl ?_))
        show p ∈ (s.latch_fd_cur.foldl (fun acc j =>
          let acc1 := mmod acc j (fun w => { w with disp_c := c })
          { acc1 with q_dispatch := acc1.q_dispatch ++ [j] }) s).q_dispatch
        rw [hqq]
        exact List.mem_append.2 (Or.inr hm)
      · exact Or.inr (Or.inl (by rw [e_fdn]; exact hm))
      · refine Or.inr (Or.inr (Or.inl ?_))
        show p ∈ (s.latch_fd_cur.foldl (fun acc j =>
          let acc1 := mmod acc j (fun w => { w with disp_c := c })
          { acc1 with q_dispatch := acc1.q_dispatch ++ [j] }) s).q_dispatch
        rw [hqq]
        exact List.mem_append.2 (Or.inl hm)
      · exact Or.inr (Or.inr (Or.inr (Or.inl (by rw [e_dsc]; exact hm))))
      · exact Or.inr (Or.inr (Or.inr (Or.inr (Or.inl (by rw [e_dsn]; exact hm)))))
      · exact Or.inr (Or.inr (Or.inr (Or.inr (Or.inr (by rw [e_rs]; exact hm)))))

/-- The statistics sample preserves the deadlock invariant. -/
theorem stats_dead (tr : List ProcInst) (p : Nat) (s : PState) (h : DeadInv tr p s) :
    DeadInv tr p (stats_sample s) := h

/-- The lookahead scan of a pool without type-1 slots: the type-1 counter
stays zero and every candidate also has type 0 or 2. -/
theorem look_fold_no1 (s : PState) (c : Nat) :
    ∀ (L : List FU) (acc : Counts × List Cand),
      (∀ fu ∈ L, fu.type = 0 ∨ fu.type = 2) → getC acc.1 1 = 0 →
      (∀ cd ∈ acc.2, cd.type = 0 ∨ cd.type = 2) →
      getC (L.foldl (look_step s c) acc).1 1 = 0 ∧
        ∀ cd ∈ (L.foldl (look_step s c) acc).2, cd.type = 0 ∨ cd.type = 2 := by
  intro L
  induction L with
  | nil => intro acc _ h2 h3; exact ⟨h2, h3⟩
  | cons fu L ih =>
    intro acc hL h2 h3
    rw [List.foldl_cons]
    refine ih (look_step s c acc fu) (fun g hg => hL g (List.mem_cons_of_mem fu hg)) ?_ ?_
    · simp only [look_step]
      split
      · rcases hL fu (List.mem_cons_self fu L) with ht | ht <;> rw [ht]
        · exact h2
        · exact h2
      · split_ifs <;> exact h2
    · simp only [look_step]
      split
      · exact h3
      · split_ifs <;>
        first
          | exact h3
          | (intro cd hcd
             rcases List.mem_append.1 hcd with hc | hc
             · exact h3 cd hc
             · rw [List.mem_singleton.1 hc]
               exact hL fu (List.mem_cons_self fu L))

/-- Counting candidates of types 0 and 2 never bumps the type-1 counter. -/
theorem count_fold_no1 :
    ∀ (CL : List Cand) (cnt : Counts),
      (∀ cd ∈ CL, cd.type = 0 ∨ cd.type = 2) → getC cnt 1 = 0 →
      getC (CL.foldl (fun c2 cand => incC c2 cand.type) cnt) 1 = 0 := by
  intro CL
  induction CL with
  | nil => intro cnt _ h2; exact h2
  | cons cd CL ih =>
    intro cnt hT h2
    rw [List.foldl_cons]
    refine ih (incC cnt cd.type) (fun g hg => hT g (List.mem_cons_of_mem cd hg)) ?_
    rcases hT cd (List.mem_cons_self cd CL) with ht | ht <;> rw [ht]
    · exact h2
    · exact h2

/-- With no type-1 FU slot in the pool, the FU lookahead projects zero free
type-1 slots, whatever the bus-wait state and the CDB width. -/
theorem projected_no_type1 (s : PState) (c : Nat) (h : NoFU1 s) :
    getC (projected_free_fus s c) 1 = 0 := by
  obtain ⟨h1, h2⟩ := look_fold_no1 s c s.fu_pool ((0, 0, 0), []) h rfl
    (fun cd hcd => absurd hcd (List.not_mem_nil cd))
  simp only [projected_free_fus]
  refine count_fold_no1 _ _ ?_ h1
  intro cd hcd
  exact h2 cd ((mem_sortByKey _ cd _).1 (List.mem_of_mem_take hcd))

/-- The issue scan with a zero type-1 budget: a type-1 instruction is never
issued into the schedule→execute latch, instruction types are kept, and
only the arena and that latch change. -/
theorem issue_scan_dead (c p : Nat) :
    ∀ (L : List Nat) (fn rsv : Counts) (fired : Nat) (x : PState),
      getC fn 1 = 0 →
      (p ∈ L → (mget x p).type = 1) →
      p ∉ x.latch_se_nxt →
      (p ∉ (issue_scan c L fn rsv fired x).1.latch_se_nxt ∧
       (∀ m, (mget (issue_scan c L fn rsv fired x).1 m).type = (mget x m).type) ∧
       (issue_scan c L fn rsv fired x).1.store.length = x.store.length ∧
       ((issue_scan c L fn rsv fired x).1.trace, (issue_scan c L fn rsv fired x).1.trace_done,
        (issue_scan c L fn rsv fired x).1.st_update, (issue_scan c L fn rsv fired x).1.bus_wait,
        (issue_scan c L fn rsv fired x).1.latch_se_cur, (issue_scan c L fn rsv fired x).1.latch_fd_cur,
        (issue_scan c L fn rsv fired x).1.latch_fd_nxt, (issue_scan c L fn rsv fired x).1.q_dispatch,
        (issue_scan c L fn rsv fired x).1.latch_ds_cur, (issue_scan c L fn rsv fired x).1.latch_ds_nxt,
        (issue_scan c L fn rsv fired x).1.rs, (issue_scan c L fn rsv fired x).1.fu_pool) =
       (x.trace, x.trace_done, x.st_update, x.bus_wait, x.latch_se_cur, x.latch_fd_cur,
        x.latch_fd_nxt, x.q_dispatch, x.latch_ds_cur, x.latch_ds_nxt, x.rs, x.fu_pool)) := by
  intro L
  induction L with
  | nil => intro fn rsv fired x h1 h2 h3; exact ⟨h3, fun m => rfl, rfl, rfl⟩
  | cons j L ih =>
    intro fn rsv fired x h1 h2 h3
    simp only [issue_scan]
    split_ifs with hc1 hc2 hc3 hc4
    · exact ih fn rsv fired x h1 (fun hm => h2 (List.mem_cons_of_mem j hm)) h3
    · exact ih fn rsv fired x h1 (fun hm => h2 (List.mem_cons_of_mem j hm)) h3
    · exact ih fn rsv fired x h1 (fun hm => h2 (List.mem_cons_of_mem j hm)) h3
    · exact ih fn rsv fired x h1 (fun hm => h2 (List.mem_cons_of_mem j hm)) h3
    · have hjp : j ≠ p := by
        intro he
        subst he
        rw [h2 (List.mem_cons_self j L), h1] at hc4
        exact hc4 (Nat.zero_le _)
      obtain ⟨r1, r2, r3, r4⟩ := ih fn (incC rsv (mget x j).type) (fired + 1)
        { mmod x j (fun v => { v with issued := true }) with
            latch_se_nxt := (mmod x j (fun v => { v with issued := true })).latch_se_nxt ++ [j] }
        h1
        (fun hm => by
          refine Eq.trans ?_ (h2 (List.mem_cons_of_mem j hm))
          show (mget (mmod x j (fun v => { v with issued := true })) p).type = (mget x p).type
          exact typeAt_mmod x j p _ (fun v => rfl))
        (fun hc => by
          rcases List.mem_append.1 hc with hc1 | hc1
          · exact h3 hc1
          · exact hjp (List.mem_singleton.1 hc1).symm)
      refine ⟨r1, ?_, ?_, ?_⟩
      · intro m
        refine (r2 m).trans ?_
        show (mget (mmod x j (fun v => { v with issued := true })) m).type = (mget x m).type
        exact typeAt_mmod x j m _ (fun v => rfl)
      · refine r3.trans ?_
        show (mmod x j (fun v => { v with issued := true })).store.length = x.store.length
        rw [mmod_store_length]
      · exact r4.trans rfl

/-- The issue stage preserves the deadlock invariant: the bad instruction
can never reserve a projected-free FU of its type. -/
theorem issue_dead (tr : List ProcInst) (p : Nat) (c : Nat) (s : PState) (h : DeadInv tr p s) :
    DeadInv tr p (issue_stage c s) := by
  obtain ⟨hfu, htd, hdr, ⟨hst, hbus, hsec, hsen, hheld⟩, hside⟩ := h
  unfold issue_stage issue_ready
  split
  · exact ⟨hfu, htd, hdr, ⟨hst, hbus, hsec, hsen, hheld⟩, hside⟩
  · have hguard : p ∈ sortByKey (fun a b => (mget s a).tag ≤ (mget s b).tag) s.rs →
        (mget s p).type = 1 := by
      intro hm
      have hmem : p ∈ s.rs := (mem_sortByKey _ p s.rs).1 hm
      rcases hside with ⟨hle, hni⟩ | ⟨hlt, hbc, hmi⟩
      · exact absurd hmem hni.2.2.2.2.2
      · exact hbc
    obtain ⟨r1, r2, r3, r4⟩ := issue_scan_dead c p
      (sortByKey (fun a b => (mget s a).tag ≤ (mget s b).tag) s.rs)
      (projected_free_fus s c) (0, 0, 0) 0 s (projected_no_type1 s c hfu) hguard hsen
    simp only [Prod.mk.injEq] at r4
    obtain ⟨e_tr, e_td, e_st, e_bus, e_sec, e_fdc, e_fdn, e_q, e_dsc, e_dsn, e_rs, e_pool⟩ := r4
    have hio := inOut_of_eqs (s := s) (p := p) e_fdc e_fdn e_q e_dsc e_dsn (by rw [e_rs])
    exact deadInv_mk tr p s _ htd hdr hside
      (fun fu hm => hfu fu (e_pool ▸ hm)) e_tr e_td r3
      (fun hc => hst (e_st ▸ hc)) (fun hc => hbus (e_bus ▸ hc)) (fun hc => hsec (e_sec ▸ hc))
      r1
      (fun fi hc => hheld fi ((congrArg (fun l => (l.getD fi defFU).inst) e_pool) ▸ hc))
      hio.1 hio.2 (r2 p)

/-- The dispatch-queue drain: everything but the queue and the
dispatch→schedule next-latch is untouched, and an index moves from the
queue into that latch or stays. -/
theorem d2s_go_dead (p : Nat) :
    ∀ (L : List Nat) (x : PState), x.q_dispatch = L →
      (((dispatch_to_schedule_go L x).trace, (dispatch_to_schedule_go L x).trace_done,
        (dispatch_to_schedule_go L x).store, (dispatch_to_schedule_go L x).st_update,
        (dispatch_to_schedule_go L x).bus_wait, (dispatch_to_schedule_go L x).latch_se_cur,
        (dispatch_to_schedule_go L x).latch_se_nxt, (dispatch_to_schedule_go L x).latch_fd_cur,
        (dispatch_to_schedule_go L x).latch_fd_nxt, (dispatch_to_schedule_go L x).latch_ds_cur,
        (dispatch_to_schedule_go L x).rs, (dispatch_to_schedule_go L x).fu_pool) =
       (x.trace, x.trace_done, x.store, x.st_update, x.bus_wait, x.latch_se_cur,
        x.latch_se_nxt, x.latch_fd_cur, x.latch_fd_nxt, x.latch_ds_cur, x.rs, x.fu_pool)) ∧
      ((p ∈ L ∨ p ∈ x.latch_ds_nxt) →
        (p ∈ (dispatch_to_schedule_go L x).q_dispatch ∨
         p ∈ (dispatch_to_schedule_go L x).latch_ds_nxt)) ∧
      (p ∉ L → p ∉ x.latch_ds_nxt →
        (p ∉ (dispatch_to_schedule_go L x).q_dispatch ∧
         p ∉ (dispatch_to_schedule_go L x).latch_ds_nxt)) := by
  intro L
  induction L with
  | nil =>
    intro x hq
    refine ⟨rfl, ?_, ?_⟩
    · intro hc
      rcases hc with hc | hc
      · exact absurd hc (List.not_mem_nil p)
      · exact Or.inr hc
    · intro h1 h2
      refine ⟨?_, h2⟩
      show p ∉ x.q_dispatch
      rw [hq]
      exact List.not_mem_nil p
  | cons j L ih =>
    intro x hq
    unfold dispatch_to_schedule_go
    split
    · refine ⟨rfl, ?_, ?_⟩
      · intro hc
        rcases hc with hc | hc
        · exact Or.inl (by rw [hq]; exact hc)
        · exact Or.inr hc
      · intro h1 h2
        exact ⟨by rw [hq]; exact h1, h2⟩
    · obtain ⟨t1, t2, t3⟩ := ih
        { x with q_dispatch := L, latch_ds_nxt := x.latch_ds_nxt ++ [j] } rfl
      refine ⟨t1.trans rfl, ?_, ?_⟩
      · intro hc
        refine t2 ?_
        rcases hc with hc | hc
        · rcases List.mem_cons.1 hc with hc1 | hc1
          · exact Or.inr (List.mem_append.2 (Or.inr (by rw [hc1]; exact List.mem_singleton_self j)))
          · exact Or.inl hc1
        · exact Or.inr (List.mem_append.2 (Or.inl hc))
      · intro h1 h2
        refine t3 (fun hc => h1 (List.mem_cons_of_mem j hc)) ?_
        intro hc
        rcases List.mem_append.1 hc with hc1 | hc1
        · exact h2 hc1
        · exact h1 (by rw [List.mem_singleton.1 hc1]; exact List.mem_cons_self j L)

/-- Stage 2a preserves the deadlock invariant. -/
theorem d2s_dead (tr : List ProcInst) (p : Nat) (s : PState) (h : DeadInv tr p s) :
    DeadInv tr p (dispatch_to_schedule s) := by
  obtain ⟨hfu, htd, hdr, ⟨hst, hbus, hsec, hsen, hheld⟩, hside⟩ := h
  unfold dispatch_to_schedule
  obtain ⟨t1, t2, t3⟩ := d2s_go_dead p s.q_dispatch s rfl
  simp only [Prod.mk.injEq] at t1
  obtain ⟨e_tr, e_td, e_store, e_st, e_bus, e_sec, e_sen, e_fdc, e_fdn, e_dsc, e_rs, e_pool⟩ := t1
  refine deadInv_mk tr p s _ htd hdr hside
    (fun fu hm => hfu fu (e_pool ▸ hm)) e_tr e_td (congrArg List.length e_store)
    (fun hc => hst (e_st ▸ hc)) (fun hc => hbus (e_bus ▸ hc)) (fun hc => hsec (e_sec ▸ hc))
    (fun hc => hsen (e_sen ▸ hc))
    (fun fi hc => hheld fi ((congrArg (fun l => (l.getD fi defFU).inst) e_pool) ▸ hc))
    ?_ ?_ (congrArg (fun l => (l.getD p defInst).type) e_store)
  · intro hni
    obtain ⟨n1, n2, n3, n4, n5, n6⟩ := hni
    obtain ⟨m1, m2⟩ := t3 n3 n5
    exact ⟨by rw [e_fdc]; exact n1, by rw [e_fdn]; exact n2, m1,
      by rw [e_dsc]; exact n4, m2, by rw [e_rs]; exact n6⟩
  · intro hmi
    rcases hmi with hm | hm | hm | hm | hm | hm
    · exact Or.inl (by rw [e_fdc]; exact hm)
    · exact Or.inr (Or.inl (by rw [e_fdn]; exact hm))
    · rcases t2 (Or.inl hm) with hc | hc
      · exact Or.inr (Or.inr (Or.inl hc))
      · exact Or.inr (Or.inr (Or.inr (Or.inr (Or.inl hc))))
    · exact Or.inr (Or.inr (Or.inr (Or.inl (by rw [e_dsc]; exact hm))))
    · rcases t2 (Or.inr hm) with hc | hc
      · exact Or.inr (Or.inr (Or.inl hc))
      · exact Or.inr (Or.inr (Or.inr (Or.inr (Or.inl hc))))
    · exact Or.inr (Or.inr (Or.inr (Or.inr (Or.inr (by rw [e_rs]; exact hm)))))

/-- The fetch loop touches only the trace, the arena, the tag counter and
the fetch→dispatch next-latch. -/
theorem fetch_go_untouched (c : Nat) : ∀ (n : Nat) (x : PState),
    ((fetch_go c n x).q_dispatch, (fetch_go c n x).rs, (fetch_go c n x).latch_ds_cur,
     (fetch_go c n x).latch_ds_nxt, (fetch_go c n x).latch_fd_cur, (fetch_go c n x).latch_se_cur,
     (fetch_go c n x).latch_se_nxt, (fetch_go c n x).st_update, (fetch_go c n x).bus_wait,
     (fetch_go c n x).fu_pool) =
    (x.q_dispatch, x.rs, x.latch_ds_cur, x.latch_ds_nxt, x.latch_fd_cur, x.latch_se_cur,
     x.latch_se_nxt, x.st_update, x.bus_wait, x.fu_pool) := by
  intro n
  induction n with
  | zero => intro x; rfl
  | succ n ih =>
    intro x
    simp only [fetch_go]
    split
    · rfl
    · exact (ih _).trans rfl

/-- The fetch loop preserves the trace-consumption protocol and moves the
bad instruction from the unread trace into the fetch→dispatch latch. -/
theorem fetch_go_dead (tr : List ProcInst) (p : Nat) (bad : ProcInst)
    (hp : tr[p]? = some bad) (hop : bad.op_code < 0) (c : Nat) :
    ∀ (n : Nat) (x : PState),
      x.trace = tr.drop x.store.length →
      (x.trace_done = true → x.trace = []) →
      ((x.store.length ≤ p ∧ NotIn x p) ∨ (p < x.store.length ∧ BadCore x p ∧ MemIn x p)) →
      ((fetch_go c n x).trace = tr.drop (fetch_go c n x).store.length ∧
       ((fetch_go c n x).trace_done = true → (fetch_go c n x).trace = []) ∧
       (((fetch_go c n x).store.length ≤ p ∧ NotIn (fetch_go c n x) p) ∨
        (p < (fetch_go c n x).store.length ∧ BadCore (fetch_go c n x) p ∧
          MemIn (fetch_go c n x) p))) := by
  intro n
  induction n with
  | zero => intro x h1 h2 h3; exact ⟨h1, h2, h3⟩
  | succ n ih =>
    intro x h1 h2 h3
    simp only [fetch_go]
    split
    · rename_i heq
      exact ⟨h1, fun _ => heq, h3⟩
    · rename_i raw rest heq
      have hdropeq : tr.drop x.store.length = raw :: rest := by
        rw [← h1]
        exact heq
      have hrest : rest = tr.drop (x.store.length + 1) := by
        have h5 : tr.drop (x.store.length + 1) = (tr.drop x.store.length).drop 1 := by
          rw [List.drop_drop, Nat.add_comm]
        rw [h5, hdropeq]
        rfl
      refine ih _ ?_ ?_ ?_
      · show rest = tr.drop (x.store ++ [({ raw := raw, tag := x.next_tag, type := fu_type_from_opcode raw.op_code, fetch_c := c } : Inst)]).length
        rw [List.length_append]
        exact hrest
      · intro hc
        exact absurd (heq ▸ h2 hc) (List.cons_ne_nil raw rest)
      · rcases h3 with ⟨hle, hni⟩ | ⟨hlt, hbc, hmi⟩
        · rcases Nat.eq_or_lt_of_le hle with heqp | hltp
          · right
            have hraw : raw = bad := by
              have h0 : (tr.drop x.store.length)[0]? = some raw := by
                rw [hdropeq]
                simp
              rw [List.getElem?_drop, Nat.add_zero, heqp, hp] at h0
              exact (Option.some.inj h0).symm
            refine ⟨?_, ?_, ?_⟩
            · show p < (x.store ++ [({ raw := raw, tag := x.next_tag, type := fu_type_from_opcode raw.op_code, fetch_c := c } : Inst)]).length
              simp only [List.length_append, List.length_singleton]
              omega
            · show ((x.store ++ [({ raw := raw, tag := x.next_tag, type := fu_type_from_opcode raw.op_code, fetch_c := c } : Inst)]).getD p defInst).type = 1
              rw [List.getD_eq_getElem?_getD, ← heqp, List.getElem?_concat_length]
              show fu_type_from_opcode raw.op_code = 1
              rw [hraw]
              unfold fu_type_from_opcode
              rw [if_pos hop]
            · refine Or.inr (Or.inl ?_)
              show p ∈ x.latch_fd_nxt ++ [x.store.length]
              rw [heqp]
              exact List.mem_append.2 (Or.inr (List.mem_singleton_self p))
          · left
            obtain ⟨n1, n2, n3, n4, n5, n6⟩ := hni
            refine ⟨?_, n1, ?_, n3, n4, n5, n6⟩
            · show (x.store ++ [({ raw := raw, tag := x.next_tag, type := fu_type_from_opcode raw.op_code, fetch_c := c } : Inst)]).length ≤ p
              simp only [List.length_append, List.length_singleton]
              omega
            · show p ∉ x.latch_fd_nxt ++ [x.store.length]
              intro hc
              rcases List.mem_append.1 hc with hc1 | hc1
              · exact n2 hc1
              · have := List.mem_singleton.1 hc1
                omega
        · right
          have hbc2 : (x.store[p]?.getD defInst).type = 1 := by
            rw [← List.getD_eq_getElem?_getD]
            exact hbc
          refine ⟨?_, ?_, ?_⟩
          · show p < (x.store ++ [({ raw := raw, tag := x.next_tag, type := fu_type_from_opcode raw.op_code, fetch_c := c } : Inst)]).length
            simp only [List.length_append, List.length_singleton]
            omega
          · show ((x.store ++ [({ raw := raw, tag := x.next_tag, type := fu_type_from_opcode raw.op_code, fetch_c := c } : Inst)]).getD p defInst).type = 1
            rw [List.getD_eq_getElem?_getD, List.getElem?_append_left hlt]
            exact hbc2
          · rcases hmi with hm | hm | hm | hm | hm | hm
            · exact Or.inl hm
            · exact Or.inr (Or.inl (List.mem_append.2 (Or.inl hm)))
            · exact Or.inr (Or.inr (Or.inl hm))
            · exact Or.inr (Or.inr (Or.inr (Or.inl hm)))
            · exact Or.inr (Or.inr (Or.inr (Or.inr (Or.inl hm))))
            · exact Or.inr (Or.inr (Or.inr (Or.inr (Or.inr hm))))

/-- Stage 1 preserves the deadlock invariant. -/
theorem fetch_dead (tr : List ProcInst) (p : Nat) (bad : ProcInst)
    (hp : tr[p]? = some bad) (hop : bad.op_code < 0) (c : Nat) (s : PState)
    (h : DeadInv tr p s) : DeadInv tr p (fetch_instructions c s) := by
  obtain ⟨hfu, htd, hdr, ⟨hst, hbus, hsec, hsen, hheld⟩, hside⟩ := h
  unfold fetch_instructions
  split
  · exact ⟨hfu, htd, hdr, ⟨hst, hbus, hsec, hsen, hheld⟩, hside⟩
  · obtain ⟨m1, m2, m3⟩ := fetch_go_dead tr p bad hp hop c s.gF s hdr htd hside
    have hq := fetch_go_untouched c s.gF s
    simp only [Prod.mk.injEq] at hq
    obtain ⟨e_q, e_rs, e_dsc, e_dsn, e_fdc, e_sec, e_sen, e_st, e_bus, e_pool⟩ := hq
    exact ⟨fun fu hm => hfu fu (e_pool ▸ hm), m2, m1,
      ⟨fun hc => hst (e_st ▸ hc), fun hc => hbus (e_bus ▸ hc), fun hc => hsec (e_sec ▸ hc),
       fun hc => hsen (e_sen ▸ hc),
       fun fi hc => hheld fi ((congrArg (fun l => (l.getD fi defFU).inst) e_pool) ▸ hc)⟩, m3⟩

/-- Latch advance preserves the deadlock invariant once the three current
latches have been drained. -/
theorem advance_dead (tr : List ProcInst) (p : Nat) (s : PState) (h : DeadInv tr p s)
    (hfd : s.latch_fd_cur = []) (hds : s.latch_ds_cur = []) :
    DeadInv tr p (advance_latches s) := by
  obtain ⟨hfu, htd, hdr, ⟨hst, hbus, hsec, hsen, hheld⟩, hside⟩ := h
  refine ⟨hfu, htd, hdr, ⟨hst, hbus, hsen, List.not_mem_nil p, hheld⟩, ?_⟩
  rcases hside with ⟨hle, hni⟩ | ⟨hlt, hbc, hmi⟩
  · obtain ⟨n1, n2, n3, n4, n5, n6⟩ := hni
    exact Or.inl ⟨hle, n2, List.not_mem_nil p, n3, n5, List.not_mem_nil p, n6⟩
  · refine Or.inr ⟨hlt, hbc, ?_⟩
    rcases hmi with hm | hm | hm | hm | hm | hm
    · rw [hfd] at hm
      exact absurd hm (List.not_mem_nil p)
    · exact Or.inl hm
    · exact Or.inr (Or.inr (Or.inl hm))
    · rw [hds] at hm
      exact absurd hm (List.not_mem_nil p)
    · exact Or.inr (Or.inr (Or.inr (Or.inl hm)))
    · exact Or.inr (Or.inr (Or.inr (Or.inr (Or.inr hm))))

/-- Stage 3a leaves the dispatch→schedule latch empty. -/
theorem insert_ds_nil (c : Nat) (s : PState) : (insert_into_rs c s).latch_ds_cur = [] := by
  unfold insert_into_rs
  split
  · rename_i hemp
    exact List.isEmpty_iff.1 hemp
  · rfl

/-- Stage 2b leaves the fetch→dispatch latch empty. -/
theorem move_fd_nil (c : Nat) (s : PState) : (move_into_dispatch c s).latch_fd_cur = [] := by
  unfold move_into_dispatch
  split
  · rename_i hemp
    exact List.isEmpty_iff.1 hemp
  · rfl

/-- Stage 2b never touches the dispatch→schedule latch. -/
theorem move_ds_eq (c : Nat) (s : PState) :
    (move_into_dispatch c s).latch_ds_cur = s.latch_ds_cur := by
  unfold move_into_dispatch
  split
  · rfl
  · refine foldl_proj (fun y => y.latch_ds_cur) _ (fun y a => ?_) _ s
    rfl

/-- The issue scan never touches the drained current latches. -/
theorem issue_scan_cur (c : Nat) :
    ∀ (L : List Nat) (fn rsv : Counts) (fired : Nat) (x : PState),
      ((issue_scan c L fn rsv fired x).1.latch_fd_cur,
       (issue_scan c L fn rsv fired x).1.latch_ds_cur) =
      (x.latch_fd_cur, x.latch_ds_cur) := by
  intro L
  induction L with
  | nil => intro fn rsv fired x; rfl
  | cons j L ih =>
    intro fn rsv fired x
    simp only [issue_scan]
    split_ifs <;> exact (ih _ _ _ _).trans rfl

/-- The issue stage never touches the drained current latches. -/
theorem issue_cur (c : Nat) (s : PState) :
    ((issue_stage c s).latch_fd_cur, (issue_stage c s).latch_ds_cur) =
    (s.latch_fd_cur, s.latch_ds_cur) := by
  unfold issue_stage issue_ready
  split
  · rfl
  · exact issue_scan_cur c _ _ _ _ s

/-- The dispatch-queue drain never touches the current latches. -/
theorem d2s_go_cur : ∀ (L : List Nat) (x : PState),
    ((dispatch_to_schedule_go L x).latch_fd_cur, (dispatch_to_schedule_go L x).latch_ds_cur) =
    (x.latch_fd_cur, x.latch_ds_cur) := by
  intro L
  induction L with
  | nil => intro x; rfl
  | cons j L ih =>
    intro x
    unfold dispatch_to_schedule_go
    split
    · rfl
    · exact (ih _).trans rfl

/-- Fetch never touches the current latches. -/
theorem fetch_cur (c : Nat) (s : PState) :
    ((fetch_instructions c s).latch_fd_cur, (fetch_instructions c s).latch_ds_cur) =
    (s.latch_fd_cur, s.latch_ds_cur) := by
  unfold fetch_instructions
  split
  · rfl
  · have hq := fetch_go_untouched c s.gF s
    simp only [Prod.mk.injEq] at hq
    obtain ⟨e_q, e_rs, e_dsc, e_dsn, e_fdc, e_sec, e_sen, e_st, e_bus, e_pool⟩ := hq
    rw [e_fdc, e_dsc]

/-- After stage 2b the fetch→dispatch latch stays empty through issue,
dispatch and fetch. -/
theorem post_move_fd_nil (c : Nat) (y : PState) :
    (fetch_instructions c (dispatch_to_schedule (issue_stage c (stats_sample
      (move_into_dispatch c y))))).latch_fd_cur = [] := by
  have ef := fetch_cur c (dispatch_to_schedule (issue_stage c (stats_sample
    (move_into_dispatch c y))))
  simp only [Prod.mk.injEq] at ef
  rw [ef.1]
  unfold dispatch_to_schedule
  have ed := d2s_go_cur (issue_stage c (stats_sample (move_into_dispatch c y))).q_dispatch
    (issue_stage c (stats_sample (move_into_dispatch c y)))
  simp only [Prod.mk.injEq] at ed
  rw [ed.1]
  have ei := issue_cur c (stats_sample (move_into_dispatch c y))
  simp only [Prod.mk.injEq] at ei
  rw [ei.1]
  rw [show (stats_sample (move_into_dispatch c y)).latch_fd_cur =
    (move_into_dispatch c y).latch_fd_cur from rfl]
  exact move_fd_nil c y

/-- After stage 3a the dispatch→schedule latch stays empty through move,
issue, dispatch and fetch. -/
theorem post_insert_ds_nil (c : Nat) (y : PState) :
    (fetch_instructions c (dispatch_to_schedule (issue_stage c (stats_sample
      (move_into_dispatch c (insert_into_rs c y)))))).latch_ds_cur = [] := by
  have ef := fetch_cur c (dispatch_to_schedule (issue_stage c (stats_sample
    (move_into_dispatch c (insert_into_rs c y)))))
  simp only [Prod.mk.injEq] at ef
  rw [ef.2]
  unfold dispatch_to_schedule
  have ed := d2s_go_cur
    (issue_stage c (stats_sample (move_into_dispatch c (insert_into_rs c y)))).q_dispatch
    (issue_stage c (stats_sample (move_into_dispatch c (insert_into_rs c y))))
  simp only [Prod.mk.injEq] at ed
  rw [ed.2]
  have ei := issue_cur c (stats_sample (move_into_dispatch c (insert_into_rs c y)))
  simp only [Prod.mk.injEq] at ei
  rw [ei.2]
  rw [show (stats_sample (move_into_dispatch c (insert_into_rs c y))).latch_ds_cur =
    (move_into_dispatch c (insert_into_rs c y)).latch_ds_cur from rfl]
  rw [move_ds_eq]
  exact insert_ds_nil c y

/-- One driver-loop iteration preserves the deadlock invariant. -/
theorem loop_body_dead (tr : List ProcInst) (p : Nat) (bad : ProcInst)
    (hp : tr[p]? = some bad) (hop : bad.op_code < 0) (s : PState) (h : DeadInv tr p s) :
    DeadInv tr p (loop_body s) := by
  have h0 : DeadInv tr p { s with cycle := s.cycle + 1 } := h
  have h1 := retire_dead tr p _ h0
  have h2 := tick_dead tr p (s.cycle + 1) _ h1
  have h3 := broadcast_dead tr p (s.cycle + 1) _ h2
  have h4 := start_dead tr p (s.cycle + 1) _ h3
  have h5 := insert_dead tr p (s.cycle + 1) _ h4
  have h6 := move_dead tr p (s.cycle + 1) _ h5
  have h7 := stats_dead tr p _ h6
  have h8 := issue_dead tr p (s.cycle + 1) _ h7
  have h9 := d2s_dead tr p _ h8
  have h10 := fetch_dead tr p bad hp hop (s.cycle + 1) _ h9
  simp only [loop_body]
  exact advance_dead tr p _ h10 (post_move_fd_nil _ _) (post_insert_ds_nil _ _)

/-- A nonempty container shows the pipeline is not empty. -/
theorem isEmpty_false_of_mem {l : List Nat} {a : Nat} (h : a ∈ l) : l.isEmpty = false := by
  cases l
  · cases h
  · rfl

/-- Under the deadlock invariant (with the bad record inside the trace) the
driver loop's exit condition is false. -/
theorem dead_not_done (tr : List ProcInst) (p : Nat) (s : PState) (h : DeadInv tr p s)
    (hlt : p < tr.length) : loop_done s = false := by
  obtain ⟨hfu, htd, hdr, hout, hside⟩ := h
  unfold loop_done
  cases htdc : s.trace_done with
  | false => simp
  | true =>
    rcases hside with ⟨hle, _⟩ | ⟨_, _, hmi⟩
    · exfalso
      have he : tr.drop s.store.length = [] := by
        rw [← hdr]
        exact htd htdc
      have := List.drop_eq_nil_iff.1 he
      omega
    · have hpe : pipeline_empty s = false := by
        rcases hmi with hm | hm | hm | hm | hm | hm <;>
          simp [pipeline_empty, isEmpty_false_of_mem hm]
      rw [hpe]
      simp

/-- The initial state of a `K1 = 0` configuration satisfies the deadlock
invariant for any position of the bad record. -/
theorem setup_dead (tr : List ProcInst) (p : Nat) (r k0 k2 f : Nat) :
    DeadInv tr p (setup_proc r k0 0 k2 f tr) := by
  refine ⟨?_, fun hc => Bool.noConfusion hc, rfl,
    ⟨List.not_mem_nil p, List.not_mem_nil p, List.not_mem_nil p, List.not_mem_nil p, ?_⟩,
    Or.inl ⟨Nat.zero_le p, List.not_mem_nil p, List.not_mem_nil p, List.not_mem_nil p,
      List.not_mem_nil p, List.not_mem_nil p, List.not_mem_nil p⟩⟩
  · intro fu hm
    have hm2 : fu ∈ List.replicate k0 ({ type := 0 } : FU) ++
        List.replicate 0 ({ type := 1 } : FU) ++ List.replicate k2 ({ type := 2 } : FU) := hm
    rcases List.mem_append.1 hm2 with h1 | h1
    · rcases List.mem_append.1 h1 with h2 | h2
      · left
        rw [List.eq_of_mem_replicate h2]
      · rcases List.mem_replicate.1 h2 with ⟨h0, _⟩
        exact absurd rfl h0
    · right
      rw [List.eq_of_mem_replicate h1]
  · intro fi
    rw [fget_inst_none mkPool_idle fi]
    exact fun hc => Option.noConfusion hc

/-- C9: with `K1 = 0` (and at least one FU of another type) a trace holding
an instruction whose opcode is negative — which decodes to FU type 1 —
deadlocks the simulator: the instruction reaches the reservation station
but the issue stage can never project a free type-1 FU for it, so the
pipeline never drains and `run` never terminates, whatever the fuel. -/
theorem deadlock_no_type1_fu (r k0 k2 f fuel : Nat) (tr : List ProcInst) (p : Nat)
    (bad : ProcInst) (hp : tr[p]? = some bad) (hop : bad.op_code < 0) (hk : 1 ≤ k0 + k2) :
    run_proc fuel (setup_proc r k0 0 k2 f tr) = none := by
  have hlt : p < tr.length := by
    by_contra hc
    rw [List.getElem?_eq_none (Nat.le_of_not_lt hc)] at hp
    cases hp
  have key : ∀ (n : Nat) (x : PState), DeadInv tr p x → run_loop n x = none := by
    intro n
    induction n with
    | zero =>
      intro x hx
      show (if loop_done x = true then some x else none) = none
      rw [dead_not_done tr p x hx hlt]
      rfl
    | succ n ih =>
      intro x hx
      show (if loop_done x = true then some x else run_loop n (loop_body x)) = none
      rw [dead_not_done tr p x hx hlt]
      simp only [Bool.false_eq_true, if_false]
      exact ih (loop_body x) (loop_body_dead tr p bad hp hop x hx)
  unfold run_proc
  rw [key fuel _ (setup_dead tr p r k0 k2 f)]

/-- C9 exercised on a concrete deadlocking run: a single `op = -1`
instruction under `R = 1, K = (1, 0, 0), F = 1`. -/
theorem deadlock_no_type1_fu_witness :
    run_proc 3 (setup_proc 1 1 0 0 1 [⟨-1, -1, -1, -1⟩]) = none :=
  deadlock_no_type1_fu 1 1 0 1 3 [⟨-1, -1, -1, -1⟩] 0 ⟨-1, -1, -1, -1⟩ (by decide) (by decide)
    (by decide)
